import Mathlib

/-!
# Essence shell: lexer, parser and executor

A shallow embedding of the core of the essence shell (token.c, lexer.c,
parser.c, command.c, history.c, buffer.c, and of input.c the character layer,
the branches of the line editor and the prompt) together with the properties
proved about it.

Conventions of the embedding.

* A C character is an `Int` (the value of a signed `char`, or an `int` such as
  the `EOF` sentinel `-1`); a C string is the list of its characters without
  the terminating NUL.
* The global variables of the program are the fields of `Shell`; every
  function takes the state and returns the new one.
* What the operating system answers (the status of a child, the result of
  `open`, the bytes of a pipe, a typed line) is read from an `OS` record of
  functions of the current state; the state carries a log of the calls made so
  far, so that the answers may change over time.
* A function of the program returns a `Res`: a value and the new state, or the
  end of the process (`exit`), or a fault (behaviour that C leaves undefined),
  or `timeout` when the recursion budget `fuel` of the model is used up.
-/

namespace Essence

/-! ## Strings -/

/-- The character codes of a string literal. -/
def cstr (s : String) : List Int := s.toList.map (fun c => (c.toNat : Int))

/-- The C string that starts at the beginning of a byte sequence: the bytes
before the first NUL. -/
def c_str (bytes : List Int) : List Int := bytes.takeWhile (fun c => c != 0)

/-- Decimal digits of a natural number, as character codes. -/
def decimal_digits (n : Nat) : List Int := (Nat.toDigits 10 n).map (fun c => (c.toNat : Int))

/-- What the conversion `%d` of printf writes for an `int`. -/
def printf_d (n : Int) : List Int :=
  if n < 0 then 45 :: decimal_digits n.natAbs else decimal_digits n.natAbs

/-- What `snprintf(tmp, size, ...)` leaves as the C string in `tmp`: at most
`size - 1` characters of the formatted text. -/
def snprintf (size : Nat) (text : List Int) : List Int := text.take (size - 1)

/-! ## Tokens (token.h, token.c) -/

/-- The token types `TOKEN_TYPE_*` of token.h. -/
inductive TOKEN_TYPE where
  | EOF | STRING | SPACE | NEWLINE | SINGLE_QUOTE | DOUBLE_QUOTE
  | REDIRECT_OUT | REDIRECT_IN | OR | PIPE | AND | AMPERSAND | SEMICOLON
  | DOLLAR | STAR | HASHTAG | QUESTION_MARK | OPEN_PAREN | CLOSE_PAREN
  | EQUALS | TILDE
  deriving DecidableEq, Repr

/-- A token: `type`, and `value`, the C string of a STRING token (empty for the
other types, whose `value` the program never reads). -/
structure token_t where
  type : TOKEN_TYPE
  value : List Int
  deriving DecidableEq, Repr

/-- The switch of `token_characterToType`. -/
def token_characterToType (ch : Int) : TOKEN_TYPE :=
  if ch = -1 then .EOF                 -- EOF
  else if ch = 10 then .NEWLINE        -- '\n'
  else if ch = 32 then .SPACE          -- ' '
  else if ch = 39 then .SINGLE_QUOTE   -- '\''
  else if ch = 34 then .DOUBLE_QUOTE   -- '"'
  else if ch = 62 then .REDIRECT_OUT   -- '>'
  else if ch = 60 then .REDIRECT_IN    -- '<'
  else if ch = 124 then .PIPE          -- '|'
  else if ch = 38 then .AMPERSAND      -- '&'
  else if ch = 59 then .SEMICOLON      -- ';'
  else if ch = 36 then .DOLLAR         -- '$'
  else if ch = 42 then .STAR           -- '*'
  else if ch = 35 then .HASHTAG        -- '#'
  else if ch = 63 then .QUESTION_MARK  -- '?'
  else if ch = 40 then .OPEN_PAREN     -- '('
  else if ch = 41 then .CLOSE_PAREN    -- ')'
  else if ch = 61 then .EQUALS         -- '='
  else if ch = 126 then .TILDE         -- '~'
  else .STRING

/-! ## Commands (command.h) -/

def COMMAND_FLAG_OR : Nat := 0x01
def COMMAND_FLAG_AND : Nat := 0x02
def COMMAND_FLAG_JOB : Nat := 0x04
def COMMAND_FLAG_PIPE_FROM_PREV : Nat := 0x08

/-- The record `command_t`. `additional_envp` is the list of the pushed
environment strings (the C pointer is NULL exactly when the list is empty). -/
structure command_t where
  argc : Nat
  argv : List (List Int)
  envc : Nat
  additional_envp : List (List Int)
  exec_flags : Nat
  stdin : Int
  stdout : Int
  stderr : Int
  deriving DecidableEq, Repr

/-- The macro `COMMAND_INIT`. -/
def COMMAND_INIT : command_t :=
  { argc := 0, argv := [], envc := 0, additional_envp := [], exec_flags := 0,
    stdin := -1, stdout := -1, stderr := -1 }

/-- The macro `COMMAND_PUSH_ARGV`. -/
def COMMAND_PUSH_ARGV (cmd : command_t) (arg : List Int) : command_t :=
  { cmd with argc := cmd.argc + 1, argv := cmd.argv ++ [arg] }

/-- The macro `COMMAND_PUSH_ENVIRON`. -/
def COMMAND_PUSH_ENVIRON (cmd : command_t) (env : List Int) : command_t :=
  { cmd with envc := cmd.envc + 1, additional_envp := cmd.additional_envp ++ [env] }

/-- The test `cmd.exec_flags & flag` of C. -/
def has_flag (cmd : command_t) (flag : Nat) : Bool := (cmd.exec_flags &&& flag) != 0

/-! ## The state of the shell and of its surroundings -/

/-- One interaction of the shell with the outside, in the order they happen. -/
inductive Event where
  /-- fork, exec in the child and waitpid in the parent, for one command -/
  | spawn (cmd : command_t) (wstatus : Option Nat)
  /-- call of a builtin with its argv and the value it returned -/
  | builtin (argv : List (List Int)) (ret : Int)
  /-- putenv in the shell process -/
  | putenv (str : List Int)
  /-- open(2) of a redirection target and its result -/
  | open (path : List Int) (fd : Int)
  /-- the diagnostic of parser_syntaxError -/
  | syntax_error (type : TOKEN_TYPE)
  /-- the diagnostic for an unrecognized token -/
  | unrecognized (type : TOKEN_TYPE)
  /-- a child shell started for a command substitution -/
  | subshell (cmd : List Int)
  /-- a line requested from the input source -/
  | input_get (prompt : Nat)
  /-- a call of rand -/
  | rand
  /-- a call of pipe(2) -/
  | pipe
  deriving DecidableEq, Repr

/-- The global variables of the shell, its environment block and the log. -/
structure Shell where
  -- command.c
  cmd_last_exit_status : Int
  cmd_waitpid_exit_status : Nat
  cmd_last_signalled : Bool
  -- parser.c
  parser_quoted : Bool
  parser_single_quoted : Bool
  parser_pending_redirect : Bool
  parser_pending_fd : Int
  -- lexer.c
  lexer_unget : Option token_t
  -- input.c
  essence_input_type : Nat
  essence_prompt : Nat
  essence_unread_character : Int
  input_buffer : Option (List Int)
  input_buffer_size : Nat
  input_buffer_idx : Nat
  input_buffer_len : Nat
  -- input.c, the line editor
  essence_prompt_x : Nat
  saved_input_buffer : Option (List Int)
  history_index : Nat
  -- history.c: the stored entries, oldest first (`history_buffer_len` is their number)
  history_buffer : Option (List (List Int))
  history_buffer_size : Nat
  -- the number of bytes allocated for input_buffer and for saved_input_buffer
  input_buffer_alloc : Nat
  saved_input_buffer_alloc : Nat
  -- main.c
  essence_argc : Int
  essence_pid : Int
  -- the environment block of the process, entries NAME=VALUE
  environ : List (List Int)
  -- everything the shell has done to the outside so far
  log : List Event
  deriving DecidableEq, Repr

/-- The answers of the operating system and of the user. Each is a function of
the current state (which holds the log), so an answer may depend on all that
happened before. -/
structure OS where
  /-- the wait status that waitpid reports for the child running the command;
  `none` when waitpid fails -/
  waitpid : Shell → command_t → Option Nat
  /-- the result of open(2) on a redirection target: a descriptor, or negative -/
  open_file : Shell → List Int → Int
  /-- the bytes that read(pfd[0], tmp, 128) delivers from the child shell of a
  command substitution (at most 128) -/
  subshell_read : Shell → List Int → List Int
  /-- the value of rand() -/
  rand : Shell → Nat
  /-- the bytes found in the uninitialised array tmp[128] of
  parser_interpretVariable, from index 1 on -/
  stack_tmp : Shell → List Int
  /-- the result of chdir(2) on the given path (`none` for the NULL pointer) -/
  chdir : Shell → Option (List Int) → Int
  /-- whether getcwd succeeds -/
  getcwd_ok : Shell → Bool
  /-- whether pipe(2) succeeds -/
  pipe_ok : Shell → Bool
  /-- the line typed at the terminal when the line editor is asked for one
  (without its newline) -/
  typed_line : Shell → List Int
  /-- the bytes fgets reads from the script file: `none` at end of file -/
  script_line : Shell → Option (List Int)
  /-- the text strftime writes for the given format and the local time -/
  strftime : Shell → List Int → List Int
  /-- the name gethostname writes -/
  hostname : Shell → List Int
  /-- the field pw_name of the entry getpwuid finds for the effective user id;
  `none` when there is no entry -/
  pw_name : Shell → Option (List Int)
  /-- the value of geteuid() -/
  geteuid : Shell → Nat
  /-- the path getcwd writes -/
  cwd : Shell → List Int

/-- Result of running a function of the program. -/
inductive Res (α : Type) where
  /-- the function returned `val`, leaving the state `s` -/
  | ok (val : α) (s : Shell)
  /-- the process ended in `exit(status)` -/
  | halt (status : Int) (s : Shell)
  /-- the program did something C leaves undefined -/
  | fault (s : Shell)
  /-- the recursion budget of the model was used up -/
  | timeout
  deriving DecidableEq, Repr

/-- Sequencing: run `f` on the value and state of a returned result. -/
def Res.bind {α β : Type} (r : Res α) (f : α → Shell → Res β) : Res β :=
  match r with
  | .ok a s => f a s
  | .halt st s => .halt st s
  | .fault s => .fault s
  | .timeout => .timeout

/-! ## The character layer (input.c) -/

/-- The function `input_getCharacter`. -/
def input_getCharacter (s : Shell) : Int × Shell :=
  if s.essence_unread_character ≠ 0 then
    (s.essence_unread_character, { s with essence_unread_character := 0 })
  else
    match s.input_buffer with
    | none => (0, s)
    | some buffer =>
      if s.input_buffer_idx > s.input_buffer_len then (0, s)
      else (buffer.getD s.input_buffer_idx 0,
            { s with input_buffer_idx := s.input_buffer_idx + 1 })

/-- The function `input_ungetCharacter`. -/
def input_ungetCharacter (ch : Int) (s : Shell) : Shell :=
  { s with essence_unread_character := ch }

/-- The function `input_unloadBuffer`. -/
def input_unloadBuffer (s : Shell) : Shell :=
  { s with input_buffer := none, input_buffer_idx := 0, input_buffer_size := 0,
           input_buffer_len := 0, input_buffer_alloc := 0, essence_prompt_x := 0,
           saved_input_buffer := none, history_index := 0 }

/-- The function `input_loadBuffer`: `snprintf(buf, 512, "%s\n", buffer)` and
`strdup` of the result. -/
def input_loadBuffer (buffer : List Int) (s : Shell) : Shell :=
  let buf := snprintf 512 (c_str buffer ++ [10])
  { input_unloadBuffer s with
      input_buffer := some (buf ++ [0]), input_buffer_len := buf.length,
      input_buffer_alloc := buf.length + 1,
      input_buffer_size := 512, input_buffer_idx := 0, essence_unread_character := 0 }

def INPUT_TYPE_INTERACTIVE : Nat := 0
def INPUT_TYPE_SCRIPT : Nat := 1
def INPUT_PROMPT_PS1 : Nat := 0
def INPUT_PROMPT_PS2 : Nat := 1
def INPUT_DEFAULT_BUFFER_SIZE : Nat := 512

/-- The function `input_getScript`: one `fgets` of at most 511 bytes from the
script; at end of file the buffer holds the EOF sentinel. `input_buffer_len` is
the `strlen` of what was read; a newline is stored at that index and a NUL
after it. -/
def input_getScript (os : OS) (s : Shell) : Shell :=
  let s := { s with input_buffer_size := INPUT_DEFAULT_BUFFER_SIZE, input_buffer_idx := 0,
                    input_buffer_alloc := INPUT_DEFAULT_BUFFER_SIZE,
                    input_buffer_len := 0, log := s.log ++ [Event.input_get s.essence_prompt] }
  match os.script_line s with
  | none => { s with input_buffer := some [-1, 10, 0], input_buffer_len := 1 }
  | some line =>
    let text := c_str (line.take 511)
    { s with input_buffer := some (text ++ [10, 0]), input_buffer_len := text.length }

/-! ### The prompt (`input_parsePS`, with buffer.c) -/

/-- The growing buffer of buffer.c: the bytes pushed so far (a NUL follows them
in memory) and the size of the allocation. -/
structure buffer_t where
  buffer : List Int
  bufsz : Nat
  deriving DecidableEq, Repr

/-- The function `buffer_create`. -/
def buffer_create (initial_size : Nat) : buffer_t := { buffer := [], bufsz := initial_size }

/-- The function `buffer_push`. -/
def buffer_push (buf : buffer_t) (ch : Int) : buffer_t :=
  { buffer := buf.buffer ++ [ch],
    bufsz := if buf.buffer.length + 1 ≥ buf.bufsz then buf.bufsz * 2 else buf.bufsz }

/-- The function `buffer_pushString`. -/
def buffer_pushString (buf : buffer_t) (str : List Int) : buffer_t :=
  (c_str str).foldl buffer_push buf

/-- The switch of `input_parsePS` on the character `c` that follows a backslash.
The switch has no default case. -/
def input_parsePS_escape (os : OS) (s : Shell) (c : Int) (buf : buffer_t) : buffer_t :=
  if c = 100 then buffer_pushString buf (os.strftime s (cstr "%a %B %d"))        -- 'd'
  else if c = 104 ∨ c = 72 then                                                   -- 'h', 'H'
    let tmp := c_str (os.hostname s)
    -- if (*p == 'h') { char *dot = strchr(tmp, '.'); if (dot) *tmp = 0; }
    let tmp := if c = 104 ∧ 46 ∈ tmp then [] else tmp
    buffer_pushString buf tmp
  else if c = 106 then buffer_push buf 48                                         -- 'j'
  else if c = 115 then buffer_pushString buf (cstr "essence")                     -- 's'
  else if c = 116 then buffer_pushString buf (os.strftime s (cstr "%H:%M:%S"))    -- 't'
  else if c = 84 then buffer_pushString buf (os.strftime s (cstr "%I:%M:%S"))     -- 'T'
  else if c = 64 then buffer_pushString buf (os.strftime s (cstr "%I:%M %p"))     -- '@'
  else if c = 117 then                                                            -- 'u'
    match os.pw_name s with
    | some name => buffer_pushString buf name
    | none => buffer_pushString buf (cstr "This-user-does-not-exist")
  else if c = 36 then                                                             -- '$'
    if os.geteuid s = 0 then buffer_push buf 35 else buffer_push buf 36
  else if c = 87 then                                                             -- 'W'
    let cwd := c_str (os.cwd s)
    -- the text after the last '/', or all of cwd when it has none
    let last := (cwd.reverse.takeWhile (fun ch => ch != 47)).reverse
    buffer_pushString buf (if cwd.length = 1 then cwd else last)
  else if c = 118 ∨ c = 86 then buffer_pushString buf (cstr "2.0.0")              -- 'v', 'V'
  else if c = 101 then buffer_push buf 27                                         -- 'e'
  else if c = 43 then                                                             -- '+'
    if s.cmd_last_exit_status ≠ 0 then buffer_pushString buf ([27] ++ cstr "[31m")
    else buffer_pushString buf ([27] ++ cstr "[32m")
  else buf

/-- The loop of `input_parsePS` over the characters of the prompt;
`after_backslash` tells that the character before was a backslash that opens
an escape. A backslash at the end of the prompt is pushed as it is. -/
def input_parsePS_loop (os : OS) (s : Shell) : Bool → List Int → buffer_t → buffer_t
  | false, [], buf => buf
  | true, [], buf => buffer_push buf 92
  | false, c :: rest, buf =>
    if c = 92 then input_parsePS_loop os s true rest buf
    else input_parsePS_loop os s false rest (buffer_push buf c)
  | true, c :: rest, buf => input_parsePS_loop os s false rest (input_parsePS_escape os s c buf)

/-- The function `input_parsePS`. The buffer is created with `strlen(prompt)`
bytes; for an empty prompt the terminating NUL that `buffer_create` writes lies
outside it. -/
def input_parsePS (os : OS) (prompt : List Int) (s : Shell) : Res (List Int) :=
  if (c_str prompt).length = 0 then .fault s
  else
    .ok (input_parsePS_loop os s false (c_str prompt)
          (buffer_create (c_str prompt).length)).buffer s

/-! ### History (history.c) -/

/-- The function `history_load`: an empty buffer of 12 entries. -/
def history_load (s : Shell) : Shell :=
  { s with history_buffer := some [], history_buffer_size := 12 }

/-- The function `history_get`: entry `index` counted from the most recent one;
`none` for NULL. -/
def history_get (index : Nat) (s : Shell) : Option (List Int) :=
  match s.history_buffer with
  | none => none
  | some entries =>
    if index ≥ entries.length then none
    else entries.get? (entries.length - index - 1)

/-- The text `history_append` stores for `str`: the C string up to its first
newline. -/
def history_entry (str : List Int) : List Int := str.takeWhile (fun c => c != 0 && c != 10)

/-- The function `history_append`. -/
def history_append (str : List Int) (s : Shell) : Shell :=
  match s.history_buffer with
  | none => s
  | some entries =>
    if entries.length ≠ 0 ∧ entries.getLast? = some (history_entry str) then s
    else
      { s with history_buffer := some (entries ++ [history_entry str]),
               history_buffer_size :=
                 if entries.length + 1 ≥ s.history_buffer_size then s.history_buffer_size * 2
                 else s.history_buffer_size }

/-! ### The line editor (the branches of the loop of `input_getInteractive`)

`input_buffer` holds the bytes of the block from its start, and
`input_buffer_alloc` the number of bytes the block was allocated with; a byte
read or written at an index outside the block is a fault. -/

/-- The value of `strlen(input_buffer)`. -/
def input_strlen (buf : List Int) : Nat := (c_str buf).length

/-- The left arrow, `ESC [ D`. -/
def input_key_left (s : Shell) : Shell :=
  if s.essence_prompt_x ≠ 0 then { s with essence_prompt_x := s.essence_prompt_x - 1 } else s

/-- The right arrow, `ESC [ C`. -/
def input_key_right (s : Shell) : Res Unit :=
  match s.input_buffer with
  | none => .fault s
  | some buf =>
    if s.essence_prompt_x < input_strlen buf then
      .ok () { s with essence_prompt_x := s.essence_prompt_x + 1 }
    else .ok () s

/-- The up arrow, `ESC [ A`: nothing when `history_get(history_index)` is NULL;
otherwise the live buffer is kept in `saved_input_buffer` on the first step, and
a fresh buffer of 512 bytes receives a copy of the entry by `strcpy`. An entry
that does not fit in the 512 bytes together with its NUL is written past the end
of the buffer: a fault. -/
def input_key_up (s : Shell) : Res Unit :=
  match history_get s.history_index s with
  | none => .ok () s
  | some h =>
    match s.input_buffer with
    | none => .fault s
    | some buf =>
      let s := if s.history_index = 0 then
          { s with saved_input_buffer := some buf,
                   saved_input_buffer_alloc := s.input_buffer_alloc }
        else s
      if INPUT_DEFAULT_BUFFER_SIZE < (c_str h).length + 1 then .fault s
      else
        .ok () { s with input_buffer := some (c_str h ++ [0]),
                        input_buffer_alloc := INPUT_DEFAULT_BUFFER_SIZE,
                        history_index := s.history_index + 1,
                        essence_prompt_x := (c_str h).length,
                        input_buffer_len := (c_str h).length,
                        input_buffer_size := (c_str h).length }

/-- The down arrow, `ESC [ B`: nothing at `history_index` 0; otherwise the index
is lowered and the buffer becomes the saved live buffer when the index reaches
0, and else a fresh buffer of 512 bytes that receives a copy of
`history_get(history_index)` by `strcpy`; an entry that does not fit in the 512
bytes together with its NUL is written past the end of the buffer: a fault. -/
def input_key_down (s : Shell) : Res Unit :=
  if s.history_index = 0 then .ok () s
  else
    match s.input_buffer with
    | none => .fault s
    | some _ =>
      let s := { s with history_index := s.history_index - 1 }
      if s.history_index = 0 then
        match s.saved_input_buffer with
        | none => .fault s
        | some saved =>
          .ok () { s with input_buffer := some saved,
                          input_buffer_alloc := s.saved_input_buffer_alloc,
                          saved_input_buffer := none,
                          essence_prompt_x := input_strlen saved,
                          input_buffer_len := input_strlen saved }
      else
        match history_get s.history_index s with
        | none => .fault s
        | some h =>
          if INPUT_DEFAULT_BUFFER_SIZE < (c_str h).length + 1 then .fault s
          else
            .ok () { s with input_buffer := some (c_str h ++ [0]),
                            input_buffer_alloc := INPUT_DEFAULT_BUFFER_SIZE,
                            essence_prompt_x := (c_str h).length,
                            input_buffer_len := (c_str h).length }

/-- The call `realloc(input_buffer, size)` on a buffer that exists: NULL for a
size of 0; otherwise a block of `size` bytes that holds the first `size` bytes
of the old one (a request for a positive number of bytes is taken to be met,
as for every allocation of the program). -/
def realloc (buf : List Int) (size : Nat) : Option (List Int) :=
  if size = 0 then none else some (buf.take size)

/-- The default case, an ordinary byte. When
`input_buffer_len + 1 >= input_buffer_size` the buffer is reallocated to
`input_buffer_size * 2` bytes, whatever its size was, and the program leaves
with `exit(1)` when realloc returns NULL. Then `memmove` brings the bytes from
the cursor on one place up, the byte is stored at the cursor and a NUL at index
`input_buffer_len + 1`; when that index lies outside the allocation the write
is a fault. -/
def input_key_insert (ch : Int) (s : Shell) : Res Unit :=
  match s.input_buffer with
  | none => .fault s
  | some buf =>
    let x := s.essence_prompt_x
    let len := s.input_buffer_len
    let enlarged : Option Shell :=
      if len + 1 ≥ s.input_buffer_size then
        match realloc buf (s.input_buffer_size * 2) with
        | none => none
        | some new_buffer =>
          some { s with input_buffer := some new_buffer,
                        input_buffer_alloc := s.input_buffer_size * 2,
                        input_buffer_size := s.input_buffer_size * 2 }
      else some s
    match enlarged with
    | none => .halt 1 s
    | some s =>
      match s.input_buffer with
      | none => .fault s
      | some buf =>
        if len < x ∨ s.input_buffer_alloc < len + 2 then .fault s
        else
          .ok () { s with
            input_buffer :=
              some (buf.take x ++ [ch] ++ (buf.drop x).take (len - x) ++ [0] ++
                buf.drop (len + 2)),
            input_buffer_len := len + 1,
            essence_prompt_x := x + 1 }

/-- The case of the newline: a newline is stored at the end of the line, the
buffer is reallocated to `input_buffer_size * 2` bytes when the new length
reaches its size (the result of realloc is not tested), a NUL is stored after
the newline, the cursor goes to 0 and the line goes to `history_append`. A
byte stored outside the allocation, or through the NULL that realloc returned,
is a fault. -/
def input_key_enter (s : Shell) : Res Unit :=
  match s.input_buffer with
  | none => .fault s
  | some buf =>
    if s.input_buffer_alloc < s.input_buffer_len + 1 then .fault s
    else
      let len := s.input_buffer_len + 1
      let buf := buf.take s.input_buffer_len ++ [10] ++ buf.drop (s.input_buffer_len + 1)
      let s := { s with input_buffer := some buf, input_buffer_len := len }
      let s := if len ≥ s.input_buffer_size then
          { s with input_buffer := realloc buf (s.input_buffer_size * 2),
                   input_buffer_alloc := s.input_buffer_size * 2,
                   input_buffer_size := s.input_buffer_size * 2 }
        else s
      match s.input_buffer with
      | none => .fault s
      | some buf =>
        if s.input_buffer_alloc < len + 1 then .fault s
        else
          let image := buf.take len ++ [0] ++ buf.drop (len + 1)
          .ok () (history_append image
            { s with input_buffer := some image, essence_prompt_x := 0 })

/-- The function `input_getInteractive`, seen from the parser: the line editor
returns the typed line in a fresh buffer, a newline appended and counted in
`input_buffer_len`, after giving it to `history_append`. -/
def input_getInteractive (os : OS) (s : Shell) : Shell :=
  let s := { input_unloadBuffer s with log := s.log ++ [Event.input_get s.essence_prompt] }
  let line := os.typed_line s
  history_append (line ++ [10, 0])
    { s with input_buffer := some (line ++ [10, 0]), input_buffer_len := line.length + 1,
             input_buffer_size := max INPUT_DEFAULT_BUFFER_SIZE (line.length + 2),
             input_buffer_alloc := max INPUT_DEFAULT_BUFFER_SIZE (line.length + 2) }

/-- The function `input_get`. -/
def input_get (os : OS) (s : Shell) : Shell :=
  if s.essence_input_type = INPUT_TYPE_INTERACTIVE then input_getInteractive os s
  else if s.essence_input_type = INPUT_TYPE_SCRIPT then input_getScript os s
  else s

/-! ## The lexer (lexer.c) -/

/-- The function `lexer_ungetToken`. -/
def lexer_ungetToken (tok : token_t) (s : Shell) : Shell :=
  { s with lexer_unget := some tok }

/-- The loop of `lexer_getToken` that gathers a STRING token: `buffer` holds the
characters stored so far. It ends at the first character that is not of
STRING class, which is given back to the character layer. -/
def lexer_getString : Nat → List Int → Shell → Res (List Int)
  | 0, _, _ => .timeout
  | fuel + 1, buffer, s =>
    let r := input_getCharacter s
    if token_characterToType r.1 ≠ .STRING then
      .ok buffer (input_ungetCharacter r.1 r.2)
    else
      lexer_getString fuel (buffer ++ [r.1]) r.2

/-- The function `lexer_getToken`. The value is `none` for the NULL pointer. -/
def lexer_getToken : Nat → Option token_t → Shell → Res (Option token_t)
  | 0, _, _ => .timeout
  | fuel + 1, prev, s =>
    match s.lexer_unget with
    | some tok => .ok (some tok) { s with lexer_unget := none }
    | none =>
      let r := input_getCharacter s
      let ch := r.1
      let s := r.2
      if ch = 0 then .ok none s
      else
        let t : token_t := { type := token_characterToType ch, value := [] }
        if t.type = .STRING then
          (lexer_getString fuel [ch] s).bind fun buffer s =>
            .ok (some { type := .STRING, value := c_str buffer }) s
        else if t.type = .PIPE ∧ (prev.map (fun p => p.type)) ≠ some .PIPE then
          (lexer_getToken fuel (some t) s).bind fun next s =>
            match next with
            | none => .fault s
            | some next =>
              if next.type = .PIPE then .ok (some { next with type := .OR }) s
              else .ok (some t) (lexer_ungetToken next s)
        else if t.type = .AMPERSAND ∧ (prev.map (fun p => p.type)) ≠ some .AMPERSAND then
          (lexer_getToken fuel (some t) s).bind fun next s =>
            match next with
            | none => .fault s
            | some next =>
              if next.type = .AMPERSAND then .ok (some { next with type := .AND }) s
              else .ok (some t) (lexer_ungetToken next s)
        else .ok (some t) s

/-! ## The environment block (libc) -/

/-- The libc function `getenv`: the text after `name=` in the first entry that
starts so. -/
def getenv (environ : List (List Int)) (name : List Int) : Option (List Int) :=
  match environ.find? (fun e => e.take (name.length + 1) == name ++ [61]) with
  | some e => some (e.drop (name.length + 1))
  | none => none

/-- The libc function `putenv`: an entry `NAME=VALUE` replaces the entry of
that name or is added; a string without `=` removes the name. -/
def putenv (str : List Int) (environ : List (List Int)) : List (List Int) :=
  let name := str.takeWhile (fun c => c != 61)
  let others := environ.filter (fun e => e.take (name.length + 1) != name ++ [61])
  if name.length = str.length then others else others ++ [str]

/-- A call of putenv in the shell process, with its trace in the log. -/
def shell_putenv (s : Shell) (str : List Int) : Shell :=
  { s with environ := putenv str s.environ, log := s.log ++ [Event.putenv str] }

/-! ## Wait status (sys/wait.h) -/

def WEXITSTATUS (wstatus : Nat) : Int := ((wstatus / 256) % 256 : Nat)

def WTERMSIG (wstatus : Nat) : Nat := wstatus % 128

def WIFSIGNALED (wstatus : Nat) : Bool := WTERMSIG wstatus != 0 && WTERMSIG wstatus != 127

/-! ## Builtins (builtins/*.c) -/

/-- The functions of the table `builtin_list`. -/
inductive builtin_func where
  | cd | pwd | help | exit_builtin | export
  deriving DecidableEq, Repr

/-- The table `builtin_list`: name and function. -/
def builtin_list : List (List Int × builtin_func) :=
  [(cstr "cd", .cd), (cstr "pwd", .pwd), (cstr "help", .help),
   (cstr "exit", .exit_builtin), (cstr "export", .export)]

/-- The value of `strtol(str, NULL, 10)` for a string that is an optional sign
followed by digits; the digits read stop at the first other character. -/
def strtol (str : List Int) : Int :=
  let digits := fun (cs : List Int) =>
    (cs.takeWhile (fun c => 48 ≤ c && c ≤ 57)).foldl (fun acc c => acc * 10 + (c - 48)) 0
  match str.dropWhile (fun c => c == 32) with
  | 45 :: rest => - digits rest
  | 43 :: rest => digits rest
  | cs => digits cs

/-- The body of a builtin, called with argc and argv. -/
def builtin_call (os : OS) (f : builtin_func) (argc : Nat) (argv : List (List Int)) (s : Shell) :
    Res Int :=
  match f with
  | .cd =>
    let dir := if argc > 1 then argv.get? 1 else getenv s.environ (cstr "HOME")
    if dir = none then .ok 0 s
    else if os.chdir s (argv.get? 1) < 0 then .ok 1 s else .ok 0 s
  | .pwd => if os.getcwd_ok s then .ok 0 s else .ok 1 s
  | .help => .ok 0 s
  | .exit_builtin =>
    let status := if argc > 1 then strtol (argv.getD 1 []) else s.cmd_last_exit_status
    .halt status s
  | .export =>
    if argc = 1 then .ok 0 s
    else .ok 0 ((argv.drop 1).foldl shell_putenv s)

/-! ## The executor (command.c) -/

/-- The function `command_execute`. For a command that is not a builtin the
shell forks; what the child does shows only in the wait status. -/
def command_execute (os : OS) (command : command_t) (s : Shell) : Res Int :=
  if command.argc = 0 then
    let s := command.additional_envp.foldl shell_putenv s
    .ok s.cmd_last_exit_status s
  else
    match builtin_list.find? (fun b => b.1 == command.argv.getD 0 []) with
    | some b =>
      (builtin_call os b.2 command.argc command.argv s).bind fun ret s =>
        .ok ret { s with cmd_last_exit_status := ret, log := s.log ++ [Event.builtin command.argv ret] }
    | none =>
      let w := os.waitpid s command
      let s := { s with log := s.log ++ [Event.spawn command w] }
      match w with
      | none => .halt 1 s
      | some wstatus =>
        .ok (WEXITSTATUS wstatus)
          { s with cmd_last_signalled := WIFSIGNALED wstatus,
                   cmd_last_exit_status := WEXITSTATUS wstatus,
                   cmd_waitpid_exit_status := wstatus }

/-- The inner loop of `command_executeList` that finds the last stage of a
pipeline: `end` moves on while the next command carries PIPE_FROM_PREV. -/
def pipeline_end (command : List command_t) (command_count : Nat) : Nat → Nat → Nat
  | 0, e => e
  | fuel + 1, e =>
    if e + 1 < command_count ∧ has_flag (command.getD (e + 1) COMMAND_INIT) COMMAND_FLAG_PIPE_FROM_PREV
    then pipeline_end command command_count fuel (e + 1)
    else e

/-- The loop of `command_executeList` over the stages of a pipeline: each stage
goes through `command_execute`; the loop stops after a signalled stage. -/
def pipeline_stages (os : OS) : List command_t → Shell → Res Unit
  | [], s => .ok () s
  | cmd :: rest, s =>
    (command_execute os cmd s).bind fun _ s =>
      if WIFSIGNALED s.cmd_waitpid_exit_status then .ok () s
      else pipeline_stages os rest s

/-- The creation of the `n - 1` pipes of a pipeline; `false` when a call of
pipe fails. -/
def pipeline_pipes (os : OS) : Nat → Shell → Bool × Shell
  | 0, s => (true, s)
  | n + 1, s =>
    let ok := os.pipe_ok s
    let s := { s with log := s.log ++ [Event.pipe] }
    if ok then pipeline_pipes os n s else (false, s)

/-- The loop of `command_executeList`, from index `i`. -/
def command_executeList_loop (os : OS) (command : List command_t) (command_count : Nat) :
    Nat → Nat → Shell → Res Unit
  | 0, _, _ => .timeout
  | fuel + 1, i, s =>
    if ¬ i < command_count then .ok () s
    else
      let ci := command.getD i COMMAND_INIT
      if i ≠ 0 ∧ has_flag ci COMMAND_FLAG_OR ∧ s.cmd_last_exit_status = 0 then
        command_executeList_loop os command command_count fuel (i + 1) s
      else if i ≠ 0 ∧ has_flag ci COMMAND_FLAG_AND ∧ s.cmd_last_exit_status ≠ 0 then
        command_executeList_loop os command command_count fuel (i + 1) s
      else
        let start := i
        let e := pipeline_end command command_count command_count i
        if start = e then
          (command_execute os ci s).bind fun status s =>
            let s := if ¬ has_flag ci COMMAND_FLAG_JOB then { s with cmd_last_exit_status := status }
                     else s
            command_executeList_loop os command command_count fuel (e + 1) s
        else
          let n := e - start + 1
          let p := pipeline_pipes os (n - 1) s
          if ¬ p.1 then .ok () p.2
          else
            (pipeline_stages os ((command.drop start).take n) p.2).bind fun _ s =>
              command_executeList_loop os command command_count fuel (e + 1) s

/-- The function `command_executeList`. The index grows in every round of the
loop, so `command_count + 1` rounds are enough. -/
def command_executeList (os : OS) (command : List command_t) (command_count : Nat) (s : Shell) :
    Res Unit :=
  command_executeList_loop os command command_count (command_count + 1) 0 s

/-! ## The parser (parser.c) -/

/-- The diagnostic of `parser_syntaxError`. -/
def parser_syntaxError (tok : token_t) (s : Shell) : Shell :=
  { s with log := s.log ++ [Event.syntax_error tok.type] }

/-- The C string found at `&tmp[1]` after `tmp` was filled with `text` and its
terminating NUL: the text without its first character, and for an empty text
whatever bytes the array held before. -/
def tmp_from_1 (os : OS) (s : Shell) (text : List Int) : List Int :=
  match text with
  | [] => c_str (os.stack_tmp s)
  | _ :: rest => rest

/-- The loop of `parser_interpretVariable` that reads the text of a command
substitution up to the first `)`. The value is `none` when EOF is met. -/
def parser_readSubshell (os : OS) : Nat → List Int → Shell → Res (Option (List Int))
  | 0, _, _ => .timeout
  | fuel + 1, cmd, s =>
    let r := input_getCharacter s
    let ch := r.1
    let s := r.2
    if ch = -1 then .ok none s
    else if ch = 10 then
      let s := input_get os { s with essence_prompt := INPUT_PROMPT_PS2 }
      parser_readSubshell os fuel cmd { s with essence_prompt := INPUT_PROMPT_PS1 }
    else if ch = 41 then .ok (some cmd) s
    else parser_readSubshell os fuel (cmd ++ [ch]) s

/-- The function `parser_interpretVariable`. The value is `none` for NULL. -/
def parser_interpretVariable (os : OS) (fuel : Nat) (tok : token_t) (s : Shell) :
    Res (Option (List Int)) :=
  (lexer_getToken fuel (some tok) s).bind fun next s =>
    match next with
    | none => .fault s
    | some next =>
      if next.type = .DOLLAR then
        .ok (some (tmp_from_1 os s (snprintf 128 (printf_d s.essence_pid)))) s
      else if next.type = .HASHTAG then
        .ok (some (tmp_from_1 os s (snprintf 128 (printf_d s.essence_argc)))) s
      else if next.type = .QUESTION_MARK then
        .ok (some (tmp_from_1 os s (snprintf 128 (printf_d s.cmd_last_exit_status)))) s
      else if next.type = .STRING then
        let name := next.value.takeWhile (fun c => c != 10)
        if name = cstr "RANDOM" then
          let n := os.rand s % 2147483647
          let s := { s with log := s.log ++ [Event.rand] }
          .ok (some (tmp_from_1 os s (snprintf 128 (printf_d n)))) s
        else
          match getenv s.environ name with
          | some env => .ok (some (tmp_from_1 os s (snprintf 128 env))) s
          | none => .ok (some (tmp_from_1 os s [])) s
      else if next.type = .OPEN_PAREN then
        (parser_readSubshell os fuel [] s).bind fun cmd s =>
          match cmd with
          | none => .ok none s
          | some cmd =>
            let ok := os.pipe_ok s
            let s := { s with log := s.log ++ [Event.pipe] }
            if ¬ ok then .halt 1 s
            else
              let bytes := os.subshell_read s cmd
              let s := { s with log := s.log ++ [Event.subshell cmd] }
              if bytes.length = 1 then .ok (some []) s
              else
                let from1 := bytes.drop 1 ++ (os.stack_tmp s).drop (bytes.length - 1)
                .ok (some (from1.takeWhile (fun c => c != 0 && c != 10))) s
      else
        .ok (some (tmp_from_1 os s (snprintf 128 (cstr "$")))) s

/-- The local variables of the parser loops: the token in hand, the command list
(`cmd_count` is its length), and the argument buffer: its first `bufidx` bytes
and its size. -/
structure parser_locals where
  tok : Option token_t
  cmds : List command_t
  buf : List Int
  bufsz : Nat
  deriving DecidableEq, Repr

/-- The macro `CMD`: the last command of the list. -/
def CMD (cmds : List command_t) : command_t := cmds.getLastD COMMAND_INIT

/-- An assignment to `CMD`. -/
def CMD_set (cmds : List command_t) (c : command_t) : List command_t := cmds.dropLast ++ [c]

/-- The macro `COMMAND_NEW` followed by `cmd_count += 1`. -/
def COMMAND_NEW (cmds : List command_t) : List command_t := cmds ++ [COMMAND_INIT]

/-- The macro `BUFFER_PUSH`. -/
def BUFFER_PUSH (ch : Int) (l : parser_locals) : parser_locals :=
  { l with buf := l.buf ++ [ch],
           bufsz := if l.buf.length + 1 ≥ l.bufsz then l.bufsz * 2 else l.bufsz }

/-- The loop `while (*p) { BUFFER_PUSH(*p); p++; }` over a C string. -/
def BUFFER_PUSH_string (str : List Int) (l : parser_locals) : parser_locals :=
  (c_str str).foldl (fun l ch => BUFFER_PUSH ch l) l

/-- The statement `COMMAND_PUSH_ARGV((&CMD), strdup(buf)); bufidx = 0;`. -/
def push_argument (l : parser_locals) : parser_locals :=
  { l with cmds := CMD_set l.cmds (COMMAND_PUSH_ARGV (CMD l.cmds) l.buf), buf := [] }

/-- The statement `if (bufidx) { COMMAND_PUSH_ARGV((&CMD), strdup(buf)); bufidx = 0; }`. -/
def flush_argument (l : parser_locals) : parser_locals :=
  if l.buf.length ≠ 0 then push_argument l else l

/-- The copy of a STRING token into the buffer: one `BUFFER_GROW` when
`bufidx + strlen(value) >= bufsz`, then `strncpy` and `bufidx += strlen(value)`.
The value is `none` when the buffer, grown once, still cannot hold the word and
its terminator (a word of a thousand characters or more): `strncpy` then leaves
the buffer without its NUL or cut short, with `bufidx` at or past the end, and
what the next `strdup(buf)`, `open(buf)` or `BUFFER_PUSH` does is undefined.
The model stops with a fault at the copy itself. -/
def buffer_copy (value : List Int) (l : parser_locals) : Option parser_locals :=
  let bufsz := if l.buf.length + value.length ≥ l.bufsz then l.bufsz * 2 else l.bufsz
  if l.buf.length + value.length ≥ bufsz then none
  else some { l with buf := l.buf ++ value, bufsz := bufsz }

/-- The assignment of an opened descriptor in a redirection:
`switch (parser_pending_fd)`. -/
def set_redirect (pending_fd : Int) (f : Int) (cmd : command_t) : command_t :=
  if pending_fd = 0 then { cmd with stdin := f }
  else if pending_fd = 1 then { cmd with stdout := f }
  else if pending_fd = 2 then { cmd with stderr := f }
  else cmd

/-- The call of open(2) on the buffer for a pending redirection, logged. -/
def open_redirect (os : OS) (path : List Int) (s : Shell) : Int × Shell :=
  let f := os.open_file s path
  (f, { s with log := s.log ++ [Event.open path f] })

/-- The loop that consumes the SPACE tokens after `>`. In `parser_interpret` the
token pointer is used unchecked (`checked = false`), in `parser_parseUntil` the
loop stops at NULL. -/
def parser_skipSpaces (checked : Bool) : Nat → Option token_t → Shell → Res (Option token_t)
  | 0, _, _ => .timeout
  | fuel + 1, spc, s =>
    match spc with
    | none => if checked then .ok none s else .fault s
    | some t =>
      if t.type = .SPACE then
        (lexer_getToken fuel (some t) s).bind fun nx s => parser_skipSpaces checked fuel nx s
      else .ok (some t) s

/-- The loop that drains the tokens of a comment up to NEWLINE or EOF. -/
def parser_skipComment : Nat → Option token_t → Shell → Res (Option token_t)
  | 0, _, _ => .timeout
  | fuel + 1, n, s =>
    match n with
    | none => .ok none s
    | some t =>
      if t.type ≠ .NEWLINE ∧ t.type ≠ .EOF then
        (lexer_getToken fuel (some t) s).bind fun n2 s => parser_skipComment fuel n2 s
      else .ok (some t) s

/-- The loop of the EQUALS case that gathers the value of an assignment in
`env_buffer`; it returns the token it stopped at and the buffer. -/
def parser_readValue (os : OS) : Nat → Option token_t → List Int → Shell →
    Res (Option token_t × List Int)
  | 0, _, _, _ => .timeout
  | fuel + 1, nxt, env_buffer, s =>
    match nxt with
    | none => .ok (none, env_buffer) s
    | some t =>
      if t.type = .EOF ∨ t.type = .NEWLINE then .ok (some t, env_buffer) s
      else if t.type = .SPACE ∧ ¬ s.parser_quoted then .ok (some t, env_buffer) s
      else
        let r : Res (List Int) :=
          if t.type = .DOUBLE_QUOTE then
            if s.parser_single_quoted then .ok (env_buffer ++ [34]) s
            else .ok env_buffer { s with parser_quoted := !s.parser_quoted }
          else if t.type = .SINGLE_QUOTE then
            if s.parser_quoted ∧ ¬ s.parser_single_quoted then .ok (env_buffer ++ [39]) s
            else .ok env_buffer { s with parser_quoted := !s.parser_quoted,
                                         parser_single_quoted := !s.parser_single_quoted }
          else if t.type = .STRING then .ok (env_buffer ++ t.value) s
          else if t.type = .DOLLAR then
            if s.parser_single_quoted then .ok (env_buffer ++ [36]) s
            else
              (parser_interpretVariable os fuel t s).bind fun var s =>
                match var with
                | some v => .ok (env_buffer ++ c_str v) s
                | none => .ok env_buffer s
          else .ok env_buffer s
        r.bind fun env_buffer s =>
          (lexer_getToken fuel (some t) s).bind fun nxt2 s =>
            parser_readValue os fuel nxt2 env_buffer s

/-- The EQUALS case once it is an assignment: read the value, give the last
token back, push `NAME=VALUE` on the environment of `CMD`, empty the buffer. -/
def parser_assignment (os : OS) (fuel : Nat) (tok : token_t) (l : parser_locals) (s : Shell) :
    Res parser_locals :=
  (lexer_getToken fuel (some tok) s).bind fun nxt s =>
    (parser_readValue os fuel nxt [] s).bind fun r s =>
      let s := match r.1 with
        | some t => lexer_ungetToken t s
        | none => s
      let environ_statement := l.buf ++ [61] ++ r.2
      .ok { l with cmds := CMD_set l.cmds (COMMAND_PUSH_ENVIRON (CMD l.cmds) environ_statement),
                   buf := [] } s

/-- The DOLLAR case outside single quotes: expand and push the bytes. -/
def parser_dollar (os : OS) (fuel : Nat) (tok : token_t) (l : parser_locals) (s : Shell) :
    Res parser_locals :=
  (parser_interpretVariable os fuel tok s).bind fun tmp s =>
    match tmp with
    | some str => .ok (BUFFER_PUSH_string str l) s
    | none => .ok l s

/-- The TILDE case outside quotes: push the value of HOME, or `/root/`. -/
def parser_tilde (l : parser_locals) (s : Shell) : parser_locals :=
  match getenv s.environ (cstr "HOME") with
  | some home => BUFFER_PUSH_string home l
  | none => BUFFER_PUSH_string (cstr "/root/") l

/-- The HASHTAG case outside quotes: drain the comment, give the terminator
(or NULL) to the unget slot. -/
def parser_comment (fuel : Nat) (tok : token_t) (s : Shell) : Res Unit :=
  (lexer_getToken fuel (some tok) s).bind fun n s =>
    (parser_skipComment fuel n s).bind fun n s =>
      .ok () { s with lexer_unget := n }

/-- The start of a redirection at `>`: set the pending state, consume the
following spaces and give the next token back. -/
def parser_redirect (checked : Bool) (fuel : Nat) (tok : token_t) (s : Shell) : Res Unit :=
  let s := { s with parser_pending_fd := 1, parser_pending_redirect := true }
  (lexer_getToken fuel (some tok) s).bind fun spc s =>
    (parser_skipSpaces checked fuel spc s).bind fun spc s =>
      .ok () { s with lexer_unget := spc }

/-- The start of the next command after `||`, `&&`, `|` or `;`: flush the
buffer, append a new command and set the flag on it. -/
def parser_newCommand (flag : Nat) (l : parser_locals) : parser_locals :=
  let l := flush_argument l
  let cmds := COMMAND_NEW l.cmds
  { l with cmds := CMD_set cmds { CMD cmds with exec_flags := (CMD cmds).exec_flags ||| flag } }

/-- Where the switch of a parser loop leads: to the next token, to the label
that ends the list (`_execute` in `parser_interpret`, `_done_list` in
`parser_parseUntil`) with the commands counted by `cmd_count`, or to `_cleanup`. -/
inductive parser_step where
  | next (l : parser_locals)
  | finish (cmds : List command_t)
  | cleanup
  deriving DecidableEq, Repr

/-- The function `parser_finalizeRedir` with the reaction of its callers: on
failure of open the last command is dropped and the list ends. -/
def parser_finalizeRedir (os : OS) (l : parser_locals) (s : Shell) : parser_step × Shell :=
  let r := open_redirect os l.buf s
  if r.1 < 0 then (.finish l.cmds.dropLast, r.2)
  else
    (.next { l with cmds := CMD_set l.cmds (set_redirect r.2.parser_pending_fd r.1 (CMD l.cmds)),
                    buf := [] },
     { r.2 with parser_pending_redirect := false })

/-- The switch of `parser_parseUntil` on the type of the token in hand. -/
def parser_parseUntil_token (os : OS) (fuel : Nat) (tok : token_t) (l : parser_locals)
    (s : Shell) : Res parser_step :=
  match tok.type with
  | .SPACE =>
    if l.buf.length = 0 then .ok (.next l) s
    else if s.parser_quoted then .ok (.next (BUFFER_PUSH 32 l)) s
    else if s.parser_pending_redirect then
      let r := parser_finalizeRedir os l s
      .ok r.1 r.2
    else .ok (.next (push_argument l)) s
  | .STRING =>
    match buffer_copy tok.value l with
    | none => .fault s
    | some l => .ok (.next l) s
  | .DOUBLE_QUOTE => .ok (.next l) { s with parser_quoted := !s.parser_quoted }
  | .SINGLE_QUOTE =>
    if s.parser_quoted ∧ ¬ s.parser_single_quoted then .ok (.next (BUFFER_PUSH 39 l)) s
    else .ok (.next l) { s with parser_single_quoted := !s.parser_single_quoted,
                                parser_quoted := !s.parser_quoted }
  | .REDIRECT_OUT =>
    if s.parser_quoted then .ok (.next (BUFFER_PUSH 62 l)) s
    else (parser_redirect true fuel tok s).bind fun _ s => .ok (.next l) s
  | .OR =>
    if s.parser_quoted then .ok (.next (BUFFER_PUSH 124 (BUFFER_PUSH 124 l))) s
    else if (CMD l.cmds).argc = 0 ∨ s.parser_pending_redirect then
      .ok (.finish l.cmds) (parser_syntaxError tok s)
    else .ok (.next (parser_newCommand COMMAND_FLAG_OR l)) s
  | .AND =>
    if s.parser_quoted then .ok (.next (BUFFER_PUSH 38 (BUFFER_PUSH 38 l))) s
    else if (CMD l.cmds).argc = 0 ∨ s.parser_pending_redirect then
      .ok (.finish l.cmds) (parser_syntaxError tok s)
    else .ok (.next (parser_newCommand COMMAND_FLAG_AND l)) s
  | .SEMICOLON =>
    if s.parser_quoted then .ok (.next (BUFFER_PUSH 59 l)) s
    else if (CMD l.cmds).argc = 0 ∧ l.buf.length = 0 then
      .ok (.finish l.cmds) (parser_syntaxError tok s)
    else
      let l := flush_argument l
      .ok (.next { l with cmds := COMMAND_NEW l.cmds }) s
  | .EQUALS =>
    if s.parser_quoted then .ok (.next (BUFFER_PUSH 61 l)) s
    else if (CMD l.cmds).argc ≠ 0 ∨ l.buf.length = 0 then .ok (.next (BUFFER_PUSH 61 l)) s
    else (parser_assignment os fuel tok l s).bind fun l s => .ok (.next l) s
  | .NEWLINE | .EOF =>
    if s.parser_pending_redirect then
      if l.buf.length ≠ 0 then
        let r := parser_finalizeRedir os l s
        .ok r.1 r.2
      else .ok (.finish l.cmds) (parser_syntaxError tok s)
    else
      let l := flush_argument l
      let l := { l with cmds := COMMAND_NEW l.cmds }
      let s := input_get os { s with essence_prompt := INPUT_PROMPT_PS2 }
      .ok (.next l) { s with essence_prompt := INPUT_PROMPT_PS1 }
  | .DOLLAR =>
    if s.parser_single_quoted then .ok (.next (BUFFER_PUSH 36 l)) s
    else (parser_dollar os fuel tok l s).bind fun l s => .ok (.next l) s
  | .TILDE =>
    if s.parser_quoted then .ok (.next (BUFFER_PUSH 126 l)) s
    else .ok (.next (parser_tilde l s)) s
  | .HASHTAG =>
    if s.parser_quoted then .ok (.next (BUFFER_PUSH 35 l)) s
    else (parser_comment fuel tok s).bind fun _ s => .ok (.next l) s
  | _ => .ok (.next l) { s with log := s.log ++ [Event.unrecognized tok.type] }

/-- The loop `while (cmd_count > 0 && cmds[cmd_count-1].argc == 0) cmd_count--`:
the list without its trailing commands of no argument. -/
def strip_empty (cmds : List command_t) : List command_t :=
  cmds.rdropWhile (fun c => c.argc == 0)

/-- The test at the head of the loop of `parser_parseUntil`: a STRING token at a
command boundary. -/
def at_boundary (tok : token_t) (l : parser_locals) (s : Shell) : Bool :=
  tok.type == .STRING && !s.parser_quoted && !s.parser_single_quoted &&
    !s.parser_pending_redirect && l.buf.length == 0 && (CMD l.cmds).argc == 0

/-- The loop of `parser_parseUntil`. The value is the list `*out_list`, cut to
the commands that `*out_count` counts, and `*out_count` itself, which is
negated when the loop ended on `stop2`. -/
def parser_parseUntil_loop (os : OS) (stop1 stop2 : Option (List Int)) :
    Nat → parser_locals → Shell → Res (List command_t × Int)
  | 0, _, _ => .timeout
  | fuel + 1, l, s =>
    (lexer_getToken fuel l.tok s).bind fun new s =>
      match new with
      | none => .ok (strip_empty l.cmds, (strip_empty l.cmds).length) s
      | some tok =>
        let l := { l with tok := some tok }
        if at_boundary tok l s ∧ stop1 = some tok.value then
          .ok (strip_empty l.cmds, (strip_empty l.cmds).length) s
        else if at_boundary tok l s ∧ stop2 = some tok.value then
          .ok (strip_empty l.cmds, - ((strip_empty l.cmds).length : Int)) s
        else
          (parser_parseUntil_token os fuel tok l s).bind fun step s =>
            match step with
            | .next l => parser_parseUntil_loop os stop1 stop2 fuel l s
            | .finish cmds => .ok (strip_empty cmds, (strip_empty cmds).length) s
            | .cleanup => .ok (strip_empty l.cmds, (strip_empty l.cmds).length) s

/-- The function `parser_parseUntil` (it always returns 0). -/
def parser_parseUntil (os : OS) (stop1 stop2 : Option (List Int)) (fuel : Nat) (s : Shell) :
    Res (List command_t × Int) :=
  parser_parseUntil_loop os stop1 stop2 fuel
    { tok := none, cmds := [COMMAND_INIT], buf := [], bufsz := 512 }
    { s with parser_quoted := false, parser_single_quoted := false,
             parser_pending_redirect := false, parser_pending_fd := 0 }

/-- The end of `parser_if`, after the three lists are parsed: execute the
condition list, then the then-list when `cmd_last_exit_status` is 0 and
otherwise the else-list, if there is one. `else_list` is `none` for NULL. -/
def parser_if_execute (os : OS) (cond_list : List command_t) (cond_count : Int)
    (then_list : List command_t) (then_count : Int)
    (else_list : Option (List command_t × Int)) (s : Shell) : Res Unit :=
  (command_executeList os cond_list cond_count.toNat s).bind fun _ s =>
    if s.cmd_last_exit_status = 0 then
      if then_count > 0 then command_executeList os then_list then_count.toNat s
      else .ok () s
    else
      match else_list with
      | some e => if e.2 > 0 then command_executeList os e.1 e.2.toNat s else .ok () s
      | none => .ok () s

/-- The function `parser_if`. -/
def parser_if (os : OS) (fuel : Nat) (s : Shell) : Res Unit :=
  (parser_parseUntil os (some (cstr "then")) none fuel s).bind fun cond s =>
    (parser_parseUntil os (some (cstr "else")) (some (cstr "fi")) fuel s).bind fun thn s =>
      let matched_is_fi := decide (thn.2 < 0)
      let then_count := if thn.2 < 0 then - thn.2 else thn.2
      if ¬ matched_is_fi then
        (parser_parseUntil os (some (cstr "fi")) none fuel s).bind fun els s =>
          parser_if_execute os cond.1 cond.2 thn.1 then_count (some els) s
      else
        parser_if_execute os cond.1 cond.2 thn.1 then_count none s

/-- The loop of `parser_while`. -/
def parser_while_loop (os : OS) (cond_list : List command_t) (cond_count : Int)
    (cmd_list : List command_t) (cmd_count : Int) : Nat → Shell → Res Unit
  | 0, _ => .timeout
  | fuel + 1, s =>
    (command_executeList os cond_list cond_count.toNat s).bind fun _ s =>
      if s.cmd_last_signalled then .ok () s
      else if s.cmd_last_exit_status = 0 then
        (command_executeList os cmd_list cmd_count.toNat s).bind fun _ s =>
          if s.cmd_last_signalled then .ok () s
          else parser_while_loop os cond_list cond_count cmd_list cmd_count fuel s
      else .ok () s

/-- The function `parser_while`. -/
def parser_while (os : OS) (fuel : Nat) (s : Shell) : Res Unit :=
  (parser_parseUntil os (some (cstr "do")) none fuel s).bind fun cond s =>
    (parser_parseUntil os (some (cstr "done")) none fuel s).bind fun body s =>
      parser_while_loop os cond.1 cond.2 body.1 body.2 fuel s

/-- The function `parser_checkToken`: 1 after an `if` or `while` block was
handled, -1 for `else`, 0 otherwise. -/
def parser_checkToken (os : OS) (fuel : Nat) (tok : token_t) (s : Shell) : Res Int :=
  if tok.value = cstr "if" then (parser_if os fuel s).bind fun _ s => .ok 1 s
  else if tok.value = cstr "while" then (parser_while os fuel s).bind fun _ s => .ok 1 s
  else if tok.value = cstr "else" then .ok (-1) s
  else .ok 0 s

/-- The switch of `parser_interpret` on the type of the token in hand. -/
def parser_interpret_token (os : OS) (fuel : Nat) (tok : token_t) (l : parser_locals)
    (s : Shell) : Res parser_step :=
  match tok.type with
  | .SPACE =>
    if l.buf.length = 0 then .ok (.next l) s
    else if s.parser_quoted then .ok (.next (BUFFER_PUSH 32 l)) s
    else if s.parser_pending_redirect then
      let r := open_redirect os l.buf { s with parser_pending_redirect := false }
      if r.1 < 0 then .ok (.finish l.cmds.dropLast) r.2
      else
        .ok (.next { l with cmds := CMD_set l.cmds
                                      (set_redirect r.2.parser_pending_fd r.1 (CMD l.cmds)),
                            buf := [] }) r.2
    else .ok (.next (push_argument l)) s
  | .STRING =>
    let copy := fun (s : Shell) =>
      match buffer_copy tok.value l with
      | none => Res.fault s
      | some l => Res.ok (parser_step.next l) s
    if ¬ s.parser_quoted ∧ ¬ s.parser_single_quoted ∧ ¬ s.parser_pending_redirect ∧
        (CMD l.cmds).argc = 0 ∧ l.buf.length = 0 then
      (parser_checkToken os fuel tok s).bind fun res s =>
        if res = 1 then .ok .cleanup s
        else if res = -1 then .ok .cleanup s
        else copy s
    else copy s
  | .DOUBLE_QUOTE => .ok (.next l) { s with parser_quoted := !s.parser_quoted }
  | .SINGLE_QUOTE =>
    if s.parser_quoted ∧ ¬ s.parser_single_quoted then .ok (.next (BUFFER_PUSH 39 l)) s
    else .ok (.next l) { s with parser_single_quoted := !s.parser_single_quoted,
                                parser_quoted := !s.parser_quoted }
  | .REDIRECT_OUT =>
    if s.parser_quoted then .ok (.next (BUFFER_PUSH 62 l)) s
    else (parser_redirect false fuel tok s).bind fun _ s => .ok (.next l) s
  | .OR =>
    if s.parser_quoted then .ok (.next (BUFFER_PUSH 124 (BUFFER_PUSH 124 l))) s
    else if (CMD l.cmds).argc = 0 ∨ s.parser_pending_redirect then
      .ok .cleanup (parser_syntaxError tok s)
    else .ok (.next (parser_newCommand COMMAND_FLAG_OR l)) s
  | .PIPE =>
    if s.parser_quoted then .ok (.next (BUFFER_PUSH 124 l)) s
    else if (CMD l.cmds).argc = 0 ∨ s.parser_pending_redirect then
      .ok .cleanup (parser_syntaxError tok s)
    else .ok (.next (parser_newCommand COMMAND_FLAG_PIPE_FROM_PREV l)) s
  | .AND =>
    if s.parser_quoted then .ok (.next (BUFFER_PUSH 38 (BUFFER_PUSH 38 l))) s
    else if (CMD l.cmds).argc = 0 ∨ s.parser_pending_redirect then
      .ok .cleanup (parser_syntaxError tok s)
    else .ok (.next (parser_newCommand COMMAND_FLAG_AND l)) s
  | .SEMICOLON =>
    if s.parser_quoted then .ok (.next (BUFFER_PUSH 59 l)) s
    else if (CMD l.cmds).argc = 0 ∧ l.buf.length = 0 then
      .ok .cleanup (parser_syntaxError tok s)
    else
      let l := flush_argument l
      .ok (.next { l with cmds := COMMAND_NEW l.cmds }) s
  | .EQUALS =>
    if s.parser_quoted then .ok (.next (BUFFER_PUSH 61 l)) s
    else if (CMD l.cmds).argc ≠ 0 ∨ l.buf.length = 0 then .ok (.next (BUFFER_PUSH 61 l)) s
    else (parser_assignment os fuel tok l s).bind fun l s => .ok (.next l) s
  | .NEWLINE | .EOF =>
    if s.parser_pending_redirect then
      if l.buf.length ≠ 0 then
        let r := open_redirect os l.buf { s with parser_pending_redirect := false }
        if r.1 < 0 then .ok (.finish l.cmds.dropLast) r.2
        else
          .ok (.finish (CMD_set l.cmds (set_redirect r.2.parser_pending_fd r.1 (CMD l.cmds)))) r.2
      else .ok .cleanup (parser_syntaxError tok s)
    else .ok (.finish (flush_argument l).cmds) s
  | .DOLLAR =>
    if s.parser_single_quoted then .ok (.next (BUFFER_PUSH 36 l)) s
    else (parser_dollar os fuel tok l s).bind fun l s => .ok (.next l) s
  | .TILDE =>
    if s.parser_quoted then .ok (.next (BUFFER_PUSH 126 l)) s
    else .ok (.next (parser_tilde l s)) s
  | .HASHTAG =>
    if s.parser_quoted then .ok (.next (BUFFER_PUSH 35 l)) s
    else (parser_comment fuel tok s).bind fun _ s => .ok (.next l) s
  | _ => .ok (.next l) { s with log := s.log ++ [Event.unrecognized tok.type] }

/-- The token loop of `parser_interpret`. The value is `some cmds` when the loop
reaches the label `_execute`, with the `cmd_count` commands it passes to
`command_executeList`, and `none` when it goes to `_cleanup` directly. -/
def parser_interpret_loop (os : OS) : Nat → parser_locals → Shell →
    Res (Option (List command_t))
  | 0, _, _ => .timeout
  | fuel + 1, l, s =>
    (lexer_getToken fuel l.tok s).bind fun new s =>
      match new with
      | none => .ok (some l.cmds) s
      | some tok =>
        (parser_interpret_token os fuel tok { l with tok := some tok } s).bind fun step s =>
          match step with
          | .next l => parser_interpret_loop os fuel l s
          | .finish cmds => .ok (some cmds) s
          | .cleanup => .ok none s

/-- The function `parser_interpret`. -/
def parser_interpret (os : OS) (fuel : Nat) (s : Shell) : Res Unit :=
  (parser_interpret_loop os fuel
      { tok := none, cmds := [COMMAND_INIT], buf := [], bufsz := 512 } s).bind fun r s =>
    match r with
    | some cmds => command_executeList os cmds cmds.length s
    | none => .ok () s

/-! ## Notions used to state the properties -/

/-- The state of a shell that has just started (the initial values of the
globals, `essence_pid` set by `essence_setup`) with a given environment. -/
def shell_start (pid : Int) (environ : List (List Int)) : Shell :=
  { cmd_last_exit_status := 0, cmd_waitpid_exit_status := 0, cmd_last_signalled := false,
    parser_quoted := false, parser_single_quoted := false, parser_pending_redirect := false,
    parser_pending_fd := 0, lexer_unget := none,
    essence_input_type := INPUT_TYPE_INTERACTIVE, essence_prompt := INPUT_PROMPT_PS1,
    essence_unread_character := 0, input_buffer := none,
    input_buffer_size := INPUT_DEFAULT_BUFFER_SIZE, input_buffer_idx := 0, input_buffer_len := 0,
    essence_prompt_x := 0, saved_input_buffer := none, history_index := 0,
    history_buffer := none, history_buffer_size := 0,
    input_buffer_alloc := 0, saved_input_buffer_alloc := 0,
    essence_argc := 1, essence_pid := pid, environ := environ, log := [] }

/-- An operating system in which every child exits with status 0, except a
program named `false`, which exits with status 1; files open as descriptor 3,
and the user types nothing. -/
def os_plain : OS :=
  { waitpid := fun _ c => if c.argv.getD 0 [] = cstr "false" then some 256 else some 0,
    open_file := fun _ _ => 3,
    subshell_read := fun _ _ => [],
    rand := fun _ => 0,
    stack_tmp := fun _ => [],
    chdir := fun _ _ => 0,
    getcwd_ok := fun _ => true,
    pipe_ok := fun _ => true,
    typed_line := fun _ => [],
    script_line := fun _ => none,
    strftime := fun _ _ => [],
    hostname := fun _ => cstr "localhost",
    pw_name := fun _ => some (cstr "user"),
    geteuid := fun _ => 1000,
    cwd := fun _ => cstr "/" }

/-- The next `n` characters that `input_getCharacter` delivers, and the state
after them. -/
def input_getCharacters : Nat → Shell → List Int × Shell
  | 0, s => ([], s)
  | n + 1, s =>
    let r := input_getCharacter s
    let rest := input_getCharacters n r.2
    (r.1 :: rest.1, rest.2)

/-- The tokens obtained by calling `lexer_getToken` again and again until it
returns NULL, each call receiving the token returned before as `prev`. At most
`n` tokens are taken; each call has the budget `fuel`. -/
def lexer_tokens (fuel : Nat) : Nat → Option token_t → Shell → List token_t
  | 0, _, _ => []
  | n + 1, prev, s =>
    match lexer_getToken fuel prev s with
    | .ok (some t) s => t :: lexer_tokens fuel n (some t) s
    | _ => []

/-- The text of a token: the value of a STRING, `||` for OR, `&&` for AND, and
for every other type the one character that `token_characterToType` maps to it. -/
def token_text (t : token_t) : List Int :=
  match t.type with
  | .STRING => t.value
  | .OR => [124, 124]
  | .AND => [38, 38]
  | .EOF => [-1]
  | .NEWLINE => [10]
  | .SPACE => [32]
  | .SINGLE_QUOTE => [39]
  | .DOUBLE_QUOTE => [34]
  | .REDIRECT_OUT => [62]
  | .REDIRECT_IN => [60]
  | .PIPE => [124]
  | .AMPERSAND => [38]
  | .SEMICOLON => [59]
  | .DOLLAR => [36]
  | .STAR => [42]
  | .HASHTAG => [35]
  | .QUESTION_MARK => [63]
  | .OPEN_PAREN => [40]
  | .CLOSE_PAREN => [41]
  | .EQUALS => [61]
  | .TILDE => [126]

/-- The text of a token sequence: the texts of its tokens, concatenated. -/
def tokens_text : List token_t → List Int
  | [] => []
  | t :: ts => token_text t ++ tokens_text ts

/-- The walk over a command list in the words of the specification: the
commands are taken from left to right, each once; the command at index 0 is
executed; a later command is skipped, the state left as it is, when it carries
OR while `cmd_last_exit_status` is 0 or carries AND while it is not 0, and is
executed otherwise. `i` is the index of the head of the list. -/
def spec_chain (os : OS) : List command_t → Nat → Shell → Res Unit
  | [], _, s => .ok () s
  | c :: rest, i, s =>
    if 0 < i ∧ ((has_flag c COMMAND_FLAG_OR ∧ s.cmd_last_exit_status = 0) ∨
                (has_flag c COMMAND_FLAG_AND ∧ s.cmd_last_exit_status ≠ 0)) then
      spec_chain os rest (i + 1) s
    else
      (command_execute os c s).bind fun _ s => spec_chain os rest (i + 1) s

/-- The invariant of the specification on a command list: a command that
carries PIPE_FROM_PREV is not at index 0 and the command before it has
arguments. -/
def pipe_invariant (cmds : List command_t) : Prop :=
  ∀ i, i < cmds.length →
    has_flag (cmds.getD i COMMAND_INIT) COMMAND_FLAG_PIPE_FROM_PREV = true →
    0 < i ∧ 0 < (cmds.getD (i - 1) COMMAND_INIT).argc

/-- The `if` statement in the words of the specification: the condition list is
executed once, then the then-list when `cmd_last_exit_status` is 0, and
otherwise the else-list when there is one. -/
def spec_if (os : OS) (cond thn : List command_t) (els : Option (List command_t)) (s : Shell) :
    Res Unit :=
  (command_executeList os cond cond.length s).bind fun _ s =>
    if s.cmd_last_exit_status = 0 then command_executeList os thn thn.length s
    else
      match els with
      | some e => command_executeList os e e.length s
      | none => .ok () s

/-- The state after `n` full rounds of a `while` loop: the condition list, then
the body, `n` times over. -/
def while_rounds (os : OS) (cond body : List command_t) : Nat → Shell → Res Unit
  | 0, s => .ok () s
  | n + 1, s =>
    (command_executeList os cond cond.length s).bind fun _ s =>
      (command_executeList os body body.length s).bind fun _ s =>
        while_rounds os cond body n s

/-- Whether the first `n` rounds of a `while` loop all go on: each execution of
the condition list returns with `cmd_last_exit_status` 0 and `cmd_last_signalled`
clear, and each execution of the body returns with `cmd_last_signalled` clear. -/
def while_continues (os : OS) (cond body : List command_t) : Nat → Shell → Bool
  | 0, _ => true
  | n + 1, s =>
    match command_executeList os cond cond.length s with
    | .ok _ c =>
      c.cmd_last_exit_status == 0 && !c.cmd_last_signalled &&
        (match command_executeList os body body.length c with
         | .ok _ b => !b.cmd_last_signalled && while_continues os cond body n b
         | _ => false)
    | _ => false

/-- A property of command lists, for the list a step of a parser loop leaves. -/
def step_inv (P : List command_t → Prop) : parser_step → Prop
  | .next l => P l.cmds
  | .finish cmds => P cmds
  | .cleanup => True

/-- The argument vectors of the commands that were run, in the order they were
run: the children spawned and the builtins called. -/
def executed (log : List Event) : List (List (List Int)) :=
  log.filterMap fun e =>
    match e with
    | .spawn c _ => some c.argv
    | .builtin argv _ => some argv
    | _ => none

/-- The state after one call of `history_append` for each line of `lines`, in
order. -/
def history_appends (lines : List (List Int)) (s : Shell) : Shell :=
  lines.foldl (fun s str => history_append str s) s

/-- A surrounding like `os_plain` at whose terminal the lines of `lines` are
typed one after the other: the request for a line that is the `k`-th in the log
is answered with the `k`-th line, and with an empty line when there is none. -/
def os_typing (lines : List (List Int)) : OS :=
  { os_plain with
      typed_line := fun s =>
        lines.getD ((s.log.filter fun e =>
          match e with
          | .input_get _ => true
          | _ => false).length - 1) [] }

/-- The state of the line editor when the loop of `input_getInteractive` starts:
the old buffer is unloaded and a buffer of 512 zero bytes is in place. -/
def input_editor_start (s : Shell) : Shell :=
  { input_unloadBuffer s with
      input_buffer := some (List.replicate INPUT_DEFAULT_BUFFER_SIZE 0),
      input_buffer_size := INPUT_DEFAULT_BUFFER_SIZE,
      input_buffer_alloc := INPUT_DEFAULT_BUFFER_SIZE }

/-- The commands for which the shell forked, in order. -/
def spawned (log : List Event) : List command_t :=
  log.filterMap fun e =>
    match e with
    | .spawn c _ => some c
    | _ => none

/-- The argument vectors of the builtins called, in order. -/
def builtins_called (log : List Event) : List (List (List Int)) :=
  log.filterMap fun e =>
    match e with
    | .builtin argv _ => some argv
    | _ => none

/-- The character layer, read from the state `s`, delivers the characters `cs`
and then end of input (NUL) at every further call. -/
def input_delivers (s : Shell) (cs : List Int) : Prop :=
  ∀ k, (input_getCharacters (cs.length + k) s).1 = cs ++ List.replicate k 0

/-- The tokens obtained by calling `lexer_getToken` until it returns NULL, each
call receiving the token returned before as `prev` and having the budget
`fuel`. The value is `timeout` when a call does not return in its budget or
when `n` calls have not reached the NULL. -/
def lexer_run (fuel : Nat) : Nat → Option token_t → Shell → Res (List token_t)
  | 0, _, _ => .timeout
  | n + 1, prev, s =>
    (lexer_getToken fuel prev s).bind fun t s =>
      match t with
      | none => .ok [] s
      | some t => (lexer_run fuel n (some t) s).bind fun ts s => .ok (t :: ts) s

/-- A text that may be left to read in a buffer that ends in a newline: nothing,
or characters other than NUL followed by a newline. -/
def line_rest (cs : List Int) : Prop :=
  cs = [] ∨ ∃ t : List Int, cs = t ++ [10] ∧ ∀ c ∈ t, c ≠ 0

/-! ## Properties of the token classification -/

/-- A conditional differs from `x` when both of its branches do. -/
theorem ite_ne_of_ne {α : Type} {c : Prop} [Decidable c] {a b x : α} (ha : a ≠ x) (hb : b ≠ x) :
    (if c then a else b) ≠ x := by
  split <;> assumption

/-- C4: `token_characterToType` maps newline to NEWLINE, space to SPACE, the EOF
sentinel -1 to EOF, each of the characters ' " > < | & ; $ * # ? ( ) = ~ to a
single-character token type of its own (the types are pairwise distinct), and
every other character, tab and NUL among them, to STRING; it never returns OR
or AND. -/
theorem token_characterToType_table :
    token_characterToType 10 = .NEWLINE ∧ token_characterToType 32 = .SPACE ∧
    token_characterToType (-1) = .EOF ∧
    [39, 34, 62, 60, 124, 38, 59, 36, 42, 35, 63, 40, 41, 61, 126].map token_characterToType =
      [.SINGLE_QUOTE, .DOUBLE_QUOTE, .REDIRECT_OUT, .REDIRECT_IN, .PIPE, .AMPERSAND,
       .SEMICOLON, .DOLLAR, .STAR, .HASHTAG, .QUESTION_MARK, .OPEN_PAREN, .CLOSE_PAREN,
       .EQUALS, .TILDE] ∧
    ([39, 34, 62, 60, 124, 38, 59, 36, 42, 35, 63, 40, 41, 61, 126].map
      token_characterToType).Nodup ∧
    [39, 34, 62, 60, 124, 38, 59, 36, 42, 35, 63, 40, 41, 61, 126] =
      cstr "'\"><|&;$*#?()=~" ∧
    token_characterToType 9 = .STRING ∧ token_characterToType 0 = .STRING ∧
    (∀ ch : Int,
      ch ∉ [-1, 10, 32, 39, 34, 62, 60, 124, 38, 59, 36, 42, 35, 63, 40, 41, 61, 126] →
      token_characterToType ch = .STRING) ∧
    (∀ ch : Int, token_characterToType ch ≠ .OR ∧ token_characterToType ch ≠ .AND) := by
  refine ⟨by decide, by decide, by decide, by decide, by decide, by decide, by decide,
    by decide, ?_, ?_⟩
  · intro ch h
    simp only [List.mem_cons, List.mem_singleton, not_or, List.not_mem_nil, not_false_eq_true,
      and_true] at h
    obtain ⟨h1, h2, h3, h4, h5, h6, h7, h8, h9, h10, h11, h12, h13, h14, h15, h16, h17, h18⟩ := h
    unfold token_characterToType
    simp only [if_neg, h1, h2, h3, h4, h5, h6, h7, h8, h9, h10, h11, h12, h13, h14, h15, h16,
      h17, h18, not_false_eq_true]
  · intro ch
    unfold token_characterToType
    constructor <;> (repeat' apply ite_ne_of_ne) <;> decide

/-! ## Properties of the lexer -/

@[simp] theorem Res.bind_ok {α β : Type} (a : α) (s : Shell) (f : α → Shell → Res β) :
    (Res.ok a s).bind f = f a s := rfl

@[simp] theorem Res.bind_halt {α β : Type} (n : Int) (s : Shell) (f : α → Shell → Res β) :
    (Res.halt n s : Res α).bind f = .halt n s := rfl

@[simp] theorem Res.bind_fault {α β : Type} (s : Shell) (f : α → Shell → Res β) :
    (Res.fault s : Res α).bind f = .fault s := rfl

@[simp] theorem Res.bind_timeout {α β : Type} (f : α → Shell → Res β) :
    (Res.timeout : Res α).bind f = .timeout := rfl

/-- A sequence returns exactly when both of its parts return. -/
theorem Res.bind_eq_ok {α β : Type} {r : Res α} {f : α → Shell → Res β} {b : β} {s : Shell} :
    r.bind f = .ok b s ↔ ∃ a s1, r = .ok a s1 ∧ f a s1 = .ok b s := by
  cases r with
  | ok a s1 =>
    constructor
    · intro h
      exact ⟨a, s1, rfl, h⟩
    · rintro ⟨a2, s2, h1, h2⟩
      cases h1
      exact h2
  | halt n s1 => simp [Res.bind]
  | fault s1 => simp [Res.bind]
  | timeout => simp [Res.bind]

/-- Reading a character leaves the unget slot of the lexer alone. -/
theorem input_getCharacter_unget (s : Shell) :
    (input_getCharacter s).2.lexer_unget = s.lexer_unget := by
  unfold input_getCharacter
  split
  · rfl
  · split
    · rfl
    · split <;> rfl

/-- The first step of `lexer_getToken` when the unget slot is empty and the
next character is `ch`, not NUL. -/
theorem lexer_getToken_char (fuel : Nat) (prev : Option token_t) (s : Shell) (ch : Int)
    (hu : s.lexer_unget = none) (hch : (input_getCharacter s).1 = ch) (h0 : ch ≠ 0) :
    lexer_getToken (fuel + 1) prev s =
      (let s1 := (input_getCharacter s).2
       let t : token_t := { type := token_characterToType ch, value := [] }
       if t.type = .STRING then
          (lexer_getString fuel [ch] s1).bind fun buffer s =>
            .ok (some { type := .STRING, value := c_str buffer }) s
        else if t.type = .PIPE ∧ (prev.map (fun p => p.type)) ≠ some .PIPE then
          (lexer_getToken fuel (some t) s1).bind fun next s =>
            match next with
            | none => .fault s
            | some next =>
              if next.type = .PIPE then .ok (some { next with type := .OR }) s
              else .ok (some t) (lexer_ungetToken next s)
        else if t.type = .AMPERSAND ∧ (prev.map (fun p => p.type)) ≠ some .AMPERSAND then
          (lexer_getToken fuel (some t) s1).bind fun next s =>
            match next with
            | none => .fault s
            | some next =>
              if next.type = .AMPERSAND then .ok (some { next with type := .AND }) s
              else .ok (some t) (lexer_ungetToken next s)
        else .ok (some t) s1) := by
  subst hch
  rw [lexer_getToken]
  simp only [hu, h0, if_false]

/-- With a token in the unget slot `lexer_getToken` returns it and empties the
slot. -/
theorem lexer_getToken_slot (fuel : Nat) (prev : Option token_t) (s : Shell) (tok : token_t)
    (hu : s.lexer_unget = some tok) :
    lexer_getToken (fuel + 1) prev s = .ok (some tok) { s with lexer_unget := none } := by
  rw [lexer_getToken]
  simp only [hu]

/-- C3: with the unget slot empty, when the next two input characters are `||`
and prev is absent or not a PIPE, `lexer_getToken` returns one OR token and
both characters are consumed; likewise `&&` with prev not an AMPERSAND gives one
AND token; and when a `|` (or `&`) is followed by a token `nxt` of another type,
`lexer_getToken` returns PIPE (or AMPERSAND) and the next call returns `nxt`. -/
theorem lexer_digraphs (fuel : Nat) (prev : Option token_t) (s : Shell)
    (hu : s.lexer_unget = none) :
    (prev.map (fun p => p.type) ≠ some .PIPE → (input_getCharacters 2 s).1 = [124, 124] →
      lexer_getToken (fuel + 2) prev s =
        .ok (some { type := .OR, value := [] }) (input_getCharacters 2 s).2) ∧
    (prev.map (fun p => p.type) ≠ some .AMPERSAND → (input_getCharacters 2 s).1 = [38, 38] →
      lexer_getToken (fuel + 2) prev s =
        .ok (some { type := .AND, value := [] }) (input_getCharacters 2 s).2) ∧
    (∀ nxt s2, (input_getCharacter s).1 = 124 →
      lexer_getToken fuel (some { type := .PIPE, value := [] }) (input_getCharacter s).2 =
        .ok (some nxt) s2 →
      nxt.type ≠ .PIPE →
      ∃ s3 s4, lexer_getToken (fuel + 1) prev s = .ok (some { type := .PIPE, value := [] }) s3 ∧
        lexer_getToken fuel (some { type := .PIPE, value := [] }) s3 = .ok (some nxt) s4) ∧
    (∀ nxt s2, (input_getCharacter s).1 = 38 →
      lexer_getToken fuel (some { type := .AMPERSAND, value := [] }) (input_getCharacter s).2 =
        .ok (some nxt) s2 →
      nxt.type ≠ .AMPERSAND →
      ∃ s3 s4,
        lexer_getToken (fuel + 1) prev s = .ok (some { type := .AMPERSAND, value := [] }) s3 ∧
        lexer_getToken fuel (some { type := .AMPERSAND, value := [] }) s3 = .ok (some nxt) s4) := by
  have hp : token_characterToType 124 = .PIPE := by decide
  have ha : token_characterToType 38 = .AMPERSAND := by decide
  refine ⟨?_, ?_, ?_, ?_⟩
  · intro hprev h2
    simp only [input_getCharacters, List.cons.injEq, and_true] at h2
    obtain ⟨h1, h2⟩ := h2
    have hu1 : (input_getCharacter s).2.lexer_unget = none := by
      rw [input_getCharacter_unget, hu]
    rw [lexer_getToken_char (fuel + 1) prev s 124 hu h1 (by decide)]
    simp only [hp, hprev]
    rw [lexer_getToken_char fuel _ _ 124 hu1 h2 (by decide)]
    simp [hp, input_getCharacters]
    intro x hx
    subst hx
    simpa using hprev
  · intro hprev h2
    simp only [input_getCharacters, List.cons.injEq, and_true] at h2
    obtain ⟨h1, h2⟩ := h2
    have hu1 : (input_getCharacter s).2.lexer_unget = none := by
      rw [input_getCharacter_unget, hu]
    rw [lexer_getToken_char (fuel + 1) prev s 38 hu h1 (by decide)]
    simp only [ha, hprev]
    rw [lexer_getToken_char fuel _ _ 38 hu1 h2 (by decide)]
    simp [ha, input_getCharacters]
    intro x hx
    subst hx
    simpa using hprev
  · intro nxt s2 h1 hn hne
    rw [lexer_getToken_char fuel prev s 124 hu h1 (by decide)]
    simp only [hp]
    by_cases hprev : prev.map (fun p => p.type) = some .PIPE
    · refine ⟨(input_getCharacter s).2, s2, ?_, hn⟩
      simp [hprev]
    · cases fuel with
      | zero => simp [lexer_getToken] at hn
      | succ fuel =>
        refine ⟨lexer_ungetToken nxt s2, { lexer_ungetToken nxt s2 with lexer_unget := none }, ?_, ?_⟩
        · simp [hprev, hn, hne]
        · exact lexer_getToken_slot fuel _ _ nxt rfl
  · intro nxt s2 h1 hn hne
    rw [lexer_getToken_char fuel prev s 38 hu h1 (by decide)]
    simp only [ha]
    by_cases hprev : prev.map (fun p => p.type) = some .AMPERSAND
    · refine ⟨(input_getCharacter s).2, s2, ?_, hn⟩
      simp [hprev]
    · cases fuel with
      | zero => simp [lexer_getToken] at hn
      | succ fuel =>
        refine ⟨lexer_ungetToken nxt s2, { lexer_ungetToken nxt s2 with lexer_unget := none }, ?_, ?_⟩
        · simp [hprev, hn, hne]
        · exact lexer_getToken_slot fuel _ _ nxt rfl

/-- Witness for C3: the line `||` gives one OR token, and in the line `|x` the
PIPE is followed by the STRING `x`, returned by the next call. -/
theorem lexer_digraphs_witness :
    lexer_getToken 2 none (input_loadBuffer (cstr "||") (shell_start 1 [])) =
      .ok (some { type := .OR, value := [] })
        (input_getCharacters 2 (input_loadBuffer (cstr "||") (shell_start 1 []))).2 ∧
    ∃ s3 s4,
      lexer_getToken 6 none (input_loadBuffer (cstr "|x") (shell_start 1 [])) =
        .ok (some { type := .PIPE, value := [] }) s3 ∧
      lexer_getToken 5 (some { type := .PIPE, value := [] }) s3 =
        .ok (some { type := .STRING, value := cstr "x" }) s4 :=
  ⟨(lexer_digraphs 0 none (input_loadBuffer (cstr "||") (shell_start 1 [])) rfl).1
      (by decide) (by decide),
   (lexer_digraphs 5 none (input_loadBuffer (cstr "|x") (shell_start 1 [])) rfl).2.2.1
      { type := .STRING, value := cstr "x" } _ (by decide) (by rfl) (by decide)⟩

/-- After a character was read the unread slot of the character layer is
empty. -/
theorem input_getCharacter_unread (s : Shell) :
    (input_getCharacter s).2.essence_unread_character = 0 := by
  unfold input_getCharacter
  split
  · rfl
  · rename_i h
    have h0 : s.essence_unread_character = 0 := by simpa using h
    split
    · exact h0
    · split <;> exact h0

/-- A character given back is the next character read, and reading it restores
the state before it was given back. -/
theorem input_getCharacter_unget_char (d : Int) (s : Shell) (hd : d ≠ 0)
    (hs : s.essence_unread_character = 0) :
    input_getCharacter (input_ungetCharacter d s) = (d, s) := by
  unfold input_getCharacter input_ungetCharacter
  simp only [ne_eq, hd, not_false_eq_true, if_true]
  cases s
  simp_all

/-- After one or more characters were read the unread slot is empty. -/
theorem input_getCharacters_unread (n : Nat) (s : Shell) :
    (input_getCharacters (n + 1) s).2.essence_unread_character = 0 := by
  induction n generalizing s with
  | zero => exact input_getCharacter_unread s
  | succ n ih => exact ih (input_getCharacter s).2

/-- The loop that gathers a STRING token stores a run of STRING-class
characters and stops at the character `d` after it, which it gives back. -/
theorem lexer_getString_run (d : Int) (hd : token_characterToType d ≠ .STRING) :
    ∀ (run : List Int) (fuel : Nat) (acc : List Int) (s : Shell),
      (∀ c ∈ run, token_characterToType c = .STRING) →
      (input_getCharacters (run.length + 1) s).1 = run ++ [d] →
      lexer_getString (fuel + run.length + 1) acc s =
        .ok (acc ++ run) (input_ungetCharacter d (input_getCharacters (run.length + 1) s).2) := by
  intro run
  induction run with
  | nil =>
    intro fuel acc s _ hin
    simp only [input_getCharacters, List.nil_append, List.cons.injEq, and_true,
      List.length_nil, Nat.zero_add] at hin
    simp only [List.length_nil, Nat.add_zero, List.append_nil]
    rw [lexer_getString]
    simp [hin, hd, input_getCharacters]
  | cons c cs ih =>
    intro fuel acc s hrun hin
    simp only [List.length_cons, input_getCharacters, List.cons_append, List.cons.injEq] at hin
    obtain ⟨h1, h2⟩ := hin
    have hc : token_characterToType c = .STRING := hrun c (List.mem_cons_self _ _)
    have hcs : ∀ x ∈ cs, token_characterToType x = .STRING :=
      fun x hx => hrun x (List.mem_cons_of_mem _ hx)
    have key := ih fuel (acc ++ [c]) (input_getCharacter s).2 hcs h2
    simp only [List.length_cons]
    rw [show fuel + (cs.length + 1) + 1 = (fuel + cs.length + 1) + 1 by omega, lexer_getString]
    simp only [h1, hc, ne_eq, not_true_eq_false, if_false]
    rw [key]
    simp [input_getCharacters]

/-- The C string of a sequence without NUL is the sequence. -/
theorem c_str_of_ne_zero (bytes : List Int) (h : ∀ x ∈ bytes, x ≠ 0) : c_str bytes = bytes := by
  unfold c_str
  rw [List.takeWhile_eq_self_iff]
  intro x hx
  simpa using h x hx

/-- C2 (the code at the failing input): for the line `a|&b` the lexer, called
until it returns NULL with prev threaded, yields the tokens `a`, `|`, `&` and
newline only. The look-ahead after `|` reads `&`, whose own look-ahead reads
`b` and puts it in the unget slot; the outer call then puts `&` in the same
slot, so the STRING `b` is lost and the text of the tokens is not the line. -/
theorem lexer_roundtrip_loses_token :
    lexer_tokens 10 10 none (input_loadBuffer (cstr "a|&b") (shell_start 1 [])) =
      [{ type := .STRING, value := cstr "a" }, { type := .PIPE, value := [] },
       { type := .AMPERSAND, value := [] }, { type := .NEWLINE, value := [] }] ∧
    tokens_text (lexer_tokens 10 10 none (input_loadBuffer (cstr "a|&b") (shell_start 1 []))) =
      cstr "a|&\n" ∧
    tokens_text (lexer_tokens 10 10 none (input_loadBuffer (cstr "a|&b") (shell_start 1 []))) ≠
      cstr "a|&b\n" := by
  refine ⟨by decide, by decide, by decide⟩

/-! ## Properties of variable expansion -/

/-- C9 (the code at the failing input): with `cmd_last_exit_status` = 127 the
expansion returned for `$?` is `27`, the decimal representation `127` without
its first character, because the function returns the string at `&tmp[1]`;
likewise `$$` with the shell pid 4242 gives `242`, and `$#` with argc 12
gives `2`. -/
theorem parser_interpretVariable_status_drops_digit :
    printf_d 127 = cstr "127" ∧
    (∃ s1, parser_interpretVariable os_plain 5 { type := .DOLLAR, value := [] }
        { input_loadBuffer (cstr "?") (shell_start 4242 []) with cmd_last_exit_status := 127 } =
      .ok (some (cstr "27")) s1) ∧
    (∃ s1, parser_interpretVariable os_plain 5 { type := .DOLLAR, value := [] }
        (input_loadBuffer (cstr "$") (shell_start 4242 [])) = .ok (some (cstr "242")) s1) ∧
    (∃ s1, parser_interpretVariable os_plain 5 { type := .DOLLAR, value := [] }
        { input_loadBuffer (cstr "#") (shell_start 4242 []) with essence_argc := 12 } =
      .ok (some (cstr "2")) s1) := by
  refine ⟨by decide, ⟨_, by rfl⟩, ⟨_, by rfl⟩, ⟨_, by rfl⟩⟩

/-- C10 (the code at the failing input): with `NAME=abc` in the environment the
expansion returned for `$NAME` is `bc`, the value without its first character;
and for a name that is not set the function returns the string found at
`&tmp[1]`, which nothing has written: here the bytes `junk` left on the stack,
not the empty string. -/
theorem parser_interpretVariable_env_drops_char :
    getenv [cstr "NAME=abc"] (cstr "NAME") = some (cstr "abc") ∧
    (∃ s1, parser_interpretVariable os_plain 6 { type := .DOLLAR, value := [] }
        (input_loadBuffer (cstr "NAME") (shell_start 1 [cstr "NAME=abc"])) =
      .ok (some (cstr "bc")) s1) ∧
    getenv [] (cstr "NAME") = none ∧
    (∃ s1, parser_interpretVariable { os_plain with stack_tmp := fun _ => cstr "junk" } 6
        { type := .DOLLAR, value := [] }
        (input_loadBuffer (cstr "NAME") (shell_start 1 [])) =
      .ok (some (cstr "junk")) s1) := by
  refine ⟨by decide, ⟨_, by rfl⟩, by decide, ⟨_, by rfl⟩⟩

/-! ## Properties of the executor -/

/-- The value `command_execute` returns is the `cmd_last_exit_status` it leaves. -/
theorem command_execute_status (os : OS) (c : command_t) (s s1 : Shell) (v : Int)
    (h : command_execute os c s = .ok v s1) : s1.cmd_last_exit_status = v := by
  unfold command_execute at h
  split at h
  · simp only [Res.ok.injEq] at h
    rw [← h.2]
    exact h.1
  · split at h
    · rw [Res.bind_eq_ok] at h
      obtain ⟨a, s2, _, h2⟩ := h
      simp only [Res.ok.injEq] at h2
      rw [← h2.2, ← h2.1]
    · cases hw : os.waitpid s c with
      | none => simp [hw] at h
      | some w =>
        simp only [hw, Res.ok.injEq] at h
        rw [← h.2, ← h.1]

/-- In a list without PIPE_FROM_PREV a pipeline ends where it starts. -/
theorem pipeline_end_no_pipe (cmds : List command_t) (n : Nat)
    (hp : ∀ c ∈ cmds, has_flag c COMMAND_FLAG_PIPE_FROM_PREV = false) (fuel e : Nat) :
    pipeline_end cmds n fuel e = e := by
  cases fuel with
  | zero => rfl
  | succ fuel =>
    rw [pipeline_end]
    have hflag : has_flag (cmds.getD (e + 1) COMMAND_INIT) COMMAND_FLAG_PIPE_FROM_PREV = false := by
      by_cases hlt : e + 1 < cmds.length
      · rw [List.getD_eq_getElem _ _ hlt]
        exact hp _ (List.getElem_mem _)
      · rw [List.getD_eq_default _ _ (by omega)]
        decide
    rw [if_neg]
    rintro ⟨_, h⟩
    rw [hflag] at h
    cases h

/-- The loop of `command_executeList` from index `i`, in a list without
PIPE_FROM_PREV, is the walk of the specification over the commands from `i`. -/
theorem command_executeList_loop_chain (os : OS) (cmds : List command_t)
    (hp : ∀ c ∈ cmds, has_flag c COMMAND_FLAG_PIPE_FROM_PREV = false) :
    ∀ (fuel i : Nat) (s : Shell), i ≤ cmds.length → cmds.length - i < fuel →
      command_executeList_loop os cmds cmds.length fuel i s = spec_chain os (cmds.drop i) i s := by
  intro fuel
  induction fuel with
  | zero => intro i s _ h; omega
  | succ fuel ih =>
    intro i s hi hf
    rw [command_executeList_loop]
    by_cases hlt : i < cmds.length
    · have hdrop : cmds.drop i = cmds[i] :: cmds.drop (i + 1) := List.drop_eq_getElem_cons hlt
      have hget : cmds.getD i COMMAND_INIT = cmds[i] := List.getD_eq_getElem _ _ hlt
      rw [hdrop, spec_chain, hget, pipeline_end_no_pipe cmds _ hp]
      simp only [hlt, not_true_eq_false, if_false]
      by_cases h1 : i ≠ 0 ∧ has_flag cmds[i] COMMAND_FLAG_OR = true ∧ s.cmd_last_exit_status = 0
      · rw [if_pos h1, if_pos ⟨by omega, Or.inl h1.2⟩]
        exact ih (i + 1) s (by omega) (by omega)
      · rw [if_neg h1]
        by_cases h2 : i ≠ 0 ∧ has_flag cmds[i] COMMAND_FLAG_AND = true ∧ s.cmd_last_exit_status ≠ 0
        · rw [if_pos h2, if_pos ⟨by omega, Or.inr h2.2⟩]
          exact ih (i + 1) s (by omega) (by omega)
        · rw [if_neg h2]
          have h3 : ¬ (0 < i ∧ ((has_flag cmds[i] COMMAND_FLAG_OR = true ∧ s.cmd_last_exit_status = 0) ∨
              (has_flag cmds[i] COMMAND_FLAG_AND = true ∧ s.cmd_last_exit_status ≠ 0))) := by
            rintro ⟨hpos, h | h⟩
            · exact h1 ⟨by omega, h⟩
            · exact h2 ⟨by omega, h⟩
          rw [if_neg h3]
          simp only [if_true]
          cases hex : command_execute os cmds[i] s with
          | ok v s1 =>
            have hv := command_execute_status os _ s s1 v hex
            simp only [Res.bind_ok]
            rw [← hv]
            have hs : (if ¬ has_flag cmds[i] COMMAND_FLAG_JOB = true then
                { s1 with cmd_last_exit_status := s1.cmd_last_exit_status } else s1) = s1 := by
              split <;> rfl
            rw [hs]
            exact ih (i + 1) s1 (by omega) (by omega)
          | halt n s1 => rfl
          | fault s1 => rfl
          | timeout => rfl
    · have hi2 : i = cmds.length := by omega
      subst hi2
      simp [spec_chain]

/-- C1: for every command list in which no command carries PIPE_FROM_PREV and
every initial state (so every `cmd_last_exit_status`), `command_executeList` does
what the walk of the specification does: it takes the commands from left to
right, each once; it executes command 0, and executes a command at an index
above 0 unless it carries OR while `cmd_last_exit_status` is 0 or carries AND
while it is not 0; a skipped command leaves the state, `cmd_last_exit_status`
included, as it is. -/
theorem command_executeList_chain (os : OS) (cmds : List command_t) (s : Shell)
    (hp : ∀ c ∈ cmds, has_flag c COMMAND_FLAG_PIPE_FROM_PREV = false) :
    command_executeList os cmds cmds.length s = spec_chain os cmds 0 s := by
  unfold command_executeList
  rw [command_executeList_loop_chain os cmds hp _ 0 s (by omega) (by omega)]
  rfl

/-- Witness for C1: the list `false`, `echo` carrying AND, `true` carrying OR,
which has no PIPE_FROM_PREV, run in a fresh shell. -/
theorem command_executeList_chain_witness :
    (∀ c ∈ [COMMAND_PUSH_ARGV COMMAND_INIT (cstr "false"),
            { COMMAND_PUSH_ARGV COMMAND_INIT (cstr "echo") with exec_flags := COMMAND_FLAG_AND },
            { COMMAND_PUSH_ARGV COMMAND_INIT (cstr "true") with exec_flags := COMMAND_FLAG_OR }],
        has_flag c COMMAND_FLAG_PIPE_FROM_PREV = false) ∧
    command_executeList os_plain
        [COMMAND_PUSH_ARGV COMMAND_INIT (cstr "false"),
         { COMMAND_PUSH_ARGV COMMAND_INIT (cstr "echo") with exec_flags := COMMAND_FLAG_AND },
         { COMMAND_PUSH_ARGV COMMAND_INIT (cstr "true") with exec_flags := COMMAND_FLAG_OR }]
        3 (shell_start 1 []) =
      spec_chain os_plain
        [COMMAND_PUSH_ARGV COMMAND_INIT (cstr "false"),
         { COMMAND_PUSH_ARGV COMMAND_INIT (cstr "echo") with exec_flags := COMMAND_FLAG_AND },
         { COMMAND_PUSH_ARGV COMMAND_INIT (cstr "true") with exec_flags := COMMAND_FLAG_OR }]
        0 (shell_start 1 []) :=
  ⟨by decide, command_executeList_chain os_plain _ (shell_start 1 []) (by decide)⟩

/-! ## Properties of the parser -/

/-- The invariant holds for every prefix of a list for which it holds. -/
theorem pipe_invariant_left (a b : List command_t) (h : pipe_invariant (a ++ b)) :
    pipe_invariant a := by
  intro i hi hflag
  have hi2 : i < (a ++ b).length := by rw [List.length_append]; omega
  have h1 := h i hi2 (by rw [List.getD_append _ _ _ _ hi]; exact hflag)
  rw [List.getD_append _ _ _ _ (by omega)] at h1
  exact h1

/-- The invariant still holds after a command is appended, provided that, when
the new command carries PIPE_FROM_PREV, the list ends in a command with
arguments. -/
theorem pipe_invariant_snoc (a : List command_t) (c : command_t) (ha : pipe_invariant a)
    (hc : has_flag c COMMAND_FLAG_PIPE_FROM_PREV = true →
      ∃ init last, a = init ++ [last] ∧ 0 < last.argc) :
    pipe_invariant (a ++ [c]) := by
  intro i hi hflag
  rw [List.length_append, List.length_singleton] at hi
  by_cases h : i < a.length
  · rw [List.getD_append _ _ _ _ h] at hflag
    obtain ⟨h1, h2⟩ := ha i h hflag
    refine ⟨h1, ?_⟩
    rw [List.getD_append _ _ _ _ (by omega)]
    exact h2
  · have hi3 : i = a.length := by omega
    subst hi3
    rw [List.getD_append_right _ _ _ _ (le_refl _)] at hflag
    simp only [Nat.sub_self, List.getD_cons_zero] at hflag
    obtain ⟨init, last, rfl, hl⟩ := hc hflag
    simp only [List.length_append, List.length_singleton, Nat.add_sub_cancel]
    refine ⟨by omega, ?_⟩
    rw [List.getD_append _ _ _ _ (by simp), List.getD_append_right _ _ _ _ (le_refl _)]
    simpa using hl

/-- In a list with the invariant a last command that carries PIPE_FROM_PREV
comes after a command with arguments. -/
theorem pipe_invariant_last (a : List command_t) (c : command_t)
    (h : pipe_invariant (a ++ [c])) (hc : has_flag c COMMAND_FLAG_PIPE_FROM_PREV = true) :
    ∃ init last, a = init ++ [last] ∧ 0 < last.argc := by
  have h1 := h a.length (by simp) (by
    rw [List.getD_append_right _ _ _ _ (le_refl _)]
    simpa using hc)
  obtain ⟨hpos, harg⟩ := h1
  have hne : a ≠ [] := by
    intro h0
    rw [h0] at hpos
    simp at hpos
  refine ⟨a.dropLast, a.getLast hne, (List.dropLast_append_getLast hne).symm, ?_⟩
  rw [List.getD_append _ _ _ _ (by omega), List.getD_eq_getElem _ _ (by omega)] at harg
  rw [List.getLast_eq_getElem]
  exact harg

/-- The macro `CMD` on a list that ends in `last`. -/
theorem CMD_snoc (init : List command_t) (last : command_t) : CMD (init ++ [last]) = last := by
  unfold CMD
  exact List.getLastD_concat _ _ _

/-- An assignment to `CMD` on a list that ends in `last`. -/
theorem CMD_set_snoc (init : List command_t) (last c : command_t) :
    CMD_set (init ++ [last]) c = init ++ [c] := by
  unfold CMD_set
  rw [List.dropLast_concat]

/-- A list is empty or ends in a last command. -/
theorem list_nil_or_snoc (cmds : List command_t) :
    cmds = [] ∨ ∃ init last, cmds = init ++ [last] := by
  by_cases h : cmds = []
  · exact Or.inl h
  · exact Or.inr ⟨cmds.dropLast, cmds.getLast h, (List.dropLast_append_getLast h).symm⟩

/-- The invariant survives an assignment to `CMD` that keeps the PIPE_FROM_PREV
flag of the command as it was. -/
theorem pipe_invariant_CMD_set (cmds : List command_t) (c : command_t)
    (h : pipe_invariant cmds)
    (hc : has_flag c COMMAND_FLAG_PIPE_FROM_PREV =
      has_flag (CMD cmds) COMMAND_FLAG_PIPE_FROM_PREV) :
    pipe_invariant (CMD_set cmds c) := by
  rcases list_nil_or_snoc cmds with h0 | ⟨init, last, h0⟩
  · subst h0
    have hno : has_flag c COMMAND_FLAG_PIPE_FROM_PREV = false := by
      rw [hc]
      decide
    exact pipe_invariant_snoc [] c (fun i hi => by simp at hi) (fun hf => by
      rw [hno] at hf
      cases hf)
  · subst h0
    rw [CMD_set_snoc]
    rw [CMD_snoc] at hc
    exact pipe_invariant_snoc init c (pipe_invariant_left _ _ h) (fun hf =>
      pipe_invariant_last init last h (by rw [← hc]; exact hf))

/-- The invariant survives the loss of the last command. -/
theorem pipe_invariant_dropLast (cmds : List command_t) (h : pipe_invariant cmds) :
    pipe_invariant cmds.dropLast := by
  rcases list_nil_or_snoc cmds with h0 | ⟨init, last, h0⟩
  · subst h0
    exact h
  · subst h0
    rw [List.dropLast_concat]
    exact pipe_invariant_left _ _ h

/-- The invariant survives `COMMAND_NEW`, which appends a command without
flags. -/
theorem pipe_invariant_COMMAND_NEW (cmds : List command_t) (h : pipe_invariant cmds) :
    pipe_invariant (COMMAND_NEW cmds) := by
  unfold COMMAND_NEW
  exact pipe_invariant_snoc cmds _ h (fun hf => by
    have : has_flag COMMAND_INIT COMMAND_FLAG_PIPE_FROM_PREV = false := by decide
    rw [this] at hf
    cases hf)

/-- A list whose `CMD` has arguments ends in a command with arguments. -/
theorem CMD_argc_snoc (cmds : List command_t) (h : (CMD cmds).argc ≠ 0) :
    ∃ init last, cmds = init ++ [last] ∧ 0 < last.argc := by
  rcases list_nil_or_snoc cmds with h0 | ⟨init, last, h0⟩
  · subst h0
    exact absurd rfl h
  · subst h0
    rw [CMD_snoc] at h
    exact ⟨init, last, rfl, by omega⟩

@[simp] theorem BUFFER_PUSH_cmds (ch : Int) (l : parser_locals) :
    (BUFFER_PUSH ch l).cmds = l.cmds := rfl

@[simp] theorem BUFFER_PUSH_string_cmds (str : List Int) (l : parser_locals) :
    (BUFFER_PUSH_string str l).cmds = l.cmds := by
  unfold BUFFER_PUSH_string
  generalize c_str str = cs
  induction cs generalizing l with
  | nil => rfl
  | cons c cs ih => rw [List.foldl_cons, ih, BUFFER_PUSH_cmds]

@[simp] theorem parser_tilde_cmds (l : parser_locals) (s : Shell) :
    (parser_tilde l s).cmds = l.cmds := by
  unfold parser_tilde
  split <;> exact BUFFER_PUSH_string_cmds _ _

theorem buffer_copy_cmds (value : List Int) (l l1 : parser_locals)
    (h : buffer_copy value l = some l1) : l1.cmds = l.cmds := by
  unfold buffer_copy at h
  dsimp only at h
  split_ifs at h <;> simp only [Option.some.injEq] at h <;> rw [← h]

theorem set_redirect_flags (fd f : Int) (c : command_t) :
    (set_redirect fd f c).exec_flags = c.exec_flags := by
  unfold set_redirect
  split
  · rfl
  · split
    · rfl
    · split <;> rfl

theorem pipe_invariant_push_argument (l : parser_locals) (h : pipe_invariant l.cmds) :
    pipe_invariant (push_argument l).cmds :=
  pipe_invariant_CMD_set _ _ h rfl

theorem pipe_invariant_flush_argument (l : parser_locals) (h : pipe_invariant l.cmds) :
    pipe_invariant (flush_argument l).cmds := by
  unfold flush_argument
  split
  · exact pipe_invariant_push_argument l h
  · exact h

theorem pipe_invariant_redirect (l : parser_locals) (fd f : Int) (h : pipe_invariant l.cmds) :
    pipe_invariant (CMD_set l.cmds (set_redirect fd f (CMD l.cmds))) :=
  pipe_invariant_CMD_set _ _ h (by unfold has_flag; rw [set_redirect_flags])

/-- Flushing the buffer keeps a last command with arguments. -/
theorem flush_argument_snoc (l : parser_locals) (h : (CMD l.cmds).argc ≠ 0) :
    ∃ init last, (flush_argument l).cmds = init ++ [last] ∧ 0 < last.argc := by
  obtain ⟨init, last, h0, hl⟩ := CMD_argc_snoc _ h
  unfold flush_argument
  split
  · refine ⟨init, COMMAND_PUSH_ARGV last l.buf, ?_, ?_⟩
    · simp only [push_argument, h0, CMD_set_snoc, CMD_snoc]
    · simp only [COMMAND_PUSH_ARGV]
      omega
  · exact ⟨init, last, h0, hl⟩

/-- The command list after `parser_newCommand`. -/
theorem parser_newCommand_cmds (flag : Nat) (l : parser_locals) :
    (parser_newCommand flag l).cmds =
      (flush_argument l).cmds ++
        [{ COMMAND_INIT with exec_flags := COMMAND_INIT.exec_flags ||| flag }] := by
  simp only [parser_newCommand, COMMAND_NEW, CMD_snoc, CMD_set_snoc]

theorem pipe_invariant_newCommand (flag : Nat) (l : parser_locals) (h : pipe_invariant l.cmds)
    (hf : flag = COMMAND_FLAG_PIPE_FROM_PREV → (CMD l.cmds).argc ≠ 0)
    (hflag : flag = COMMAND_FLAG_OR ∨ flag = COMMAND_FLAG_AND ∨
      flag = COMMAND_FLAG_PIPE_FROM_PREV) :
    pipe_invariant (parser_newCommand flag l).cmds := by
  rw [parser_newCommand_cmds]
  apply pipe_invariant_snoc _ _ (pipe_invariant_flush_argument l h)
  intro hp
  rcases hflag with h1 | h1 | h1
  · subst h1
    exact absurd hp (by decide)
  · subst h1
    exact absurd hp (by decide)
  · exact flush_argument_snoc l (hf h1)

theorem pipe_invariant_assignment (os : OS) (fuel : Nat) (tok : token_t) (l l1 : parser_locals)
    (s s1 : Shell) (h : parser_assignment os fuel tok l s = .ok l1 s1)
    (hinv : pipe_invariant l.cmds) : pipe_invariant l1.cmds := by
  unfold parser_assignment at h
  rw [Res.bind_eq_ok] at h
  obtain ⟨a, s2, _, h⟩ := h
  rw [Res.bind_eq_ok] at h
  obtain ⟨r, s3, _, h⟩ := h
  simp only [Res.ok.injEq] at h
  rw [← h.1]
  exact pipe_invariant_CMD_set _ _ hinv rfl

theorem parser_dollar_cmds (os : OS) (fuel : Nat) (tok : token_t) (l l1 : parser_locals)
    (s s1 : Shell) (h : parser_dollar os fuel tok l s = .ok l1 s1) : l1.cmds = l.cmds := by
  unfold parser_dollar at h
  rw [Res.bind_eq_ok] at h
  obtain ⟨a, s2, _, h⟩ := h
  split at h
  · simp only [Res.ok.injEq] at h
    rw [← h.1]
    exact BUFFER_PUSH_string_cmds _ _
  · simp only [Res.ok.injEq] at h
    rw [← h.1]

/-- One round of the switch of `parser_interpret` keeps the invariant of the
command list. -/
theorem parser_interpret_token_inv (os : OS) (fuel : Nat) (tok : token_t) (l : parser_locals)
    (s s1 : Shell) (step : parser_step)
    (h : parser_interpret_token os fuel tok l s = .ok step s1)
    (hinv : pipe_invariant l.cmds) : step_inv pipe_invariant step := by
  unfold parser_interpret_token at h
  split at h
  all_goals (try dsimp only at h)
  all_goals (repeat' (split at h))
  all_goals (try (simp only [Res.ok.injEq] at h; obtain ⟨h1, _⟩ := h; subst h1; simp only [step_inv]))
  all_goals (try trivial)
  all_goals (first
    | exact hinv
    | exact pipe_invariant_push_argument l hinv
    | exact pipe_invariant_dropLast _ hinv
    | exact pipe_invariant_redirect l _ _ hinv
    | exact pipe_invariant_flush_argument l hinv
    | exact pipe_invariant_COMMAND_NEW _ (pipe_invariant_flush_argument l hinv)
    | skip)
  all_goals (try (rw [Res.bind_eq_ok] at h; obtain ⟨a, s2, ha, h⟩ := h))
  all_goals (repeat' (split at h))
  all_goals (try (simp only [Res.ok.injEq] at h; obtain ⟨h1, _⟩ := h; subst h1; simp only [step_inv]))
  all_goals (try trivial)
  all_goals (first
    | exact hinv
    | (rw [buffer_copy_cmds _ _ _ (by assumption)]; exact hinv)
    | (rw [parser_tilde_cmds]; exact hinv)
    | exact pipe_invariant_assignment _ _ _ _ _ _ _ ha hinv
    | (rw [parser_dollar_cmds _ _ _ _ _ _ _ ha]; exact hinv)
    | exact pipe_invariant_newCommand _ l hinv (fun h0 => absurd h0 (by decide)) (by decide)
    | exact pipe_invariant_newCommand _ l hinv
        (fun _ h0 => (by assumption : ¬ ((CMD l.cmds).argc = 0 ∨ s.parser_pending_redirect = true))
          (Or.inl h0)) (by decide))

/-- The token loop of `parser_interpret` keeps the invariant: the list it brings
to the label `_execute` has it when the list it starts from has it. -/
theorem parser_interpret_loop_inv (os : OS) :
    ∀ (fuel : Nat) (l : parser_locals) (s s1 : Shell) (cmds : List command_t),
      parser_interpret_loop os fuel l s = .ok (some cmds) s1 →
      pipe_invariant l.cmds → pipe_invariant cmds := by
  intro fuel
  induction fuel with
  | zero =>
    intro l s s1 cmds h _
    simp [parser_interpret_loop] at h
  | succ fuel ih =>
    intro l s s1 cmds h hinv
    rw [parser_interpret_loop, Res.bind_eq_ok] at h
    obtain ⟨new, s2, _, h⟩ := h
    cases new with
    | none =>
      simp only [Res.ok.injEq, Option.some.injEq] at h
      rw [← h.1]
      exact hinv
    | some tok =>
      simp only at h
      rw [Res.bind_eq_ok] at h
      obtain ⟨step, s3, hstep, h⟩ := h
      have hs := parser_interpret_token_inv os fuel tok _ s2 s3 step hstep hinv
      cases step with
      | next l1 => exact ih l1 s3 s1 cmds h hs
      | finish c =>
        simp only [Res.ok.injEq, Option.some.injEq] at h
        rw [← h.1]
        exact hs
      | cleanup => simp at h

/-- The result of `parser_finalizeRedir` keeps the invariant. -/
theorem parser_finalizeRedir_inv (os : OS) (l : parser_locals) (s : Shell)
    (hinv : pipe_invariant l.cmds) :
    step_inv pipe_invariant (parser_finalizeRedir os l s).1 := by
  unfold parser_finalizeRedir
  dsimp only
  split
  · exact pipe_invariant_dropLast _ hinv
  · exact pipe_invariant_redirect l _ _ hinv

/-- One round of the switch of `parser_parseUntil` keeps the invariant of the
command list. -/
theorem parser_parseUntil_token_inv (os : OS) (fuel : Nat) (tok : token_t) (l : parser_locals)
    (s s1 : Shell) (step : parser_step)
    (h : parser_parseUntil_token os fuel tok l s = .ok step s1)
    (hinv : pipe_invariant l.cmds) : step_inv pipe_invariant step := by
  unfold parser_parseUntil_token at h
  split at h
  all_goals (try dsimp only at h)
  all_goals (repeat' (split at h))
  all_goals (try (simp only [Res.ok.injEq] at h; obtain ⟨h1, _⟩ := h; subst h1))
  all_goals (try simp only [step_inv])
  all_goals (try trivial)
  all_goals (first
    | exact hinv
    | exact parser_finalizeRedir_inv os l s hinv
    | exact pipe_invariant_push_argument l hinv
    | exact pipe_invariant_flush_argument l hinv
    | exact pipe_invariant_COMMAND_NEW _ (pipe_invariant_flush_argument l hinv)
    | skip)
  all_goals (try (rw [Res.bind_eq_ok] at h; obtain ⟨a, s2, ha, h⟩ := h))
  all_goals (try (simp only [Res.ok.injEq] at h; obtain ⟨h1, _⟩ := h; subst h1; simp only [step_inv]))
  all_goals (first
    | exact hinv
    | (rw [buffer_copy_cmds _ _ _ (by assumption)]; exact hinv)
    | (rw [parser_tilde_cmds]; exact hinv)
    | exact pipe_invariant_assignment _ _ _ _ _ _ _ ha hinv
    | (rw [parser_dollar_cmds _ _ _ _ _ _ _ ha]; exact hinv)
    | exact pipe_invariant_newCommand _ l hinv (fun h0 => absurd h0 (by decide)) (by decide))

/-- The list without its trailing empty commands keeps the invariant. -/
theorem pipe_invariant_strip_empty (cmds : List command_t) (h : pipe_invariant cmds) :
    pipe_invariant (strip_empty cmds) := by
  obtain ⟨t, ht⟩ := List.rdropWhile_prefix (fun c : command_t => c.argc == 0) cmds
  unfold strip_empty
  apply pipe_invariant_left _ t
  rw [ht]
  exact h

/-- The loop of `parser_parseUntil` keeps the invariant. -/
theorem parser_parseUntil_loop_inv (os : OS) (stop1 stop2 : Option (List Int)) :
    ∀ (fuel : Nat) (l : parser_locals) (s s1 : Shell) (r : List command_t × Int),
      parser_parseUntil_loop os stop1 stop2 fuel l s = .ok r s1 →
      pipe_invariant l.cmds → pipe_invariant r.1 := by
  intro fuel
  induction fuel with
  | zero =>
    intro l s s1 r h _
    simp [parser_parseUntil_loop] at h
  | succ fuel ih =>
    intro l s s1 r h hinv
    rw [parser_parseUntil_loop, Res.bind_eq_ok] at h
    obtain ⟨new, s2, _, h⟩ := h
    cases new with
    | none =>
      simp only [Res.ok.injEq] at h
      rw [← h.1]
      exact pipe_invariant_strip_empty _ hinv
    | some tok =>
      dsimp only at h
      split at h
      · simp only [Res.ok.injEq] at h
        rw [← h.1]
        exact pipe_invariant_strip_empty _ hinv
      · split at h
        · simp only [Res.ok.injEq] at h
          rw [← h.1]
          exact pipe_invariant_strip_empty _ hinv
        · rw [Res.bind_eq_ok] at h
          obtain ⟨step, s3, hstep, h⟩ := h
          have hs := parser_parseUntil_token_inv os fuel tok _ s2 s3 step hstep hinv
          cases step with
          | next l1 => exact ih l1 s3 s1 r h hs
          | finish c =>
            simp only [Res.ok.injEq] at h
            rw [← h.1]
            exact pipe_invariant_strip_empty _ hs
          | cleanup =>
            simp only [Res.ok.injEq] at h
            rw [← h.1]
            exact pipe_invariant_strip_empty _ hinv

/-- The list of one fresh command has the invariant. -/
theorem pipe_invariant_init : pipe_invariant [COMMAND_INIT] := by
  intro i hi hf
  simp only [List.length_singleton, Nat.lt_one_iff] at hi
  subst hi
  exact absurd hf (by decide)

/-- C6: every command list that `parser_interpret` hands to the executor has the
pipe invariant: a command carrying PIPE_FROM_PREV is never at index 0 and the
command just before it has argc > 0. This holds for the list the token loop
brings to the label `_execute`, whatever the state (so whatever the line and
the lines before it), and for every list that `parser_parseUntil` returns to
`parser_if` and `parser_while`, which execute them on behalf of the line. -/
theorem parser_interpret_pipe_invariant (os : OS) (fuel : Nat) (s s1 : Shell) :
    (∀ cmds, parser_interpret_loop os fuel
        { tok := none, cmds := [COMMAND_INIT], buf := [], bufsz := 512 } s = .ok (some cmds) s1 →
      pipe_invariant cmds) ∧
    (∀ stop1 stop2 r, parser_parseUntil os stop1 stop2 fuel s = .ok r s1 →
      pipe_invariant r.1) := by
  constructor
  · intro cmds h
    exact parser_interpret_loop_inv os fuel _ s s1 cmds h pipe_invariant_init
  · intro stop1 stop2 r h
    exact parser_parseUntil_loop_inv os stop1 stop2 fuel _ _ s1 r h pipe_invariant_init

/-- Witness for C6: the line `a | b` brings to `_execute` the command `a` and
the command `b` carrying PIPE_FROM_PREV, a list with the invariant. -/
theorem parser_interpret_pipe_invariant_witness :
    ∃ s1, parser_interpret_loop os_plain 20
        { tok := none, cmds := [COMMAND_INIT], buf := [], bufsz := 512 }
        (input_loadBuffer (cstr "a | b") (shell_start 1 [])) =
      .ok (some [COMMAND_PUSH_ARGV COMMAND_INIT (cstr "a"),
                 { COMMAND_PUSH_ARGV COMMAND_INIT (cstr "b") with
                     exec_flags := COMMAND_FLAG_PIPE_FROM_PREV }]) s1 ∧
      pipe_invariant [COMMAND_PUSH_ARGV COMMAND_INIT (cstr "a"),
                 { COMMAND_PUSH_ARGV COMMAND_INIT (cstr "b") with
                     exec_flags := COMMAND_FLAG_PIPE_FROM_PREV }] :=
  ⟨_, by rfl,
    (parser_interpret_pipe_invariant os_plain 20
      (input_loadBuffer (cstr "a | b") (shell_start 1 [])) _).1 _ (by rfl)⟩

/-- The count that the loop of `parser_parseUntil` reports is the length of the
list it returns, negated only when there is a second stop word. -/
theorem parser_parseUntil_loop_count (os : OS) (stop1 stop2 : Option (List Int)) :
    ∀ (fuel : Nat) (l : parser_locals) (s s1 : Shell) (r : List command_t × Int),
      parser_parseUntil_loop os stop1 stop2 fuel l s = .ok r s1 →
      r.2 = r.1.length ∨ (stop2 ≠ none ∧ r.2 = - (r.1.length : Int)) := by
  intro fuel
  induction fuel with
  | zero =>
    intro l s s1 r h
    simp [parser_parseUntil_loop] at h
  | succ fuel ih =>
    intro l s s1 r h
    rw [parser_parseUntil_loop, Res.bind_eq_ok] at h
    obtain ⟨new, s2, _, h⟩ := h
    cases new with
    | none =>
      simp only [Res.ok.injEq] at h
      rw [← h.1]
      exact Or.inl rfl
    | some tok =>
      dsimp only at h
      split at h
      · simp only [Res.ok.injEq] at h
        rw [← h.1]
        exact Or.inl rfl
      · split at h
        · rename_i hstop
          simp only [Res.ok.injEq] at h
          rw [← h.1]
          refine Or.inr ⟨?_, rfl⟩
          rw [hstop.2]
          simp
        · rw [Res.bind_eq_ok] at h
          obtain ⟨step, s3, _, h⟩ := h
          cases step with
          | next l1 => exact ih l1 s3 s1 r h
          | finish c =>
            simp only [Res.ok.injEq] at h
            rw [← h.1]
            exact Or.inl rfl
          | cleanup =>
            simp only [Res.ok.injEq] at h
            rw [← h.1]
            exact Or.inl rfl

/-- Executing an empty list does nothing. -/
theorem command_executeList_nil (os : OS) (s : Shell) :
    command_executeList os [] 0 s = .ok () s := by
  simp [command_executeList, command_executeList_loop]

/-- C7: let `cond` and `thn` be the lists `parser_if` gets from its first two
calls of `parser_parseUntil`, the then-list `thn` not empty. When the count of
the then-list is negative (the list was closed by `fi`, there is no else-part),
`parser_if` executes the condition list once and then the then-list when
`cmd_last_exit_status` is 0, and nothing otherwise. When the count is not
negative `parser_if` parses the else-list `els` and executes the condition list
once and then exactly one of the two branches: the then-list when
`cmd_last_exit_status` after the condition is 0, the else-list otherwise. -/
theorem parser_if_spec (os : OS) (fuel : Nat) (s s1 s2 : Shell)
    (cond thn : List command_t × Int)
    (hc : parser_parseUntil os (some (cstr "then")) none fuel s = .ok cond s1)
    (ht : parser_parseUntil os (some (cstr "else")) (some (cstr "fi")) fuel s1 = .ok thn s2)
    (hne : thn.1 ≠ []) :
    (thn.2 < 0 → parser_if os fuel s = spec_if os cond.1 thn.1 none s2) ∧
    (0 ≤ thn.2 → ∀ els s3, parser_parseUntil os (some (cstr "fi")) none fuel s2 = .ok els s3 →
      parser_if os fuel s = spec_if os cond.1 thn.1 (some els.1) s3) := by
  have hcc : cond.2 = cond.1.length := by
    rcases parser_parseUntil_loop_count os _ _ fuel _ _ s1 cond hc with h | h
    · exact h
    · exact absurd rfl h.1
  have htc := parser_parseUntil_loop_count os _ _ fuel _ _ s2 thn ht
  have hlen : 0 < thn.1.length := List.length_pos.mpr hne
  constructor
  · intro hneg
    have hcount : thn.2 = - (thn.1.length : Int) := by
      rcases htc with h | h
      · omega
      · exact h.2
    unfold parser_if spec_if
    rw [hc, Res.bind_ok, ht, Res.bind_ok]
    simp only [hneg, decide_True, not_true_eq_false, if_false, if_true, parser_if_execute, hcc,
      Int.toNat_ofNat]
    congr 1
    funext _ s4
    split
    · rw [if_pos (by omega), hcount]
      simp
    · rfl
  · intro hpos els s3 he
    have hcount : thn.2 = (thn.1.length : Int) := by
      rcases htc with h | h
      · exact h
      · omega
    have hec : els.2 = els.1.length := by
      rcases parser_parseUntil_loop_count os _ _ fuel _ _ s3 els he with h | h
      · exact h
      · exact absurd rfl h.1
    have hnn : ¬ thn.2 < 0 := by omega
    unfold parser_if spec_if
    rw [hc, Res.bind_ok, ht, Res.bind_ok]
    simp only [hnn, decide_False, Bool.false_eq_true, not_false_eq_true, if_true, if_false, he,
      Res.bind_ok, parser_if_execute, hcc, Int.toNat_ofNat]
    congr 1
    funext _ s4
    split
    · rw [if_pos (by omega), hcount]
      simp
    · split
      · rw [hec]
        simp
      · rename_i h0
        have hnil : els.1 = [] := by
          rw [hec] at h0
          apply List.eq_nil_of_length_eq_zero
          omega
        rw [hnil]
        exact (command_executeList_nil os s4).symm

/-- Witness for C7: after the word `if` of the line
`if true; then echo yes; else echo no; fi` the three lists are `true`,
`echo yes` and `echo no`, the count of the then-list is 1, and `parser_if` is
the execution of `true` followed by one of the two branches. -/
theorem parser_if_spec_witness :
    ∃ s3, parser_if os_plain 40
        (input_loadBuffer (cstr " true; then echo yes; else echo no; fi") (shell_start 1 [])) =
      spec_if os_plain [COMMAND_PUSH_ARGV COMMAND_INIT (cstr "true")]
        [COMMAND_PUSH_ARGV (COMMAND_PUSH_ARGV COMMAND_INIT (cstr "echo")) (cstr "yes")]
        (some [COMMAND_PUSH_ARGV (COMMAND_PUSH_ARGV COMMAND_INIT (cstr "echo")) (cstr "no")])
        s3 :=
  ⟨_, (parser_if_spec os_plain 40
      (input_loadBuffer (cstr " true; then echo yes; else echo no; fi") (shell_start 1 []))
      _ _
      ([COMMAND_PUSH_ARGV COMMAND_INIT (cstr "true")], 1)
      ([COMMAND_PUSH_ARGV (COMMAND_PUSH_ARGV COMMAND_INIT (cstr "echo")) (cstr "yes")], 1)
      (by rfl) (by rfl) (by decide)).2 (by decide)
      ([COMMAND_PUSH_ARGV (COMMAND_PUSH_ARGV COMMAND_INIT (cstr "echo")) (cstr "no")], 1) _
      (by rfl)⟩

/-- The loop of `parser_while` after `n` rounds that all go on: it is in the
state `while_rounds` gives, and it stops at the next execution of the condition
list that fails or is signalled, or at the next execution of the body that is
signalled. -/
theorem parser_while_loop_spec (os : OS) (cond body : List command_t) :
    ∀ (n : Nat) (s : Shell), while_continues os cond body n s = true →
      ∃ sn, while_rounds os cond body n s = .ok () sn ∧
        ∀ c, command_executeList os cond cond.length sn = .ok () c →
          ((c.cmd_last_exit_status ≠ 0 ∨ c.cmd_last_signalled = true) →
            ∀ fuel, n < fuel →
              parser_while_loop os cond cond.length body body.length fuel s = .ok () c) ∧
          (c.cmd_last_exit_status = 0 → c.cmd_last_signalled = false →
            ∀ b, command_executeList os body body.length c = .ok () b →
              b.cmd_last_signalled = true →
              ∀ fuel, n < fuel →
                parser_while_loop os cond cond.length body body.length fuel s = .ok () b) := by
  intro n
  induction n with
  | zero =>
    intro s _
    refine ⟨s, rfl, ?_⟩
    intro c hc
    constructor
    · intro hstop fuel hf
      obtain ⟨fuel, rfl⟩ : ∃ k, fuel = k + 1 := ⟨fuel - 1, by omega⟩
      rw [parser_while_loop]
      simp only [Int.toNat_ofNat, hc, Res.bind_ok]
      by_cases hsig : c.cmd_last_signalled = true
      · rw [if_pos hsig]
      · rw [if_neg hsig]
        rcases hstop with h | h
        · rw [if_neg h]
        · exact absurd h hsig
    · intro h0 hsig b hb hbs fuel hf
      obtain ⟨fuel, rfl⟩ : ∃ k, fuel = k + 1 := ⟨fuel - 1, by omega⟩
      rw [parser_while_loop]
      simp only [Int.toNat_ofNat, hc, Res.bind_ok, hsig, Bool.false_eq_true, if_false, h0,
        if_true, hb, hbs]
  | succ n ih =>
    intro s h
    rw [while_continues] at h
    cases hc0 : command_executeList os cond cond.length s with
    | ok u c0 =>
      rw [hc0] at h
      simp only [Bool.and_eq_true, beq_iff_eq, Bool.not_eq_true'] at h
      obtain ⟨⟨h0, hsig0⟩, h⟩ := h
      cases hb0 : command_executeList os body body.length c0 with
      | ok u2 b0 =>
        rw [hb0] at h
        simp only [Bool.and_eq_true, Bool.not_eq_true'] at h
        obtain ⟨hbs0, hrest⟩ := h
        obtain ⟨sn, hsn, hprop⟩ := ih b0 hrest
        refine ⟨sn, ?_, ?_⟩
        · rw [while_rounds, hc0, Res.bind_ok, hb0, Res.bind_ok]
          exact hsn
        · intro c hc
          have hloop : ∀ fuel, parser_while_loop os cond cond.length body body.length (fuel + 1) s =
              parser_while_loop os cond cond.length body body.length fuel b0 := by
            intro fuel
            rw [parser_while_loop]
            simp only [Int.toNat_ofNat, hc0, Res.bind_ok, hsig0, Bool.false_eq_true, if_false, h0,
              if_true, hb0, hbs0]
          constructor
          · intro hstop fuel hf
            obtain ⟨fuel, rfl⟩ : ∃ k, fuel = k + 1 := ⟨fuel - 1, by omega⟩
            rw [hloop]
            exact (hprop c hc).1 hstop fuel (by omega)
          · intro hz hs b hb hbs fuel hf
            obtain ⟨fuel, rfl⟩ : ∃ k, fuel = k + 1 := ⟨fuel - 1, by omega⟩
            rw [hloop]
            exact (hprop c hc).2 hz hs b hb hbs fuel (by omega)
      | halt a b => rw [hb0] at h; simp at h
      | fault a => rw [hb0] at h; simp at h
      | timeout => rw [hb0] at h; simp at h
    | halt a b => rw [hc0] at h; simp at h
    | fault a => rw [hc0] at h; simp at h
    | timeout => rw [hc0] at h; simp at h

/-- C8: let `cond` and `body` be the lists `parser_while` gets from
`parser_parseUntil`. The loop alternates executions of the condition list and
of the body. If the first `n` rounds all go on (each condition leaves
`cmd_last_exit_status` 0 and `cmd_last_signalled` clear, each body leaves
`cmd_last_signalled` clear) and `sn` is the state after them, then
`parser_while` returns, with any budget above `n`: in the state `c` left by the
next execution of the condition list when that one leaves a non-zero
`cmd_last_exit_status` or `cmd_last_signalled` set, so that the body has run
exactly `n` times; and in the state `b` left by the next execution of the body
when that one leaves `cmd_last_signalled` set. -/
theorem parser_while_spec (os : OS) (fuel : Nat) (s s1 s2 : Shell)
    (cond body : List command_t × Int)
    (hc : parser_parseUntil os (some (cstr "do")) none fuel s = .ok cond s1)
    (hb : parser_parseUntil os (some (cstr "done")) none fuel s1 = .ok body s2)
    (n : Nat) (hcont : while_continues os cond.1 body.1 n s2 = true) (hf : n < fuel)
    (sn c : Shell) (hr : while_rounds os cond.1 body.1 n s2 = .ok () sn)
    (hcn : command_executeList os cond.1 cond.1.length sn = .ok () c) :
    ((c.cmd_last_exit_status ≠ 0 ∨ c.cmd_last_signalled = true) →
      parser_while os fuel s = .ok () c) ∧
    (c.cmd_last_exit_status = 0 → c.cmd_last_signalled = false →
      ∀ b, command_executeList os body.1 body.1.length c = .ok () b →
        b.cmd_last_signalled = true → parser_while os fuel s = .ok () b) := by
  have hcc : cond.2 = cond.1.length := by
    rcases parser_parseUntil_loop_count os _ _ fuel _ _ s1 cond hc with h | h
    · exact h
    · exact absurd rfl h.1
  have hbc : body.2 = body.1.length := by
    rcases parser_parseUntil_loop_count os _ _ fuel _ _ s2 body hb with h | h
    · exact h
    · exact absurd rfl h.1
  have hw : parser_while os fuel s =
      parser_while_loop os cond.1 cond.1.length body.1 body.1.length fuel s2 := by
    unfold parser_while
    rw [hc, Res.bind_ok, hb, Res.bind_ok, hcc, hbc]
  obtain ⟨sn2, hsn2, hprop⟩ := parser_while_loop_spec os cond.1 body.1 n s2 hcont
  rw [hr] at hsn2
  simp only [Res.ok.injEq, true_and] at hsn2
  subst hsn2
  rw [hw]
  constructor
  · intro hstop
    exact (hprop c hcn).1 hstop fuel hf
  · intro hz hs b hb2 hbs
    exact (hprop c hcn).2 hz hs b hb2 hbs fuel hf

/-- Witness for C8: the loop `while test; do work; done` in a system where
`test` succeeds until four commands have run and fails from then on. The first
two rounds go on, the third execution of `test` leaves status 1, and
`parser_while` returns there: five commands have run, `work` twice. -/
theorem parser_while_spec_witness :
    ∃ c, parser_while
        { os_plain with waitpid := fun s c =>
            if c.argv.getD 0 [] = cstr "test" ∧ 4 ≤ s.log.length then some 256 else some 0 }
        40 (input_loadBuffer (cstr " test; do work; done") (shell_start 1 [])) = .ok () c ∧
      c.cmd_last_exit_status = 1 ∧ c.log.length = 5 :=
  ⟨_, (parser_while_spec
      { os_plain with waitpid := fun s c =>
          if c.argv.getD 0 [] = cstr "test" ∧ 4 ≤ s.log.length then some 256 else some 0 }
      40 (input_loadBuffer (cstr " test; do work; done") (shell_start 1 [])) _ _
      ([COMMAND_PUSH_ARGV COMMAND_INIT (cstr "test")], 1)
      ([COMMAND_PUSH_ARGV COMMAND_INIT (cstr "work")], 1)
      (by rfl) (by rfl) 2 (by decide) (by decide) _ _ (by rfl) (by rfl)).1 (Or.inl (by decide)),
    by decide, by decide⟩

/-! ## Properties of whole lines -/

/-- C11 (counterexample): on the line `false && echo x; true || echo y; echo z`,
where `false` exits 1 and every other program exits 0, `echo y` is not among
the commands run: `true` left the status 0 and `echo y` carries the OR flag. -/
theorem and_or_line_skips_echo_y :
    ∃ s1, parser_interpret os_plain 200
        (input_loadBuffer (cstr "false && echo x; true || echo y; echo z") (shell_start 1 [])) =
        .ok () s1 ∧
      [cstr "echo", cstr "y"] ∉ executed s1.log :=
  ⟨_, by rfl, by decide⟩

/-- C11 (amended): for the line `false && echo x; true || echo y; echo z`, where
a child running `false` exits 1 and every other child exits 0, the token loop
passes five commands to `command_executeList`, and `parser_interpret` returns
after running `false`, `true` and `echo z`, in this order, and nothing else,
neither `echo x` nor `echo y`; it leaves `cmd_last_exit_status` at 0. -/
theorem and_or_line_executes :
    (∃ s0, parser_interpret_loop os_plain 200
        { tok := none, cmds := [COMMAND_INIT], buf := [], bufsz := 512 }
        (input_loadBuffer (cstr "false && echo x; true || echo y; echo z") (shell_start 1 [])) =
        .ok (some [COMMAND_PUSH_ARGV COMMAND_INIT (cstr "false"),
                   { COMMAND_PUSH_ARGV (COMMAND_PUSH_ARGV COMMAND_INIT (cstr "echo")) (cstr "x")
                       with exec_flags := COMMAND_FLAG_AND },
                   COMMAND_PUSH_ARGV COMMAND_INIT (cstr "true"),
                   { COMMAND_PUSH_ARGV (COMMAND_PUSH_ARGV COMMAND_INIT (cstr "echo")) (cstr "y")
                       with exec_flags := COMMAND_FLAG_OR },
                   COMMAND_PUSH_ARGV (COMMAND_PUSH_ARGV COMMAND_INIT (cstr "echo")) (cstr "z")])
          s0) ∧
    ∃ s1, parser_interpret os_plain 200
        (input_loadBuffer (cstr "false && echo x; true || echo y; echo z") (shell_start 1 [])) =
        .ok () s1 ∧
      executed s1.log = [[cstr "false"], [cstr "true"], [cstr "echo", cstr "z"]] ∧
      s1.cmd_last_exit_status = 0 :=
  ⟨⟨_, by rfl⟩, _, by rfl, by rfl, by rfl⟩

/-- C19 (the code at the failing input): on the line `echo hi>` the REDIRECT_OUT
case leaves the word `hi` in the buffer, and the NEWLINE case takes it as the
target: no syntax error is reported, the file `hi` is opened and `echo` is run
with its standard output there. With a space before the `>` the word is an
argument and the line is a syntax error. -/
theorem redirect_without_target_opens_word :
    (∃ s1, parser_interpret os_plain 200
        (input_loadBuffer (cstr "echo hi>") (shell_start 1 [])) = .ok () s1 ∧
      s1.log = [Event.open (cstr "hi") 3,
                Event.spawn { COMMAND_PUSH_ARGV COMMAND_INIT (cstr "echo") with stdout := 3 }
                  (some 0)]) ∧
    (∃ s1, parser_interpret os_plain 200
        (input_loadBuffer (cstr "echo hi >") (shell_start 1 [])) = .ok () s1 ∧
      s1.log = [Event.syntax_error .NEWLINE]) :=
  ⟨⟨_, by rfl, by rfl⟩, ⟨_, by rfl, by rfl⟩⟩

/-- C20 (the code at the failing input): on the line `a |&b`, after the tokens
`a` and space, the call of `lexer_getToken` that reads `|` looks ahead with a
nested call; that call reads `&`, looks ahead itself, reads `b` and leaves it
in the unget slot. The outer call then applies `lexer_ungetToken` to `&` while
the slot holds `b`, which is lost: the list the parser builds is the command
`a` and a command without arguments carrying PIPE_FROM_PREV. -/
theorem lexer_unget_overwrites_during_parse :
    (∃ sa sb sd,
      lexer_getToken 199 none (input_loadBuffer (cstr "a |&b") (shell_start 1 [])) =
        .ok (some { type := .STRING, value := cstr "a" }) sa ∧
      lexer_getToken 198 (some { type := .STRING, value := cstr "a" }) sa =
        .ok (some { type := .SPACE, value := [] }) sb ∧
      sb.lexer_unget = none ∧
      (input_getCharacter sb).1 = 124 ∧
      lexer_getToken 196 (some { type := .PIPE, value := [] }) (input_getCharacter sb).2 =
        .ok (some { type := .AMPERSAND, value := [] }) sd ∧
      sd.lexer_unget = some { type := .STRING, value := cstr "b" } ∧
      lexer_getToken 197 (some { type := .SPACE, value := [] }) sb =
        .ok (some { type := .PIPE, value := [] })
          (lexer_ungetToken { type := .AMPERSAND, value := [] } sd)) ∧
    (∃ s1, parser_interpret_loop os_plain 200
        { tok := none, cmds := [COMMAND_INIT], buf := [], bufsz := 512 }
        (input_loadBuffer (cstr "a |&b") (shell_start 1 [])) =
        .ok (some [COMMAND_PUSH_ARGV COMMAND_INIT (cstr "a"),
                   { COMMAND_INIT with exec_flags := COMMAND_FLAG_PIPE_FROM_PREV }]) s1) :=
  ⟨⟨_, _, _, by rfl, by rfl, by rfl, by rfl, by rfl, by rfl, by rfl⟩, ⟨_, by rfl⟩⟩

/-! ## Blank lines and lines that start with an operator -/

/-- Reading a character changes neither the log, nor the exit status, nor the
flags of the parser, nor the unget slot of the lexer. -/
theorem input_getCharacter_keeps (s : Shell) :
    (input_getCharacter s).2.log = s.log ∧
    (input_getCharacter s).2.cmd_last_exit_status = s.cmd_last_exit_status ∧
    (input_getCharacter s).2.parser_pending_redirect = s.parser_pending_redirect ∧
    (input_getCharacter s).2.parser_quoted = s.parser_quoted ∧
    (input_getCharacter s).2.lexer_unget = s.lexer_unget := by
  unfold input_getCharacter
  split
  · exact ⟨rfl, rfl, rfl, rfl, rfl⟩
  · split
    · exact ⟨rfl, rfl, rfl, rfl, rfl⟩
    · split <;> exact ⟨rfl, rfl, rfl, rfl, rfl⟩

/-- Reading characters changes neither the log, nor the exit status, nor the
flags of the parser, nor the unget slot of the lexer. -/
theorem input_getCharacters_keeps (n : Nat) (s : Shell) :
    (input_getCharacters n s).2.log = s.log ∧
    (input_getCharacters n s).2.cmd_last_exit_status = s.cmd_last_exit_status ∧
    (input_getCharacters n s).2.parser_pending_redirect = s.parser_pending_redirect ∧
    (input_getCharacters n s).2.parser_quoted = s.parser_quoted ∧
    (input_getCharacters n s).2.lexer_unget = s.lexer_unget := by
  induction n generalizing s with
  | zero => exact ⟨rfl, rfl, rfl, rfl, rfl⟩
  | succ n ih =>
    have h := ih (input_getCharacter s).2
    have k := input_getCharacter_keeps s
    show (input_getCharacters n (input_getCharacter s).2).2.log = s.log ∧ _
    exact ⟨h.1.trans k.1, h.2.1.trans k.2.1, h.2.2.1.trans k.2.2.1,
      h.2.2.2.1.trans k.2.2.2.1, h.2.2.2.2.trans k.2.2.2.2⟩

/-- As many characters are delivered as are asked for. -/
theorem input_getCharacters_length (n : Nat) (s : Shell) :
    (input_getCharacters n s).1.length = n := by
  induction n generalizing s with
  | zero => rfl
  | succ n ih =>
    show ((input_getCharacter s).1 :: (input_getCharacters n (input_getCharacter s).2).1).length = _
    rw [List.length_cons, ih]

/-- Reading `n + m` characters is reading `n` and then `m`. -/
theorem input_getCharacters_add (n m : Nat) (s : Shell) :
    input_getCharacters (n + m) s =
      ((input_getCharacters n s).1 ++ (input_getCharacters m (input_getCharacters n s).2).1,
       (input_getCharacters m (input_getCharacters n s).2).2) := by
  induction n generalizing s with
  | zero => simp [input_getCharacters]
  | succ n ih =>
    have e : n + 1 + m = (n + m) + 1 := by omega
    rw [e]
    simp only [input_getCharacters]
    rw [ih]
    simp

/-- A character that is a token by itself: `lexer_getToken` returns the token of
its type and consumes this character only. -/
theorem lexer_getToken_single (fuel : Nat) (prev : Option token_t) (s : Shell) (ch : Int)
    (hu : s.lexer_unget = none) (hch : (input_getCharacter s).1 = ch) (h0 : ch ≠ 0)
    (h1 : token_characterToType ch ≠ .STRING) (h2 : token_characterToType ch ≠ .PIPE)
    (h3 : token_characterToType ch ≠ .AMPERSAND) :
    lexer_getToken (fuel + 1) prev s =
      .ok (some { type := token_characterToType ch, value := [] }) (input_getCharacter s).2 := by
  rw [lexer_getToken_char fuel prev s ch hu hch h0]
  simp [h1, h2, h3]

/-- Two characters `||`, when prev is not a PIPE, make one OR token, and two
characters `&&`, when prev is not an AMPERSAND, make one AND token. -/
theorem lexer_getToken_double (fuel : Nat) (prev : Option token_t) (s : Shell)
    (hu : s.lexer_unget = none) :
    (prev.map (fun p => p.type) ≠ some .PIPE → (input_getCharacters 2 s).1 = [124, 124] →
      lexer_getToken (fuel + 2) prev s =
        .ok (some { type := .OR, value := [] }) (input_getCharacters 2 s).2) ∧
    (prev.map (fun p => p.type) ≠ some .AMPERSAND → (input_getCharacters 2 s).1 = [38, 38] →
      lexer_getToken (fuel + 2) prev s =
        .ok (some { type := .AND, value := [] }) (input_getCharacters 2 s).2) := by
  have hp : token_characterToType 124 = .PIPE := by decide
  have ha : token_characterToType 38 = .AMPERSAND := by decide
  refine ⟨?_, ?_⟩
  · intro hprev h2
    simp only [input_getCharacters, List.cons.injEq, and_true] at h2
    obtain ⟨h1, h2⟩ := h2
    have hu1 : (input_getCharacter s).2.lexer_unget = none := by
      rw [input_getCharacter_unget, hu]
    rw [lexer_getToken_char (fuel + 1) prev s 124 hu h1 (by decide)]
    simp only [hp, hprev]
    rw [lexer_getToken_char fuel _ _ 124 hu1 h2 (by decide)]
    simp [hp, input_getCharacters]
    intro x hx
    subst hx
    simpa using hprev
  · intro hprev h2
    simp only [input_getCharacters, List.cons.injEq, and_true] at h2
    obtain ⟨h1, h2⟩ := h2
    have hu1 : (input_getCharacter s).2.lexer_unget = none := by
      rw [input_getCharacter_unget, hu]
    rw [lexer_getToken_char (fuel + 1) prev s 38 hu h1 (by decide)]
    simp only [ha, hprev]
    rw [lexer_getToken_char fuel _ _ 38 hu1 h2 (by decide)]
    simp [ha, input_getCharacters]
    intro x hx
    subst hx
    simpa using hprev

/-- A SPACE token met with an empty buffer is passed over. -/
theorem parser_interpret_token_space (os : OS) (fuel : Nat) (l : parser_locals) (s : Shell)
    (hb : l.buf = []) :
    parser_interpret_token os fuel { type := .SPACE, value := [] } l s = .ok (.next l) s := by
  simp [parser_interpret_token, hb]

/-- Leading spaces: with the buffer empty the token loop passes over `n` spaces,
and goes on with the state after them; the token in hand is then the one it
had or a SPACE. -/
theorem parser_interpret_loop_spaces (os : OS) :
    ∀ (n fuel : Nat) (l : parser_locals) (s : Shell), s.lexer_unget = none → l.buf = [] →
      n + 2 ≤ fuel → (input_getCharacters n s).1 = List.replicate n 32 →
      ∃ tok, (tok = l.tok ∨ tok = some { type := .SPACE, value := [] }) ∧
        parser_interpret_loop os fuel l s =
          parser_interpret_loop os (fuel - n) { l with tok := tok } (input_getCharacters n s).2 := by
  intro n
  induction n with
  | zero =>
    intro fuel l s _ _ _ _
    exact ⟨l.tok, Or.inl rfl, rfl⟩
  | succ n ih =>
    intro fuel l s hu hb hf hin
    obtain ⟨f, rfl⟩ : ∃ f, fuel = f + 2 := ⟨fuel - 2, by omega⟩
    simp only [input_getCharacters, List.replicate_succ, List.cons.injEq] at hin
    obtain ⟨h1, hrest⟩ := hin
    have hsp : token_characterToType 32 = .SPACE := by decide
    have hu1 : (input_getCharacter s).2.lexer_unget = none := by
      rw [input_getCharacter_unget, hu]
    obtain ⟨tok, htok, hloop⟩ := ih (f + 1)
      { l with tok := some { type := .SPACE, value := [] } } (input_getCharacter s).2 hu1 hb
      (by omega) hrest
    refine ⟨tok, Or.inr (by rcases htok with h | h <;> exact h), ?_⟩
    have e : f + 2 - (n + 1) = f + 1 - n := by omega
    rw [parser_interpret_loop,
      lexer_getToken_single f l.tok s 32 hu h1 (by decide) (by decide) (by decide) (by decide),
      hsp, e]
    simp only [Res.bind_ok]
    rw [parser_interpret_token_space os (f + 1) _ _ (by exact hb)]
    simp only [Res.bind_ok]
    exact hloop

/-- A list that holds one command without arguments and without environment
entries executes as nothing. -/
theorem command_executeList_init (os : OS) (s : Shell) :
    command_executeList os [COMMAND_INIT] 1 s = .ok () s := by
  rfl

/-- C17: when the unget slot is empty, no redirection is pending and the next
characters of the input are `n` spaces (none for the empty line) and a newline,
`parser_interpret`, given the fuel for `n + 2` rounds, returns in the state in
which these characters have been read: the log is the one before, so no
builtin was run and no process spawned, and `cmd_last_exit_status` is the one
before. -/
theorem parser_interpret_blank_line (os : OS) (n fuel : Nat) (s : Shell)
    (hu : s.lexer_unget = none) (hp : s.parser_pending_redirect = false)
    (hf : n + 2 ≤ fuel)
    (hin : (input_getCharacters (n + 1) s).1 = List.replicate n 32 ++ [10]) :
    parser_interpret os fuel s = .ok () (input_getCharacters (n + 1) s).2 ∧
    (input_getCharacters (n + 1) s).2.log = s.log ∧
    executed (input_getCharacters (n + 1) s).2.log = executed s.log ∧
    (input_getCharacters (n + 1) s).2.cmd_last_exit_status = s.cmd_last_exit_status := by
  have hk := input_getCharacters_keeps (n + 1) s
  refine ⟨?_, hk.1, by rw [hk.1], hk.2.1⟩
  rw [input_getCharacters_add n 1 s] at hin ⊢
  simp only at hin ⊢
  have hlen : (input_getCharacters n s).1.length = (List.replicate n (32 : Int)).length := by
    rw [input_getCharacters_length, List.length_replicate]
  obtain ⟨hsp, hnl⟩ := List.append_inj hin hlen
  simp only [input_getCharacters, List.cons.injEq, and_true] at hnl
  have hkn := input_getCharacters_keeps n s
  have hu1 : (input_getCharacters n s).2.lexer_unget = none := by rw [hkn.2.2.2.2, hu]
  have hp1 : (input_getCharacter (input_getCharacters n s).2).2.parser_pending_redirect = false := by
    rw [(input_getCharacter_keeps _).2.2.1, hkn.2.2.1, hp]
  obtain ⟨tok, _, hloop⟩ := parser_interpret_loop_spaces os n fuel
    { tok := none, cmds := [COMMAND_INIT], buf := [], bufsz := 512 } s hu rfl hf hsp
  obtain ⟨g, hg⟩ : ∃ g, fuel - n = g + 2 := ⟨fuel - n - 2, by omega⟩
  have hnlt : token_characterToType 10 = .NEWLINE := by decide
  unfold parser_interpret
  rw [hloop, hg, parser_interpret_loop,
    lexer_getToken_single g _ _ 10 hu1 hnl (by decide) (by decide) (by decide) (by decide), hnlt]
  simp only [Res.bind_ok]
  have htok : parser_interpret_token os (g + 1) { type := .NEWLINE, value := [] }
      { tok := some { type := .NEWLINE, value := [] }, cmds := [COMMAND_INIT], buf := [],
        bufsz := 512 } (input_getCharacter (input_getCharacters n s).2).2 =
      .ok (.finish [COMMAND_INIT]) (input_getCharacter (input_getCharacters n s).2).2 := by
    simp [parser_interpret_token, hp1, flush_argument]
  rw [htok]
  simp only [Res.bind_ok]
  exact command_executeList_init os _

/-- Witness for C17: a line of three spaces, in a shell that has just started,
with the fuel for five rounds. -/
theorem parser_interpret_blank_line_witness :
    parser_interpret os_plain 5 (input_loadBuffer (cstr "   ") (shell_start 1 [])) =
      .ok () (input_getCharacters (3 + 1) (input_loadBuffer (cstr "   ") (shell_start 1 []))).2 ∧
    (input_getCharacters (3 + 1) (input_loadBuffer (cstr "   ") (shell_start 1 []))).2.log =
      (input_loadBuffer (cstr "   ") (shell_start 1 [])).log ∧
    executed (input_getCharacters (3 + 1)
        (input_loadBuffer (cstr "   ") (shell_start 1 []))).2.log =
      executed (input_loadBuffer (cstr "   ") (shell_start 1 [])).log ∧
    (input_getCharacters (3 + 1)
        (input_loadBuffer (cstr "   ") (shell_start 1 []))).2.cmd_last_exit_status =
      (input_loadBuffer (cstr "   ") (shell_start 1 [])).cmd_last_exit_status :=
  parser_interpret_blank_line os_plain 3 5 (input_loadBuffer (cstr "   ") (shell_start 1 []))
    rfl rfl (by decide) (by decide)

/-- The most recent entry is the last one stored. -/
theorem history_get_zero (s : Shell) (es : List (List Int)) (h : s.history_buffer = some es) :
    history_get 0 s = es.getLast? := by
  unfold history_get
  rw [h]
  cases es with
  | nil => rfl
  | cons a t =>
    simp only [List.length_cons, ge_iff_le, Nat.le_zero_eq, Nat.add_one_ne_zero, if_false,
      Nat.sub_zero, Nat.add_sub_cancel]
    rw [List.getLast?_eq_getElem?, List.get?_eq_getElem?]
    simp

/-- What `history_append` does to a loaded history: nothing when the text equals
the most recent entry, and else the text is stored after the entries. -/
theorem history_append_buffer (s : Shell) (es : List (List Int)) (str : List Int)
    (h : s.history_buffer = some es) :
    (es.getLast? = some (history_entry str) → history_append str s = s) ∧
    (es.getLast? ≠ some (history_entry str) →
      (history_append str s).history_buffer = some (es ++ [history_entry str])) := by
  unfold history_append
  rw [h]
  constructor
  · intro hl
    have hne : es.length ≠ 0 := by
      intro h0
      rw [List.length_eq_zero.mp h0] at hl
      cases hl
    simp [hne, hl]
  · intro hl
    simp [hl]

/-- A call of `history_append` keeps a loaded history loaded and free of adjacent
equal entries. -/
theorem history_append_chain (s : Shell) (es : List (List Int)) (str : List Int)
    (h : s.history_buffer = some es) (hc : es.Chain' (· ≠ ·)) :
    ∃ es1, (history_append str s).history_buffer = some es1 ∧ es1.Chain' (· ≠ ·) := by
  by_cases hl : es.getLast? = some (history_entry str)
  · rw [(history_append_buffer s es str h).1 hl]
    exact ⟨es, h, hc⟩
  · refine ⟨_, (history_append_buffer s es str h).2 hl, ?_⟩
    rw [List.chain'_append]
    refine ⟨hc, List.chain'_singleton _, ?_⟩
    intro x hx y hy
    simp only [List.head?_cons, Option.mem_def, Option.some.injEq] at hy
    rw [Option.mem_def] at hx
    intro hxy
    apply hl
    rw [hx, hxy, hy]

/-- Calls of `history_append` keep a loaded history loaded and free of adjacent
equal entries. -/
theorem history_appends_chain (lines : List (List Int)) :
    ∀ (s : Shell) (es : List (List Int)), s.history_buffer = some es → es.Chain' (· ≠ ·) →
      ∃ es1, (history_appends lines s).history_buffer = some es1 ∧ es1.Chain' (· ≠ ·) := by
  induction lines with
  | nil =>
    intro s es h hc
    exact ⟨es, h, hc⟩
  | cons a t ih =>
    intro s es h hc
    obtain ⟨es1, h1, hc1⟩ := history_append_chain s es a h hc
    exact ih (history_append a s) es1 h1 hc1

/-- The text stored for a line: what stands before its newline. -/
theorem history_entry_line (t rest : List Int) (ht : ∀ c ∈ t, c ≠ 0 ∧ c ≠ 10) :
    history_entry (t ++ 10 :: rest) = t := by
  unfold history_entry
  rw [List.takeWhile_append_of_pos]
  · simp
  · intro c hc
    have := ht c hc
    simp [this.1, this.2]

/-- C16: in the history reached from `history_load` by any sequence of calls of
`history_append`, no two adjacent entries are equal. A further call with a line
whose text (the line up to its newline) equals the most recent entry leaves the
state unchanged; a call with any other line makes its text the entry that
`history_get(0)` returns, and what `history_get(i)` returned before is what
`history_get(i + 1)` returns after. The text of a line of characters other
than NUL and newline, followed by a newline, is the line without the newline. -/
theorem history_append_no_adjacent_duplicates (s0 : Shell) (lines : List (List Int))
    (str : List Int) :
    (∃ es, (history_appends lines (history_load s0)).history_buffer = some es ∧
      es.Chain' (· ≠ ·)) ∧
    (history_get 0 (history_appends lines (history_load s0)) = some (history_entry str) →
      history_append str (history_appends lines (history_load s0)) =
        history_appends lines (history_load s0)) ∧
    (history_get 0 (history_appends lines (history_load s0)) ≠ some (history_entry str) →
      history_get 0 (history_append str (history_appends lines (history_load s0))) =
        some (history_entry str) ∧
      ∀ i, history_get (i + 1) (history_append str (history_appends lines (history_load s0))) =
        history_get i (history_appends lines (history_load s0))) ∧
    (∀ t rest, (∀ c ∈ t, c ≠ 0 ∧ c ≠ 10) → history_entry (t ++ 10 :: rest) = t) := by
  obtain ⟨es, hes, hc⟩ := history_appends_chain lines (history_load s0) [] rfl List.chain'_nil
  refine ⟨⟨es, hes, hc⟩, ?_, ?_, history_entry_line⟩
  · intro h
    rw [history_get_zero _ es hes] at h
    exact (history_append_buffer _ es str hes).1 h
  · intro h
    rw [history_get_zero _ es hes] at h
    have hb := (history_append_buffer _ es str hes).2 h
    constructor
    · rw [history_get_zero _ _ hb]
      simp
    · intro i
      unfold history_get
      rw [hb, hes]
      simp only [List.length_append, List.length_singleton, ge_iff_le, Nat.add_le_add_iff_right]
      by_cases hi : es.length ≤ i
      · simp [hi]
      · simp only [hi, if_false]
        have e : es.length + 1 - (i + 1) - 1 = es.length - i - 1 := by omega
        rw [e, List.get?_eq_getElem?, List.get?_eq_getElem?, List.getElem?_append_left]
        omega

/-- Witness for C16: after the lines `ls`, `ls` and `pwd` the history holds `ls`
and `pwd`; the line `pwd` leaves it unchanged, and the line `ls` becomes the
most recent entry. -/
theorem history_append_no_adjacent_duplicates_witness :
    history_get 0 (history_appends [cstr "ls\n", cstr "ls\n", cstr "pwd\n"]
        (history_load (shell_start 1 []))) = some (history_entry (cstr "pwd\n")) ∧
    history_append (cstr "pwd\n") (history_appends [cstr "ls\n", cstr "ls\n", cstr "pwd\n"]
        (history_load (shell_start 1 []))) =
      history_appends [cstr "ls\n", cstr "ls\n", cstr "pwd\n"]
        (history_load (shell_start 1 [])) :=
  ⟨by decide,
   (history_append_no_adjacent_duplicates (shell_start 1 [])
      [cstr "ls\n", cstr "ls\n", cstr "pwd\n"] (cstr "pwd\n")).2.1 (by decide)⟩

/-! ## Properties of the line editor -/

/-- What `history_get` returns depends on the history buffer only. -/
theorem history_get_congr (i : Nat) (s t : Shell) (h : t.history_buffer = s.history_buffer) :
    history_get i t = history_get i s := by
  unfold history_get
  rw [h]

/-- C21 (the code at the failing input): in the double-quoted word of the line
`echo "a<b&c*d?e(f)g"` the tokens `<`, `&`, `*`, `?`, `(` and `)` reach the
default case of the switch, which prints the diagnostic for an unrecognized
token and pushes nothing: the argument built is `abcdefg`. The punctuators that
have a case of their own are kept: `echo "a>b|c||d&&e;f#g=h~i"` gives the
argument `a>b|c||d&&e;f#g=h~i`. -/
theorem quoted_punctuators_dropped :
    (∃ s1, parser_interpret_loop os_plain 200
        { tok := none, cmds := [COMMAND_INIT], buf := [], bufsz := 512 }
        (input_loadBuffer (cstr "echo " ++ [34] ++ cstr "a<b&c*d?e(f)g" ++ [34])
          (shell_start 1 [])) =
        .ok (some [COMMAND_PUSH_ARGV (COMMAND_PUSH_ARGV COMMAND_INIT (cstr "echo"))
                     (cstr "abcdefg")]) s1 ∧
      s1.log = [Event.unrecognized .REDIRECT_IN, Event.unrecognized .AMPERSAND,
                Event.unrecognized .STAR, Event.unrecognized .QUESTION_MARK,
                Event.unrecognized .OPEN_PAREN, Event.unrecognized .CLOSE_PAREN]) ∧
    (∃ s1, parser_interpret_loop os_plain 200
        { tok := none, cmds := [COMMAND_INIT], buf := [], bufsz := 512 }
        (input_loadBuffer (cstr "echo " ++ [34] ++ cstr "a>b|c||d&&e;f#g=h~i" ++ [34])
          (shell_start 1 [])) =
        .ok (some [COMMAND_PUSH_ARGV (COMMAND_PUSH_ARGV COMMAND_INIT (cstr "echo"))
                     (cstr "a>b|c||d&&e;f#g=h~i")]) s1 ∧
      s1.log = []) :=
  ⟨⟨_, by rfl, by rfl⟩, ⟨_, by rfl, by rfl⟩⟩

/-- C22 (the code at the failing input): in the line `echo 'a"b'` the double
quote inside the single quotes is not pushed and flips `parser_quoted`: the
argument built is `ab`, and after the closing single quote `parser_quoted` is
true. A `$` and a `~` inside single quotes are kept: `echo 'a$b~c'` gives the
argument `a$b~c` and leaves both flags false. -/
theorem single_quoted_double_quote_toggles :
    (∃ s1, parser_interpret_loop os_plain 200
        { tok := none, cmds := [COMMAND_INIT], buf := [], bufsz := 512 }
        (input_loadBuffer (cstr "echo " ++ [39] ++ cstr "a" ++ [34] ++ cstr "b" ++ [39])
          (shell_start 1 [])) =
        .ok (some [COMMAND_PUSH_ARGV (COMMAND_PUSH_ARGV COMMAND_INIT (cstr "echo"))
                     (cstr "ab")]) s1 ∧
      s1.parser_quoted = true ∧ s1.parser_single_quoted = false) ∧
    (∃ s1, parser_interpret_loop os_plain 200
        { tok := none, cmds := [COMMAND_INIT], buf := [], bufsz := 512 }
        (input_loadBuffer (cstr "echo " ++ [39] ++ cstr "a$b~c" ++ [39]) (shell_start 1 [])) =
        .ok (some [COMMAND_PUSH_ARGV (COMMAND_PUSH_ARGV COMMAND_INIT (cstr "echo"))
                     (cstr "a$b~c")]) s1 ∧
      s1.parser_quoted = false ∧ s1.parser_single_quoted = false) :=
  ⟨⟨_, by rfl, by rfl, by rfl⟩, ⟨_, by rfl, by rfl, by rfl⟩⟩

/-- C23 (the code at the failing input): `parser_interpret` does not reset the
flags. After the line `echo "a` the flag `parser_quoted` is still set, and the
next line `echo b; echo c` is parsed as one command whose only word is the
whole line, where a shell that has just started builds the two commands
`echo b` and `echo c`. After the line `echo hi >`, a syntax error,
`parser_pending_redirect` is still set, and the next line `echo a b` opens the
file `echo` and builds the command `a b` with its standard output there. -/
theorem parser_flags_survive_line :
    (∃ s1 s2,
      parser_interpret (os_typing [cstr "echo " ++ [34] ++ cstr "a", cstr "echo b; echo c"]) 200
        (input_get (os_typing [cstr "echo " ++ [34] ++ cstr "a", cstr "echo b; echo c"])
          (history_load (shell_start 1 []))) = .ok () s1 ∧
      s1.parser_quoted = true ∧
      parser_interpret_loop
        (os_typing [cstr "echo " ++ [34] ++ cstr "a", cstr "echo b; echo c"]) 200
        { tok := none, cmds := [COMMAND_INIT], buf := [], bufsz := 512 }
        (input_get (os_typing [cstr "echo " ++ [34] ++ cstr "a", cstr "echo b; echo c"]) s1) =
        .ok (some [COMMAND_PUSH_ARGV COMMAND_INIT (cstr "echo b; echo c")]) s2) ∧
    (∃ s2,
      parser_interpret_loop (os_typing [cstr "echo b; echo c"]) 200
        { tok := none, cmds := [COMMAND_INIT], buf := [], bufsz := 512 }
        (input_get (os_typing [cstr "echo b; echo c"]) (history_load (shell_start 1 []))) =
        .ok (some [COMMAND_PUSH_ARGV (COMMAND_PUSH_ARGV COMMAND_INIT (cstr "echo")) (cstr "b"),
                   COMMAND_PUSH_ARGV (COMMAND_PUSH_ARGV COMMAND_INIT (cstr "echo")) (cstr "c")])
          s2) ∧
    (∃ s1 s2,
      parser_interpret (os_typing [cstr "echo hi >", cstr "echo a b"]) 200
        (input_get (os_typing [cstr "echo hi >", cstr "echo a b"])
          (history_load (shell_start 1 []))) = .ok () s1 ∧
      s1.parser_pending_redirect = true ∧
      parser_interpret_loop (os_typing [cstr "echo hi >", cstr "echo a b"]) 200
        { tok := none, cmds := [COMMAND_INIT], buf := [], bufsz := 512 }
        (input_get (os_typing [cstr "echo hi >", cstr "echo a b"]) s1) =
        .ok (some [{ COMMAND_PUSH_ARGV (COMMAND_PUSH_ARGV COMMAND_INIT (cstr "a")) (cstr "b")
                       with stdout := 3 }]) s2 ∧
      s2.log = s1.log ++ [Event.input_get 0, Event.open (cstr "echo") 3]) :=
  ⟨⟨_, _, by rfl, by rfl, by rfl⟩, ⟨_, by rfl⟩, ⟨_, _, by rfl, by rfl, by rfl, by rfl⟩⟩

/-- C24 (the code at the failing input): the line `|x y` is a syntax error at
the `|`, and nothing of it is executed; but the look-ahead of the lexer has
left the STRING `x` in its unget slot and the space after it in the unread
slot of the character layer, and neither is cleared. The parser of the next
line, `echo hi`, receives them first and builds the command `x echo hi`, where
a shell that has just started builds `echo hi`. -/
theorem syntax_error_leaves_token :
    (∃ s1 s2,
      parser_interpret (os_typing [cstr "|x y", cstr "echo hi"]) 200
        (input_get (os_typing [cstr "|x y", cstr "echo hi"])
          (history_load (shell_start 1 []))) = .ok () s1 ∧
      s1.log = [Event.input_get 0, Event.syntax_error .PIPE] ∧
      s1.lexer_unget = some { type := .STRING, value := cstr "x" } ∧
      s1.essence_unread_character = 32 ∧
      parser_interpret_loop (os_typing [cstr "|x y", cstr "echo hi"]) 200
        { tok := none, cmds := [COMMAND_INIT], buf := [], bufsz := 512 }
        (input_get (os_typing [cstr "|x y", cstr "echo hi"]) s1) =
        .ok (some [COMMAND_PUSH_ARGV (COMMAND_PUSH_ARGV (COMMAND_PUSH_ARGV COMMAND_INIT
                     (cstr "x")) (cstr "echo")) (cstr "hi")]) s2) ∧
    (∃ s2,
      parser_interpret_loop (os_typing [cstr "echo hi"]) 200
        { tok := none, cmds := [COMMAND_INIT], buf := [], bufsz := 512 }
        (input_get (os_typing [cstr "echo hi"]) (history_load (shell_start 1 []))) =
        .ok (some [COMMAND_PUSH_ARGV (COMMAND_PUSH_ARGV COMMAND_INIT (cstr "echo"))
                     (cstr "hi")]) s2) :=
  ⟨⟨_, _, by rfl, by rfl, by rfl, by rfl, by rfl⟩, ⟨_, by rfl⟩⟩

/-! ## The tilde, the counts of `parser_parseUntil` and trailing empty commands -/

/-- C26 (the code at the failing input): with the stop words `else` and `fi`,
`parser_parseUntil` ends on `fi` for the input ` fi` and on `else` for the input
` else`, and reports the count 0 both times: the negated count of an empty list
is not negative. So for the lines `if true; then fi`, `echo lost`, `fi` the
function `parser_if` does not see that `fi` closed the then-part: it asks for
two more lines with the prompt PS2, takes `echo lost` as the else-part up to
the second `fi`, and only `true` is run. -/
theorem parser_parseUntil_empty_count :
    (∃ s1, parser_parseUntil os_plain (some (cstr "else")) (some (cstr "fi")) 50
        (input_loadBuffer (cstr " fi") (shell_start 1 [])) = .ok ([], 0) s1) ∧
    (∃ s1, parser_parseUntil os_plain (some (cstr "else")) (some (cstr "fi")) 50
        (input_loadBuffer (cstr " else") (shell_start 1 [])) = .ok ([], 0) s1) ∧
    (∃ s1, parser_parseUntil os_plain (some (cstr "else")) (some (cstr "fi")) 50
        (input_loadBuffer (cstr " echo a; fi") (shell_start 1 [])) =
        .ok ([COMMAND_PUSH_ARGV (COMMAND_PUSH_ARGV COMMAND_INIT (cstr "echo")) (cstr "a")], -1)
          s1) ∧
    (∃ s1,
      parser_interpret (os_typing [cstr "if true; then fi", cstr "echo lost", cstr "fi"]) 200
        (input_get (os_typing [cstr "if true; then fi", cstr "echo lost", cstr "fi"])
          (history_load (shell_start 1 []))) = .ok () s1 ∧
      s1.log = [Event.input_get 0, Event.input_get 1, Event.input_get 1,
                Event.spawn (COMMAND_PUSH_ARGV COMMAND_INIT (cstr "true")) (some 0)]) :=
  ⟨⟨_, by rfl⟩, ⟨_, by rfl⟩, ⟨_, by rfl⟩, ⟨_, by rfl, by rfl⟩⟩

/-- What is left after the trailing commands without arguments are removed is
empty or ends in a command with arguments. -/
theorem strip_empty_last (cmds : List command_t) :
    strip_empty cmds = [] ∨ (CMD (strip_empty cmds)).argc ≠ 0 := by
  by_cases h : strip_empty cmds = []
  · exact Or.inl h
  · right
    have hl := List.rdropWhile_last_not (fun c : command_t => c.argc == 0) cmds h
    unfold CMD
    rw [List.getLastD_eq_getLast?, List.getLast?_eq_getLast _ h]
    simpa using hl

/-- The list that the loop of `parser_parseUntil` returns has had its trailing
commands without arguments removed. -/
theorem parser_parseUntil_loop_stripped (os : OS) (stop1 stop2 : Option (List Int)) :
    ∀ (fuel : Nat) (l : parser_locals) (s s1 : Shell) (r : List command_t × Int),
      parser_parseUntil_loop os stop1 stop2 fuel l s = .ok r s1 →
      ∃ cmds, r.1 = strip_empty cmds := by
  intro fuel
  induction fuel with
  | zero =>
    intro l s s1 r h
    simp [parser_parseUntil_loop] at h
  | succ fuel ih =>
    intro l s s1 r h
    rw [parser_parseUntil_loop, Res.bind_eq_ok] at h
    obtain ⟨new, s2, _, h⟩ := h
    cases new with
    | none =>
      simp only [Res.ok.injEq] at h
      rw [← h.1]
      exact ⟨_, rfl⟩
    | some tok =>
      dsimp only at h
      split at h
      · simp only [Res.ok.injEq] at h
        rw [← h.1]
        exact ⟨_, rfl⟩
      · split at h
        · simp only [Res.ok.injEq] at h
          rw [← h.1]
          exact ⟨_, rfl⟩
        · rw [Res.bind_eq_ok] at h
          obtain ⟨step, s3, _, h⟩ := h
          cases step with
          | next l1 => exact ih l1 s3 s1 r h
          | finish c =>
            simp only [Res.ok.injEq] at h
            rw [← h.1]
            exact ⟨_, rfl⟩
          | cleanup =>
            simp only [Res.ok.injEq] at h
            rw [← h.1]
            exact ⟨_, rfl⟩

/-- C27 (counterexample): for the line `A=1` the list that the token loop of
`parser_interpret` brings to `_execute` is one command without arguments, and
`command_executeList` receives it: the assignment reaches the environment of
the shell. For the line `echo a;` the list is `echo a` followed by an empty
command, and for an empty line it is one empty command. -/
theorem parser_interpret_passes_empty_command :
    (∃ s0 s1, parser_interpret_loop os_plain 200
        { tok := none, cmds := [COMMAND_INIT], buf := [], bufsz := 512 }
        (input_loadBuffer (cstr "A=1") (shell_start 1 [])) =
        .ok (some [{ COMMAND_INIT with envc := 1, additional_envp := [cstr "A=1"] }]) s0 ∧
      parser_interpret os_plain 200 (input_loadBuffer (cstr "A=1") (shell_start 1 [])) =
        command_executeList os_plain
          [{ COMMAND_INIT with envc := 1, additional_envp := [cstr "A=1"] }] 1 s0 ∧
      parser_interpret os_plain 200 (input_loadBuffer (cstr "A=1") (shell_start 1 [])) =
        .ok () s1 ∧
      s1.environ = [cstr "A=1"]) ∧
    (∃ s0, parser_interpret_loop os_plain 200
        { tok := none, cmds := [COMMAND_INIT], buf := [], bufsz := 512 }
        (input_loadBuffer (cstr "echo a;") (shell_start 1 [])) =
        .ok (some [COMMAND_PUSH_ARGV (COMMAND_PUSH_ARGV COMMAND_INIT (cstr "echo")) (cstr "a"),
                   COMMAND_INIT]) s0) ∧
    (∃ s0, parser_interpret_loop os_plain 200
        { tok := none, cmds := [COMMAND_INIT], buf := [], bufsz := 512 }
        (input_loadBuffer [] (shell_start 1 [])) = .ok (some [COMMAND_INIT]) s0) :=
  ⟨⟨_, _, by rfl, by rfl, by rfl, by rfl⟩, ⟨_, by rfl⟩, ⟨_, by rfl⟩⟩

/-- C27 (amended): every list that `parser_parseUntil` returns, and so every
list that `parser_if` and `parser_while` pass to `command_executeList`, has had
its suffix of commands without arguments removed: it is empty or its last
command has `argc` above 0, and the count reported is its length, possibly
negated. `parser_interpret` passes to `command_executeList` the list its token
loop built, with all its commands. -/
theorem parser_parseUntil_stripped (os : OS) (stop1 stop2 : Option (List Int)) (fuel : Nat)
    (s : Shell) :
    (∀ (s1 : Shell) (cmds : List command_t) (count : Int),
      parser_parseUntil os stop1 stop2 fuel s = .ok (cmds, count) s1 →
      (cmds = [] ∨ (CMD cmds).argc ≠ 0) ∧ count.natAbs = cmds.length) ∧
    (∀ (s0 : Shell) (cmds : List command_t),
      parser_interpret_loop os fuel
        { tok := none, cmds := [COMMAND_INIT], buf := [], bufsz := 512 } s = .ok (some cmds) s0 →
      parser_interpret os fuel s = command_executeList os cmds cmds.length s0) := by
  constructor
  · intro s1 cmds count h
    unfold parser_parseUntil at h
    obtain ⟨c, hc⟩ := parser_parseUntil_loop_stripped os stop1 stop2 fuel _ _ _ _ h
    have hcount := parser_parseUntil_loop_count os stop1 stop2 fuel _ _ _ _ h
    simp only at hc hcount
    constructor
    · rw [hc]
      exact strip_empty_last c
    · rcases hcount with h1 | ⟨_, h1⟩ <;> rw [h1] <;> simp
  · intro s0 cmds h
    unfold parser_interpret
    rw [h]
    rfl

/-- Witness for C27 (amended): the then-part ` echo a; fi`, whose list ends in
`echo a`, and the line `echo a;`, whose list `parser_interpret` passes on with
the empty command at its end. -/
theorem parser_parseUntil_stripped_witness :
    (∃ s1, parser_parseUntil os_plain (some (cstr "else")) (some (cstr "fi")) 50
        (input_loadBuffer (cstr " echo a; fi") (shell_start 1 [])) =
        .ok ([COMMAND_PUSH_ARGV (COMMAND_PUSH_ARGV COMMAND_INIT (cstr "echo")) (cstr "a")], -1)
          s1) ∧
    (([COMMAND_PUSH_ARGV (COMMAND_PUSH_ARGV COMMAND_INIT (cstr "echo")) (cstr "a")] = [] ∨
        (CMD [COMMAND_PUSH_ARGV (COMMAND_PUSH_ARGV COMMAND_INIT (cstr "echo")) (cstr "a")]).argc
          ≠ 0) ∧
      (-1 : Int).natAbs =
        [COMMAND_PUSH_ARGV (COMMAND_PUSH_ARGV COMMAND_INIT (cstr "echo")) (cstr "a")].length) :=
  ⟨⟨_, by rfl⟩,
   (parser_parseUntil_stripped os_plain (some (cstr "else")) (some (cstr "fi")) 50
      (input_loadBuffer (cstr " echo a; fi") (shell_start 1 []))).1 _ _ _ (by rfl)⟩

/-! ## The empty line in the history, and the prompt -/

/-- C28 (the code at the failing input): Enter pressed on a line without
characters, the history loaded and empty. The case of the newline stores the
newline and raises `input_buffer_len` to 1 before it tests
`if (input_buffer_len)`, so `history_append` is called; the text of the line
up to its newline is empty and is stored: the history holds one entry, the
empty string. The same happens when `input_get` returns an empty line. -/
theorem enter_on_empty_line_stores_entry :
    (∃ s1, input_key_enter (input_editor_start (history_load (shell_start 1 []))) = .ok () s1 ∧
      (history_load (shell_start 1 [])).history_buffer = some [] ∧
      s1.input_buffer_len = 1 ∧
      s1.history_buffer = some [[]] ∧
      history_get 0 s1 = some []) ∧
    (input_get os_plain (history_load (shell_start 1 []))).history_buffer = some [[]] :=
  ⟨⟨_, by rfl, by rfl, by rfl, by rfl, by rfl⟩, by rfl⟩

/-- C29 (the code at the failing input): the switch of `input_parsePS` has no
default case, so a backslash followed by a character that is not one of the
escapes pushes nothing, and both characters are lost: the prompt `a\\b` (two
backslashes) expands to `ab` and `x\qy` to `xy`, while the escape `\s` expands
to `essence`. For every character other than the fifteen escapes the switch
leaves the buffer as it was. -/
theorem input_parsePS_drops_unknown_escape :
    input_parsePS os_plain (cstr "a" ++ [92, 92] ++ cstr "b") (shell_start 1 []) =
      .ok (cstr "ab") (shell_start 1 []) ∧
    input_parsePS os_plain (cstr "x" ++ [92] ++ cstr "qy") (shell_start 1 []) =
      .ok (cstr "xy") (shell_start 1 []) ∧
    input_parsePS os_plain (cstr "x" ++ [92] ++ cstr "sy") (shell_start 1 []) =
      .ok (cstr "xessencey") (shell_start 1 []) ∧
    (∀ (os : OS) (s : Shell) (c : Int) (buf : buffer_t),
      c ∉ [100, 104, 72, 106, 115, 116, 84, 64, 117, 36, 87, 118, 86, 101, 43] →
      input_parsePS_escape os s c buf = buf) := by
  refine ⟨by rfl, by rfl, by rfl, ?_⟩
  intro os s c buf hc
  simp only [List.mem_cons, List.mem_singleton, List.not_mem_nil, or_false, not_or] at hc
  obtain ⟨h1, h2, h3, h4, h5, h6, h7, h8, h9, h10, h11, h12, h13, h14, h15⟩ := hc
  unfold input_parsePS_escape
  simp only [h1, h2, h3, h4, h5, h6, h7, h8, h9, h10, h11, h12, h13, h14, h15, or_self, if_false]

/-- C30 (the code at the failing input): for the hostname `box.example.org` the
escape `\h` expands to nothing, not to `box`: where the name has a dot the code
puts the NUL at the start of the name (`*tmp = 0`), not at the dot. The escape
`\H` gives the whole name, and for a name without a dot `\h` gives the whole
name too. -/
theorem input_parsePS_hostname_cut :
    input_parsePS { os_plain with hostname := fun _ => cstr "box.example.org" }
        (cstr "<" ++ [92] ++ cstr "h|" ++ [92] ++ cstr "H>") (shell_start 1 []) =
      .ok (cstr "<|box.example.org>") (shell_start 1 []) ∧
    input_parsePS os_plain
        (cstr "<" ++ [92] ++ cstr "h|" ++ [92] ++ cstr "H>") (shell_start 1 []) =
      .ok (cstr "<localhost|localhost>") (shell_start 1 []) ∧
    (∀ (os : OS) (s : Shell) (buf : buffer_t), 46 ∈ c_str (os.hostname s) →
      input_parsePS_escape os s 104 buf = buf) := by
  refine ⟨by rfl, by rfl, ?_⟩
  intro os s buf h
  unfold input_parsePS_escape
  rw [if_neg (by decide), if_pos (Or.inl rfl)]
  simp only [h, and_self, if_true]
  rfl

/-! ## Blocks, pipelines and quoted spaces -/

/-- C33 (the code at the failing input): the switch of `parser_parseUntil` has no
case for PIPE. For the body ` a | b; fi` the `|` reaches the default case, which
prints the diagnostic for an unrecognized token, and the list returned is the
one command `a b`; for the line `a | b` the token loop of `parser_interpret`
builds the command `a` and the command `b` carrying PIPE_FROM_PREV. -/
theorem parser_parseUntil_has_no_pipe :
    (∃ s1, parser_parseUntil os_plain (some (cstr "else")) (some (cstr "fi")) 50
        (input_loadBuffer (cstr " a | b; fi") (shell_start 1 [])) =
        .ok ([COMMAND_PUSH_ARGV (COMMAND_PUSH_ARGV COMMAND_INIT (cstr "a")) (cstr "b")], -1) s1 ∧
      s1.log = [Event.unrecognized .PIPE]) ∧
    (∃ s1, parser_interpret_loop os_plain 50
        { tok := none, cmds := [COMMAND_INIT], buf := [], bufsz := 512 }
        (input_loadBuffer (cstr "a | b") (shell_start 1 [])) =
        .ok (some [COMMAND_PUSH_ARGV COMMAND_INIT (cstr "a"),
                   { COMMAND_PUSH_ARGV COMMAND_INIT (cstr "b") with
                       exec_flags := COMMAND_FLAG_PIPE_FROM_PREV }]) s1 ∧
      s1.log = []) :=
  ⟨⟨_, by rfl, by rfl⟩, ⟨_, by rfl, by rfl⟩⟩

/-- C34 (the code at the failing input): for the list of the line
`true || a | b`, the commands `true`, `a` carrying OR and `b` carrying
PIPE_FROM_PREV, `command_executeList` skips `a`, since `true` left the status 0,
by stepping over this one command; `b`, the second stage of the pipeline that
`a` begins, is then executed by itself. Likewise for `false && a | b`. -/
theorem short_circuit_runs_rest_of_pipeline :
    (∃ s1, command_executeList os_plain
        [COMMAND_PUSH_ARGV COMMAND_INIT (cstr "true"),
         { COMMAND_PUSH_ARGV COMMAND_INIT (cstr "a") with exec_flags := COMMAND_FLAG_OR },
         { COMMAND_PUSH_ARGV COMMAND_INIT (cstr "b") with
             exec_flags := COMMAND_FLAG_PIPE_FROM_PREV }] 3 (shell_start 1 []) = .ok () s1 ∧
      executed s1.log = [[cstr "true"], [cstr "b"]]) ∧
    (∃ s1, parser_interpret os_plain 200
        (input_loadBuffer (cstr "true || a | b") (shell_start 1 [])) = .ok () s1 ∧
      executed s1.log = [[cstr "true"], [cstr "b"]]) ∧
    (∃ s1, parser_interpret os_plain 200
        (input_loadBuffer (cstr "false && a | b") (shell_start 1 [])) = .ok () s1 ∧
      executed s1.log = [[cstr "false"], [cstr "b"]]) :=
  ⟨⟨_, by rfl, by rfl⟩, ⟨_, by rfl, by rfl⟩, ⟨_, by rfl, by rfl⟩⟩

/-- C35 (the code at the failing input): for the then-part ` echo a; A=1 fi`
the loop that removes the trailing commands with `argc == 0` removes the command
that holds the assignment `A=1`, and the list returned is `echo a` alone. The
line `if true; then echo a; A=1 fi` runs `true` and `echo a` and leaves the
environment of the shell empty, as do the three lines `if true; then echo a`,
`A=1`, `fi`; the line `A=1` by itself puts `A=1` in the environment. -/
theorem parser_parseUntil_drops_assignment :
    (∃ s1, parser_parseUntil os_plain (some (cstr "else")) (some (cstr "fi")) 50
        (input_loadBuffer (cstr " echo a; A=1 fi") (shell_start 1 [])) =
        .ok ([COMMAND_PUSH_ARGV (COMMAND_PUSH_ARGV COMMAND_INIT (cstr "echo")) (cstr "a")], -1)
          s1) ∧
    (∃ s1, parser_interpret os_plain 200
        (input_loadBuffer (cstr "if true; then echo a; A=1 fi") (shell_start 1 [])) =
        .ok () s1 ∧
      executed s1.log = [[cstr "true"], [cstr "echo", cstr "a"]] ∧ s1.environ = []) ∧
    (∃ s1,
      parser_interpret (os_typing [cstr "if true; then echo a", cstr "A=1", cstr "fi"]) 200
        (input_get (os_typing [cstr "if true; then echo a", cstr "A=1", cstr "fi"])
          (history_load (shell_start 1 []))) = .ok () s1 ∧
      executed s1.log = [[cstr "true"], [cstr "echo", cstr "a"]] ∧ s1.environ = []) ∧
    (∃ s1, parser_interpret os_plain 200
        (input_loadBuffer (cstr "A=1") (shell_start 1 [])) = .ok () s1 ∧
      s1.environ = [cstr "A=1"]) :=
  ⟨⟨_, by rfl⟩, ⟨_, by rfl, by rfl, by rfl⟩, ⟨_, by rfl, by rfl, by rfl⟩, ⟨_, by rfl, by rfl⟩⟩

/-- C36 (the code at the failing input): the SPACE case tests `if (!bufidx)`
before it tests `parser_quoted`, so a space that opens a quoted region is
passed over: the line `echo " a"` builds the argument `a`. An empty region
pushes nothing and leaves `bufidx` at 0, so the line `echo ""` builds `echo`
without any argument. Spaces after the first character are kept:
`echo "a  b "` builds the argument `a  b `. -/
theorem quoted_leading_space_dropped :
    (∃ s1, parser_interpret_loop os_plain 50
        { tok := none, cmds := [COMMAND_INIT], buf := [], bufsz := 512 }
        (input_loadBuffer (cstr "echo " ++ [34] ++ cstr " a" ++ [34]) (shell_start 1 [])) =
        .ok (some [COMMAND_PUSH_ARGV (COMMAND_PUSH_ARGV COMMAND_INIT (cstr "echo")) (cstr "a")])
          s1) ∧
    (∃ s1, parser_interpret_loop os_plain 50
        { tok := none, cmds := [COMMAND_INIT], buf := [], bufsz := 512 }
        (input_loadBuffer (cstr "echo " ++ [34, 34]) (shell_start 1 [])) =
        .ok (some [COMMAND_PUSH_ARGV COMMAND_INIT (cstr "echo")]) s1) ∧
    (∃ s1, parser_interpret_loop os_plain 50
        { tok := none, cmds := [COMMAND_INIT], buf := [], bufsz := 512 }
        (input_loadBuffer (cstr "echo " ++ [34] ++ cstr "a  b " ++ [34]) (shell_start 1 [])) =
        .ok (some [COMMAND_PUSH_ARGV (COMMAND_PUSH_ARGV COMMAND_INIT (cstr "echo"))
                     (cstr "a  b ")]) s1) :=
  ⟨⟨_, by rfl⟩, ⟨_, by rfl⟩, ⟨_, by rfl⟩⟩

/-- C37 (the code at the failing input): on the line
`echo a; if true; then echo b; fi` the word `if` starts a command, so
`parser_checkToken` runs the block at once and `parser_interpret` then goes to
`_cleanup`: the command `echo a`, already in the list, is never executed. The
commands run are `true` and `echo b`. Likewise `echo a; while false; do echo b;
done` runs `false` only, where `echo a; echo b` runs both commands. -/
theorem block_drops_earlier_commands :
    (∃ s1, parser_interpret os_plain 200
        (input_loadBuffer (cstr "echo a; if true; then echo b; fi") (shell_start 1 [])) =
        .ok () s1 ∧
      executed s1.log = [[cstr "true"], [cstr "echo", cstr "b"]]) ∧
    (∃ s1, parser_interpret os_plain 200
        (input_loadBuffer (cstr "echo a; while false; do echo b; done") (shell_start 1 [])) =
        .ok () s1 ∧
      executed s1.log = [[cstr "false"]]) ∧
    (∃ s1, parser_interpret os_plain 200
        (input_loadBuffer (cstr "echo a; echo b") (shell_start 1 [])) = .ok () s1 ∧
      executed s1.log = [[cstr "echo", cstr "a"], [cstr "echo", cstr "b"]]) :=
  ⟨⟨_, by rfl, by rfl⟩, ⟨_, by rfl, by rfl⟩, ⟨_, by rfl, by rfl⟩⟩

/-- C38 (the code at the failing input): the history holds `ls` and then `pwd`,
and one up arrow from the live line has brought the editor to `history_index`
1, showing `pwd`; entry 1, `ls`, exists. A further up arrow shows `ls` with the
index at 2; the down arrow then lowers the index to 1 and copies
`history_get(1)`, so the buffer shows `ls` again, not `pwd`. -/
theorem down_arrow_not_inverse :
    ∃ s1 s2 s3,
      input_key_up
        { history_appends [cstr "ls\n", cstr "pwd\n"] (history_load (shell_start 1 [])) with
            input_buffer := some (cstr "abc" ++ [0]), input_buffer_len := 3,
            essence_prompt_x := 3 } = .ok () s1 ∧
      s1.history_index = 1 ∧ s1.input_buffer = some (cstr "pwd" ++ [0]) ∧
      history_get 1 s1 = some (cstr "ls") ∧
      input_key_up s1 = .ok () s2 ∧
      s2.history_index = 2 ∧ s2.input_buffer = some (cstr "ls" ++ [0]) ∧
      input_key_down s2 = .ok () s3 ∧
      s3.history_index = 1 ∧ s3.input_buffer = some (cstr "ls" ++ [0]) :=
  ⟨_, _, _, by rfl, by rfl, by rfl, by rfl, by rfl, by rfl, by rfl, by rfl, by rfl, by rfl⟩

/-- C39 (the code at the failing input): the history holds the entry `a`. When
the editor starts, `input_buffer_len` is 0 and `input_buffer_size` is 512, the
size of the allocation. The up arrow copies the entry into a new buffer of 512
bytes and sets `input_buffer_size` to `strlen(h)`, here 1, equal to
`input_buffer_len`. The byte `b` typed next meets the growth test with
`1 + 1 >= 1`: the buffer is reallocated to `input_buffer_size * 2`, 2 bytes, and
the insert then stores `b` at index 1 and the NUL at index 2, a third byte,
past the allocation. -/
theorem up_arrow_breaks_buffer_size :
    ∃ s1 s2,
      (input_editor_start (history_appends [cstr "a\n"]
          (history_load (shell_start 1 [])))).input_buffer_len = 0 ∧
      (input_editor_start (history_appends [cstr "a\n"]
          (history_load (shell_start 1 [])))).input_buffer_size = 512 ∧
      (input_editor_start (history_appends [cstr "a\n"]
          (history_load (shell_start 1 [])))).input_buffer_alloc = 512 ∧
      input_key_up (input_editor_start (history_appends [cstr "a\n"]
          (history_load (shell_start 1 [])))) = .ok () s1 ∧
      s1.input_buffer_len = 1 ∧ s1.input_buffer_size = 1 ∧ s1.input_buffer_alloc = 512 ∧
      input_key_insert 98 s1 = .fault s2 ∧
      s2.input_buffer = some (cstr "a" ++ [0]) ∧
      s2.input_buffer_len = 1 ∧ s2.input_buffer_size = 2 ∧ s2.input_buffer_alloc = 2 ∧
      s2.input_buffer_alloc < s2.input_buffer_len + 2 :=
  ⟨_, _, by rfl, by rfl, by rfl, by rfl, by rfl, by rfl, by rfl, by rfl, by rfl, by rfl,
    by rfl, by rfl, by decide⟩

/-! ## Builtins -/

/-- What putenv calls add to the log. -/
theorem foldl_shell_putenv_log (strs : List (List Int)) :
    ∀ s : Shell, (strs.foldl shell_putenv s).log = s.log ++ strs.map Event.putenv := by
  induction strs with
  | nil => intro s; simp
  | cons a t ih =>
    intro s
    rw [List.foldl_cons, ih]
    simp [shell_putenv]

/-- A builtin that returns has added to the log nothing but the putenv calls of
`export`: it has not forked and has called no builtin. -/
theorem builtin_call_log (os : OS) (f : builtin_func) (argc : Nat) (argv : List (List Int))
    (s s0 : Shell) (ret : Int) (h : builtin_call os f argc argv s = .ok ret s0) :
    ∃ strs : List (List Int), s0.log = s.log ++ strs.map Event.putenv := by
  cases f
  · refine ⟨[], ?_⟩
    unfold builtin_call at h
    simp only at h
    split_ifs at h <;> simp only [Res.ok.injEq] at h <;> rw [← h.2] <;> simp
  · refine ⟨[], ?_⟩
    unfold builtin_call at h
    simp only at h
    split_ifs at h <;> simp only [Res.ok.injEq] at h <;> rw [← h.2] <;> simp
  · refine ⟨[], ?_⟩
    unfold builtin_call at h
    simp only [Res.ok.injEq] at h
    rw [← h.2]
    simp
  · unfold builtin_call at h
    simp at h
  · unfold builtin_call at h
    simp only at h
    split_ifs at h
    · refine ⟨[], ?_⟩
      simp only [Res.ok.injEq] at h
      rw [← h.2]
      simp
    · refine ⟨argv.drop 1, ?_⟩
      simp only [Res.ok.injEq] at h
      rw [← h.2]
      exact foldl_shell_putenv_log _ _

/-- C31: for every command with `argc` above 0. When `argv[0]` is the name of an
entry of `builtin_list` (the names are `cd`, `pwd`, `help`, `exit`, `export`),
`command_execute` is the call of the function of that entry with the argc and
the argv of the command, followed, when the function returns, by the
assignment of the value to `cmd_last_exit_status` and its return: the log gains
the putenv calls of the builtin and one builtin event, and no fork. When
`argv[0]` is none of the five names, `command_execute` forks and waits, and no
builtin is called. -/
theorem command_execute_builtin (os : OS) (command : command_t) (s : Shell)
    (hargc : command.argc ≠ 0) :
    builtin_list.map Prod.fst =
      [cstr "cd", cstr "pwd", cstr "help", cstr "exit", cstr "export"] ∧
    (∀ f, (command.argv.getD 0 [], f) ∈ builtin_list →
      command_execute os command s =
        ((builtin_call os f command.argc command.argv s).bind fun ret s0 =>
          .ok ret { s0 with cmd_last_exit_status := ret,
                            log := s0.log ++ [Event.builtin command.argv ret] }) ∧
      ∀ ret s1, command_execute os command s = .ok ret s1 →
        s1.cmd_last_exit_status = ret ∧
        spawned s1.log = spawned s.log ∧
        builtins_called s1.log = builtins_called s.log ++ [command.argv]) ∧
    (command.argv.getD 0 [] ∉
        [cstr "cd", cstr "pwd", cstr "help", cstr "exit", cstr "export"] →
      command_execute os command s =
        (match os.waitpid s command with
         | none => .halt 1 { s with log := s.log ++ [Event.spawn command none] }
         | some wstatus =>
           .ok (WEXITSTATUS wstatus)
             { s with log := s.log ++ [Event.spawn command (some wstatus)],
                      cmd_last_signalled := WIFSIGNALED wstatus,
                      cmd_last_exit_status := WEXITSTATUS wstatus,
                      cmd_waitpid_exit_status := wstatus }) ∧
      ∀ ret s1, command_execute os command s = .ok ret s1 →
        builtins_called s1.log = builtins_called s.log ∧
        spawned s1.log = spawned s.log ++ [command]) := by
  refine ⟨by rfl, ?_, ?_⟩
  · intro f hf
    have heq : command_execute os command s =
        ((builtin_call os f command.argc command.argv s).bind fun ret s0 =>
          .ok ret { s0 with cmd_last_exit_status := ret,
                            log := s0.log ++ [Event.builtin command.argv ret] }) := by
      unfold command_execute
      rw [if_neg hargc]
      simp only [builtin_list, List.mem_cons, Prod.mk.injEq, List.mem_singleton,
        List.not_mem_nil, or_false] at hf
      rcases hf with ⟨hn, hf⟩ | ⟨hn, hf⟩ | ⟨hn, hf⟩ | ⟨hn, hf⟩ | ⟨hn, hf⟩ <;>
        (rw [hn, hf]; rfl)
    refine ⟨heq, ?_⟩
    intro ret s1 h
    rw [heq, Res.bind_eq_ok] at h
    obtain ⟨r0, s0, hcall, h⟩ := h
    simp only [Res.ok.injEq] at h
    obtain ⟨strs, hlog⟩ := builtin_call_log os f _ _ s s0 r0 hcall
    rw [← h.2, ← h.1]
    refine ⟨rfl, ?_, ?_⟩
    · simp only [hlog, spawned, List.filterMap_append]
      simp [List.filterMap_map]
    · simp only [hlog, builtins_called, List.filterMap_append]
      simp [List.filterMap_map]
  · intro hn
    have hfind : builtin_list.find? (fun b => b.1 == command.argv.getD 0 []) = none := by
      rw [List.find?_eq_none]
      intro b hb
      simp only [List.mem_cons, List.mem_singleton, List.not_mem_nil, or_false, not_or] at hn
      simp only [builtin_list, List.mem_cons, List.mem_singleton, List.not_mem_nil,
        or_false] at hb
      rcases hb with hb | hb | hb | hb | hb <;> rw [hb] <;> simp only [beq_iff_eq]
      · exact fun h => hn.1 h.symm
      · exact fun h => hn.2.1 h.symm
      · exact fun h => hn.2.2.1 h.symm
      · exact fun h => hn.2.2.2.1 h.symm
      · exact fun h => hn.2.2.2.2 h.symm
    have heq : command_execute os command s =
        (match os.waitpid s command with
         | none => .halt 1 { s with log := s.log ++ [Event.spawn command none] }
         | some wstatus =>
           .ok (WEXITSTATUS wstatus)
             { s with log := s.log ++ [Event.spawn command (some wstatus)],
                      cmd_last_signalled := WIFSIGNALED wstatus,
                      cmd_last_exit_status := WEXITSTATUS wstatus,
                      cmd_waitpid_exit_status := wstatus }) := by
      unfold command_execute
      rw [if_neg hargc, hfind]
      cases os.waitpid s command <;> rfl
    refine ⟨heq, ?_⟩
    intro ret s1 h
    rw [heq] at h
    cases hw : os.waitpid s command with
    | none => rw [hw] at h; cases h
    | some w =>
      rw [hw] at h
      simp only [Res.ok.injEq] at h
      rw [← h.2]
      constructor
      · simp [builtins_called, List.filterMap_append]
      · simp [spawned, List.filterMap_append]

/-- Witness for C31: the command `cd /tmp` goes to the builtin `cd` and the
command `ls` is forked. -/
theorem command_execute_builtin_witness :
    (command_execute os_plain
        (COMMAND_PUSH_ARGV (COMMAND_PUSH_ARGV COMMAND_INIT (cstr "cd")) (cstr "/tmp"))
        (shell_start 1 []) =
      ((builtin_call os_plain .cd 2 [cstr "cd", cstr "/tmp"] (shell_start 1 [])).bind
        fun ret s0 =>
          .ok ret { s0 with cmd_last_exit_status := ret,
                            log := s0.log ++ [Event.builtin [cstr "cd", cstr "/tmp"] ret] })) ∧
    (∀ ret s1, command_execute os_plain (COMMAND_PUSH_ARGV COMMAND_INIT (cstr "ls"))
        (shell_start 1 []) = .ok ret s1 →
      builtins_called s1.log = builtins_called (shell_start 1 []).log ∧
      spawned s1.log = spawned (shell_start 1 []).log ++
        [COMMAND_PUSH_ARGV COMMAND_INIT (cstr "ls")]) :=
  ⟨((command_execute_builtin os_plain
        (COMMAND_PUSH_ARGV (COMMAND_PUSH_ARGV COMMAND_INIT (cstr "cd")) (cstr "/tmp"))
        (shell_start 1 []) (by decide)).2.1 .cd (by decide)).1,
   ((command_execute_builtin os_plain (COMMAND_PUSH_ARGV COMMAND_INIT (cstr "ls"))
        (shell_start 1 []) (by decide)).2.2 (by decide)).2⟩

/-! ## Runs of `|` -/

/-- C32 (counterexample): the run `||||`, lexed from a shell that has just
started with prev threaded as the parser does, gives two OR tokens: after the
first OR the token passed as prev is an OR, not a PIPE, so the third and the
fourth `|` are merged as the first two were. -/
theorem lexer_four_pipes_two_or :
    lexer_tokens 10 10 none (input_loadBuffer (cstr "||||") (shell_start 1 [])) =
      [{ type := .OR, value := [] }, { type := .OR, value := [] },
       { type := .NEWLINE, value := [] }] := by
  decide

/-- C32 (amended): with the unget slot empty and prev not a PIPE, when the next
characters are a run of `n` characters `|` followed by a character `d` that is a
token by itself, lexing with prev threaded as the parser does returns at every
call and yields `n / 2` OR tokens, then one PIPE token when `n` is odd, then the
token of `d`: the run is merged in pairs from its start. -/
theorem lexer_pipe_run (fuel : Nat) (d : Int) (hd0 : d ≠ 0)
    (hd1 : token_characterToType d ≠ .STRING) (hd2 : token_characterToType d ≠ .PIPE)
    (hd3 : token_characterToType d ≠ .AMPERSAND) (n : Nat) (prev : Option token_t) (s : Shell)
    (hu : s.lexer_unget = none) (hprev : prev.map (fun p => p.type) ≠ some .PIPE)
    (hin : (input_getCharacters (n + 1) s).1 = List.replicate n 124 ++ [d]) :
    lexer_tokens (fuel + 3) (n / 2 + n % 2 + 1) prev s =
      List.replicate (n / 2) { type := .OR, value := [] } ++
      List.replicate (n % 2) { type := .PIPE, value := [] } ++
      [{ type := token_characterToType d, value := [] }] := by
  induction n using Nat.twoStepInduction generalizing prev s with
  | zero =>
    simp only [input_getCharacters, List.replicate_zero, List.nil_append, List.cons.injEq,
      and_true] at hin
    show lexer_tokens (fuel + 3) 1 prev s = _
    rw [lexer_tokens, lexer_getToken_single (fuel + 2) prev s d hu hin hd0 hd1 hd2 hd3]
    rfl
  | one =>
    simp only [input_getCharacters, List.replicate_one, List.singleton_append,
      List.cons.injEq, and_true] at hin
    obtain ⟨h1, h2⟩ := hin
    have hp : token_characterToType 124 = .PIPE := by decide
    have hu1 : (input_getCharacter s).2.lexer_unget = none := by
      rw [input_getCharacter_unget, hu]
    show lexer_tokens (fuel + 3) 2 prev s = _
    rw [lexer_tokens, lexer_getToken_char (fuel + 2) prev s 124 hu h1 (by decide)]
    simp only [hp]
    rw [lexer_getToken_single (fuel + 1) _ _ d hu1 h2 hd0 hd1 hd2 hd3]
    simp only [hprev, ne_eq, not_false_eq_true, and_self, if_true, Res.bind_ok, hd2,
      if_false, reduceCtorEq]
    rw [lexer_tokens, lexer_getToken_slot (fuel + 2) _ _ _ rfl]
    rfl
  | more n ih _ =>
    have e : n + 2 + 1 = 2 + (n + 1) := by omega
    rw [e, input_getCharacters_add 2 (n + 1) s] at hin
    simp only [List.replicate_succ] at hin
    have hlen : (input_getCharacters 2 s).1.length = ([124, 124] : List Int).length := by
      rw [input_getCharacters_length]; rfl
    have hin2 : (input_getCharacters 2 s).1 ++
        (input_getCharacters (n + 1) (input_getCharacters 2 s).2).1 =
        [124, 124] ++ (List.replicate n 124 ++ [d]) := by
      simpa using hin
    obtain ⟨hfirst, hrest⟩ := List.append_inj hin2 hlen
    have hu2 : (input_getCharacters 2 s).2.lexer_unget = none := by
      rw [(input_getCharacters_keeps 2 s).2.2.2.2, hu]
    have hih := ih (some { type := .OR, value := [] }) (input_getCharacters 2 s).2 hu2
      (by decide) hrest
    have e1 : (n + 2) / 2 = n / 2 + 1 := by omega
    have e2 : (n + 2) % 2 = n % 2 := by omega
    have e3 : n / 2 + 1 + n % 2 + 1 = (n / 2 + n % 2 + 1) + 1 := by omega
    rw [e1, e2, e3, lexer_tokens, (lexer_getToken_double (fuel + 1) prev s hu).1 hprev hfirst]
    simp only
    rw [hih, List.replicate_succ]
    rfl

/-- Witness for C32 (amended): the run `|||||` followed by a newline gives OR,
OR, PIPE and NEWLINE. -/
theorem lexer_pipe_run_witness :
    lexer_tokens (7 + 3) (5 / 2 + 5 % 2 + 1) none
        (input_loadBuffer (cstr "|||||") (shell_start 1 [])) =
      List.replicate (5 / 2) { type := .OR, value := [] } ++
      List.replicate (5 % 2) { type := .PIPE, value := [] } ++
      [{ type := token_characterToType 10, value := [] }] :=
  lexer_pipe_run 7 10 (by decide) (by decide) (by decide) (by decide) 5 none
    (input_loadBuffer (cstr "|||||") (shell_start 1 [])) rfl (by decide) (by decide)

/-! ## The buffer of `-c` and the end of lexing -/

/-- At the end of the buffer the character layer delivers NUL for ever. -/
theorem input_getCharacters_end (k : Nat) :
    ∀ (s : Shell) (b : List Int), s.essence_unread_character = 0 → s.input_buffer = some b →
      (s.input_buffer_idx > s.input_buffer_len ∨
        (s.input_buffer_idx = s.input_buffer_len ∧ b.getD s.input_buffer_idx 0 = 0)) →
      (input_getCharacters k s).1 = List.replicate k 0 := by
  induction k with
  | zero => intro s b _ _ _; rfl
  | succ k ih =>
    intro s b h0 hb hend
    have hne : ¬ (s.essence_unread_character ≠ 0) := by simp [h0]
    rcases hend with hgt | ⟨heq, hz⟩
    · have hstep : input_getCharacter s = (0, s) := by
        unfold input_getCharacter
        rw [if_neg hne]
        simp only [hb]
        rw [if_pos hgt]
      show (input_getCharacter s).1 :: (input_getCharacters k (input_getCharacter s).2).1 = _
      rw [hstep, List.replicate_succ]
      simp only
      rw [ih s b h0 hb (Or.inl hgt)]
    · have hstep : input_getCharacter s =
          (0, { s with input_buffer_idx := s.input_buffer_idx + 1 }) := by
        unfold input_getCharacter
        rw [if_neg hne]
        simp only [hb]
        rw [if_neg (by omega), hz]
      show (input_getCharacter s).1 :: (input_getCharacters k (input_getCharacter s).2).1 = _
      rw [hstep, List.replicate_succ]
      exact congrArg (List.cons 0)
        (ih { s with input_buffer_idx := s.input_buffer_idx + 1 } b h0 hb
          (Or.inl (by show s.input_buffer_idx + 1 > s.input_buffer_len; omega)))

/-- A buffer that holds `pre`, `cs` and a NUL, read from the index after `pre`,
delivers `cs`. -/
theorem input_delivers_buffer (cs : List Int) :
    ∀ (s : Shell) (pre : List Int), s.essence_unread_character = 0 →
      s.input_buffer = some (pre ++ cs ++ [0]) → s.input_buffer_idx = pre.length →
      s.input_buffer_len = (pre ++ cs).length → input_delivers s cs := by
  induction cs with
  | nil =>
    intro s pre h0 hb hi hl k
    simp only [List.length_nil, Nat.zero_add, List.nil_append]
    apply input_getCharacters_end k s _ h0 hb
    right
    simp only [List.append_nil] at hl ⊢
    refine ⟨by rw [hi, hl], ?_⟩
    rw [hi, List.getD_eq_getElem?_getD, List.getElem?_append_right (Nat.le_refl _)]
    simp
  | cons c cs ih =>
    intro s pre h0 hb hi hl k
    have hne : ¬ (s.essence_unread_character ≠ 0) := by simp [h0]
    have hget : (pre ++ c :: cs ++ [0]).getD pre.length 0 = c := by
      rw [List.append_assoc, List.getD_eq_getElem?_getD,
        List.getElem?_append_right (Nat.le_refl _)]
      simp
    have hstep : input_getCharacter s =
        (c, { s with input_buffer_idx := s.input_buffer_idx + 1 }) := by
      unfold input_getCharacter
      rw [if_neg hne]
      simp only [hb]
      rw [if_neg (by rw [hi, hl]; simp only [List.length_append, List.length_cons]; omega),
        hi, hget]
    have hrec := ih { s with input_buffer_idx := s.input_buffer_idx + 1 } (pre ++ [c]) h0
      (by
        show s.input_buffer = some (pre ++ [c] ++ cs ++ [0])
        rw [hb]
        simp only [List.append_assoc, List.singleton_append])
      (by
        show s.input_buffer_idx + 1 = (pre ++ [c]).length
        rw [hi, List.length_append, List.length_singleton])
      (by
        show s.input_buffer_len = (pre ++ [c] ++ cs).length
        rw [hl, List.append_assoc, List.singleton_append]) k
    have e : (c :: cs).length + k = (cs.length + k) + 1 := by
      simp only [List.length_cons]; omega
    rw [e]
    show (input_getCharacter s).1 ::
      (input_getCharacters (cs.length + k) (input_getCharacter s).2).1 = _
    rw [hstep]
    simp only
    rw [hrec]
    rfl

/-- What `input_loadBuffer` leaves to read: the string and a newline, cut to 511
bytes. -/
theorem input_delivers_loadBuffer (str : List Int) (s0 : Shell) (hstr : ∀ c ∈ str, c ≠ 0) :
    input_delivers (input_loadBuffer str s0) ((str ++ [10]).take 511) := by
  apply input_delivers_buffer _ _ [] rfl
  · simp only [input_loadBuffer, snprintf, c_str_of_ne_zero str hstr, List.nil_append]
  · rfl
  · simp only [input_loadBuffer, snprintf, c_str_of_ne_zero str hstr, List.nil_append]

/-- One more character than `n`: the next character, then `n`. -/
theorem input_getCharacters_succ (n : Nat) (s : Shell) :
    input_getCharacters (n + 1) s =
      ((input_getCharacter s).1 :: (input_getCharacters n (input_getCharacter s).2).1,
       (input_getCharacters n (input_getCharacter s).2).2) := rfl

/-- When `c :: cs` is left to read, the next character is `c` and `cs` is left. -/
theorem input_delivers_cons (s : Shell) (c : Int) (cs : List Int)
    (h : input_delivers s (c :: cs)) :
    (input_getCharacter s).1 = c ∧ input_delivers (input_getCharacter s).2 cs := by
  have key : ∀ k, (input_getCharacter s).1 = c ∧
      (input_getCharacters (cs.length + k) (input_getCharacter s).2).1 =
        cs ++ List.replicate k 0 := by
    intro k
    have hk := h k
    have e : (c :: cs).length + k = (cs.length + k) + 1 := by
      simp only [List.length_cons]; omega
    rw [e, input_getCharacters_succ] at hk
    simp only [List.cons_append, List.cons.injEq] at hk
    exact hk
  exact ⟨(key 0).1, fun k => (key k).2⟩

/-- When nothing is left to read, the next character is NUL and nothing is left. -/
theorem input_delivers_nil (s : Shell) (h : input_delivers s []) :
    (input_getCharacter s).1 = 0 ∧ input_delivers (input_getCharacter s).2 [] := by
  have key : ∀ k, (input_getCharacter s).1 = 0 ∧
      (input_getCharacters k (input_getCharacter s).2).1 = List.replicate k 0 := by
    intro k
    have hk := h (k + 1)
    simp only [List.length_nil, Nat.zero_add, List.nil_append] at hk
    rw [input_getCharacters_succ, List.replicate_succ] at hk
    simp only [List.cons.injEq] at hk
    exact hk
  refine ⟨(key 0).1, fun k => ?_⟩
  simp only [List.length_nil, Nat.zero_add, List.nil_append]
  exact (key k).2

/-- A character given back is read first. -/
theorem input_delivers_unget (s : Shell) (cs : List Int) (d : Int) (h : input_delivers s cs)
    (h0 : s.essence_unread_character = 0) (hd : d ≠ 0) :
    input_delivers (input_ungetCharacter d s) (d :: cs) := by
  intro k
  have e : (d :: cs).length + k = (cs.length + k) + 1 := by
    simp only [List.length_cons]; omega
  rw [e, input_getCharacters_succ, input_getCharacter_unget_char d s hd h0]
  simp only [List.cons_append, List.cons.injEq, true_and]
  exact h k

/-- After the first part of what is left was read, the second part is left. -/
theorem input_delivers_take (s : Shell) (a b : List Int) (h : input_delivers s (a ++ b)) :
    (input_getCharacters a.length s).1 = a ∧
    input_delivers (input_getCharacters a.length s).2 b := by
  have key : ∀ k, (input_getCharacters a.length s).1 = a ∧
      (input_getCharacters (b.length + k) (input_getCharacters a.length s).2).1 =
        b ++ List.replicate k 0 := by
    intro k
    have hk := h k
    have e : (a ++ b).length + k = a.length + (b.length + k) := by
      rw [List.length_append]; omega
    rw [e, input_getCharacters_add, List.append_assoc] at hk
    simp only at hk
    exact List.append_inj hk (input_getCharacters_length _ _)
  exact ⟨(key 0).1, fun k => (key k).2⟩

/-- The character layer does not look at the unget slot of the lexer. -/
theorem input_getCharacter_slot (x : Option token_t) (s : Shell) :
    input_getCharacter { s with lexer_unget := x } =
      ((input_getCharacter s).1, { (input_getCharacter s).2 with lexer_unget := x }) := by
  unfold input_getCharacter
  simp only
  split
  · rfl
  · split
    · rfl
    · split <;> rfl

/-- The character layer does not look at the unget slot of the lexer. -/
theorem input_getCharacters_slot (x : Option token_t) (n : Nat) :
    ∀ s : Shell, (input_getCharacters n { s with lexer_unget := x }).1 =
      (input_getCharacters n s).1 := by
  induction n with
  | zero => intro s; rfl
  | succ n ih =>
    intro s
    rw [input_getCharacters_succ, input_getCharacters_succ, input_getCharacter_slot]
    simp only
    rw [ih]

/-- What is left to read does not depend on the unget slot of the lexer. -/
theorem input_delivers_slot (x : Option token_t) (s : Shell) (cs : List Int)
    (h : input_delivers s cs) : input_delivers { s with lexer_unget := x } cs := by
  intro k
  rw [input_getCharacters_slot]
  exact h k

/-- The rest of a line holds no NUL. -/
theorem line_rest_ne_zero (cs : List Int) (h : line_rest cs) : ∀ c ∈ cs, c ≠ 0 := by
  rcases h with h | ⟨t, h, ht⟩
  · rw [h]; intro c hc; cases hc
  · rw [h]
    intro c hc
    rcases List.mem_append.mp hc with hc | hc
    · exact ht c hc
    · simp only [List.mem_singleton] at hc
      rw [hc]; decide

/-- The rest of a line without its first character is the rest of a line, and is
not empty unless that character is the newline. -/
theorem line_rest_tail (c : Int) (cs : List Int) (h : line_rest (c :: cs)) :
    line_rest cs ∧ (c ≠ 10 → cs ≠ []) := by
  rcases h with h | ⟨t, h, ht⟩
  · cases h
  · cases t with
    | nil =>
      simp only [List.nil_append, List.cons.injEq] at h
      refine ⟨Or.inl h.2, fun hc => absurd h.1 hc⟩
    | cons a t =>
      simp only [List.cons_append, List.cons.injEq] at h
      refine ⟨Or.inr ⟨t, h.2, fun x hx => ht x (List.mem_cons_of_mem _ hx)⟩, fun _ => ?_⟩
      rw [h.2]
      simp

/-- A later part of the rest of a line is the rest of a line. -/
theorem line_rest_suffix (a b : List Int) (h : line_rest (a ++ b)) : line_rest b := by
  induction a with
  | nil => exact h
  | cons c a ih => exact ih (line_rest_tail c (a ++ b) h).1

/-- The rest of a line, when not empty, begins with a run of STRING-class
characters, possibly empty, that a character of another class ends. -/
theorem line_rest_run (cs : List Int) : line_rest cs → cs ≠ [] →
    ∃ run d rest, cs = run ++ d :: rest ∧ (∀ c ∈ run, token_characterToType c = .STRING) ∧
      token_characterToType d ≠ .STRING ∧ d ≠ 0 := by
  induction cs with
  | nil => intro _ h; exact absurd rfl h
  | cons c cs ih =>
    intro h _
    by_cases hc : token_characterToType c = .STRING
    · have hne : c ≠ 10 := by
        intro h10
        rw [h10] at hc
        exact absurd hc (by decide)
      obtain ⟨ht, hcs⟩ := line_rest_tail c cs h
      obtain ⟨run, d, rest, e, hrun, hd, hd0⟩ := ih ht (hcs hne)
      refine ⟨c :: run, d, rest, by rw [e]; rfl, ?_, hd, hd0⟩
      intro x hx
      rcases List.mem_cons.mp hx with hx | hx
      · rw [hx]; exact hc
      · exact hrun x hx
    · exact ⟨[], c, cs, rfl, (fun x hx => absurd hx (List.not_mem_nil x)), hc,
        line_rest_ne_zero _ h c (List.mem_cons_self _ _)⟩

/-- With the unget slot empty and the rest of a line left to read, not empty,
`lexer_getToken` returns a token when its budget is above the number of
characters left, and leaves a shorter rest of the line to read. -/
theorem lexer_getToken_progress : ∀ (m : Nat) (cs : List Int), cs.length ≤ m → cs ≠ [] →
    line_rest cs → ∀ (fuel : Nat) (prev : Option token_t) (s : Shell), cs.length + 1 ≤ fuel →
    s.lexer_unget = none → input_delivers s cs →
    ∃ tok s1 cs1, lexer_getToken fuel prev s = .ok (some tok) s1 ∧ input_delivers s1 cs1 ∧
      line_rest cs1 ∧ cs1.length < cs.length := by
  intro m
  induction m with
  | zero =>
    intro cs hm hne
    exact absurd (List.length_eq_zero.mp (Nat.le_zero.mp hm)) hne
  | succ m ih =>
    intro cs hm hne hline fuel prev s hfuel hu hdel
    cases cs with
    | nil => exact absurd rfl hne
    | cons c rest =>
      obtain ⟨f, rfl⟩ : ∃ f, fuel = f + 1 := ⟨fuel - 1, by omega⟩
      have hf : rest.length + 1 ≤ f := by simp only [List.length_cons] at hfuel; omega
      have hm1 : rest.length ≤ m := by simp only [List.length_cons] at hm; omega
      obtain ⟨hc, hdel1⟩ := input_delivers_cons s c rest hdel
      have hc0 : c ≠ 0 := line_rest_ne_zero _ hline c (List.mem_cons_self _ _)
      obtain ⟨hline1, hrest_ne⟩ := line_rest_tail c rest hline
      have hu1 : (input_getCharacter s).2.lexer_unget = none := by
        rw [input_getCharacter_unget, hu]
      have hlen1 : rest.length < (c :: rest).length := by simp
      rw [lexer_getToken_char f prev s c hu hc hc0]
      dsimp only
      by_cases hS : token_characterToType c = .STRING
      · rw [if_pos hS]
        have hne10 : c ≠ 10 := by intro h; rw [h] at hS; exact absurd hS (by decide)
        obtain ⟨run, d, rest2, e, hrun, hd, hd0⟩ := line_rest_run rest hline1 (hrest_ne hne10)
        have e2 : rest = (run ++ [d]) ++ rest2 := by rw [e]; simp
        rw [e2] at hdel1
        obtain ⟨hchars, hdel2⟩ := input_delivers_take _ _ _ hdel1
        have hrl : (run ++ [d]).length = run.length + 1 := by simp
        rw [hrl] at hchars hdel2
        have hrest : rest.length = run.length + 1 + rest2.length := by
          rw [e]; simp only [List.length_append, List.length_cons]; omega
        obtain ⟨g, hg⟩ : ∃ g, f = g + run.length + 1 := ⟨f - run.length - 1, by omega⟩
        rw [hg, lexer_getString_run d hd run g [c] _ hrun hchars]
        simp only [Res.bind_ok]
        refine ⟨_, _, d :: rest2, rfl, ?_, ?_, ?_⟩
        · exact input_delivers_unget _ _ _ hdel2 (input_getCharacters_unread _ _) hd0
        · apply line_rest_suffix run
          rw [← e]
          exact hline1
        · simp only [List.length_cons]; omega
      · rw [if_neg hS]
        by_cases hP : token_characterToType c = .PIPE ∧
            prev.map (fun p => p.type) ≠ some .PIPE
        · rw [if_pos hP]
          have hne10 : c ≠ 10 := by intro h; rw [h] at hP; exact absurd hP.1 (by decide)
          obtain ⟨next, s2, cs2, hnext, hdel2, hline2, hlen2⟩ :=
            ih rest hm1 (hrest_ne hne10) hline1 f _ _ hf hu1 hdel1
          rw [hnext]
          simp only [Res.bind_ok]
          by_cases hn : next.type = .PIPE
          · rw [if_pos hn]
            exact ⟨_, _, cs2, rfl, hdel2, hline2, by omega⟩
          · rw [if_neg hn]
            exact ⟨_, _, cs2, rfl, input_delivers_slot _ _ _ hdel2, hline2, by omega⟩
        · rw [if_neg hP]
          by_cases hA : token_characterToType c = .AMPERSAND ∧
              prev.map (fun p => p.type) ≠ some .AMPERSAND
          · rw [if_pos hA]
            have hne10 : c ≠ 10 := by intro h; rw [h] at hA; exact absurd hA.1 (by decide)
            obtain ⟨next, s2, cs2, hnext, hdel2, hline2, hlen2⟩ :=
              ih rest hm1 (hrest_ne hne10) hline1 f _ _ hf hu1 hdel1
            rw [hnext]
            simp only [Res.bind_ok]
            by_cases hn : next.type = .AMPERSAND
            · rw [if_pos hn]
              exact ⟨_, _, cs2, rfl, hdel2, hline2, by omega⟩
            · rw [if_neg hn]
              exact ⟨_, _, cs2, rfl, input_delivers_slot _ _ _ hdel2, hline2, by omega⟩
          · rw [if_neg hA]
            exact ⟨_, _, rest, rfl, hdel1, hline1, hlen1⟩

/-- At the end of the input, with the unget slot empty, `lexer_getToken` returns
NULL. -/
theorem lexer_getToken_end (fuel : Nat) (prev : Option token_t) (s : Shell)
    (hu : s.lexer_unget = none) (h : (input_getCharacter s).1 = 0) :
    lexer_getToken (fuel + 1) prev s = .ok none (input_getCharacter s).2 := by
  rw [lexer_getToken]
  simp only [hu, h, if_true]

/-- Calling `lexer_getToken` again and again on the rest of a line reaches the
NULL: the calls return and their number is bounded. -/
theorem lexer_run_terminates : ∀ (mu n fuel : Nat) (prev : Option token_t) (s : Shell)
    (cs : List Int), line_rest cs → input_delivers s cs →
    2 * cs.length + (if s.lexer_unget = none then 0 else 1) ≤ mu → mu + 1 ≤ n →
    cs.length + 1 ≤ fuel → ∃ toks s1, lexer_run fuel n prev s = .ok toks s1 := by
  intro mu
  induction mu with
  | zero =>
    intro n fuel prev s cs _ hdel hmu hn hfuel
    obtain ⟨n1, rfl⟩ : ∃ n1, n = n1 + 1 := ⟨n - 1, by omega⟩
    obtain ⟨f, rfl⟩ : ∃ f, fuel = f + 1 := ⟨fuel - 1, by omega⟩
    have hu : s.lexer_unget = none := by
      by_contra hc
      rw [if_neg hc] at hmu
      omega
    have hcs : cs = [] := by
      apply List.length_eq_zero.mp
      omega
    rw [hcs] at hdel
    rw [lexer_run, lexer_getToken_end f prev s hu (input_delivers_nil s hdel).1]
    exact ⟨[], _, rfl⟩
  | succ mu ih =>
    intro n fuel prev s cs hline hdel hmu hn hfuel
    obtain ⟨n1, rfl⟩ : ∃ n1, n = n1 + 1 := ⟨n - 1, by omega⟩
    obtain ⟨f, rfl⟩ : ∃ f, fuel = f + 1 := ⟨fuel - 1, by omega⟩
    cases hslot : s.lexer_unget with
    | some t =>
      rw [hslot] at hmu
      simp only [reduceCtorEq, if_false] at hmu
      obtain ⟨toks, s1, hrun⟩ := ih n1 (f + 1) (some t) { s with lexer_unget := none } cs hline
        (input_delivers_slot none s cs hdel) (by simp only [if_true]; omega) (by omega) hfuel
      rw [lexer_run, lexer_getToken_slot f prev s t hslot]
      simp only [Res.bind_ok]
      rw [hrun]
      exact ⟨_, _, rfl⟩
    | none =>
      by_cases hcs : cs = []
      · rw [hcs] at hdel
        rw [lexer_run, lexer_getToken_end f prev s hslot (input_delivers_nil s hdel).1]
        exact ⟨[], _, rfl⟩
      · obtain ⟨tok, s1, cs1, htok, hdel1, hline1, hlen1⟩ :=
          lexer_getToken_progress cs.length cs (Nat.le_refl _) hcs hline (f + 1) prev s hfuel
            hslot hdel
        rw [hslot] at hmu
        simp only [if_true] at hmu
        obtain ⟨toks, s2, hrun⟩ := ih n1 (f + 1) (some tok) s1 cs1 hline1 hdel1
          (by split <;> omega) (by omega) (by omega)
        rw [lexer_run, htok]
        simp only [Res.bind_ok]
        rw [hrun]
        exact ⟨_, _, rfl⟩

/-- When every character left to read is of STRING class, and so is the NUL of
the end of input, the loop that gathers a STRING token does not return,
whatever its budget. -/
theorem lexer_getString_hangs : ∀ (fuel : Nat) (acc : List Int) (s : Shell) (cs : List Int),
    input_delivers s cs → (∀ c ∈ cs, token_characterToType c = .STRING) →
    lexer_getString fuel acc s = .timeout := by
  intro fuel
  induction fuel with
  | zero => intro acc s cs _ _; rfl
  | succ fuel ih =>
    intro acc s cs hdel hall
    rw [lexer_getString]
    cases cs with
    | nil =>
      obtain ⟨h0, hdel1⟩ := input_delivers_nil s hdel
      rw [if_neg (by rw [h0]; decide)]
      exact ih _ _ [] hdel1 hall
    | cons c rest =>
      obtain ⟨hc, hdel1⟩ := input_delivers_cons s c rest hdel
      rw [if_neg (by rw [hc]; exact not_not.mpr (hall c (List.mem_cons_self _ _)))]
      exact ih _ _ rest hdel1 (fun x hx => hall x (List.mem_cons_of_mem _ hx))

/-- C40 (counterexample): a command string of 511 letters `a`. `snprintf` with
the size 512 cuts the string and its newline to 511 bytes, so the buffer holds
the letters and no newline: the characters delivered are the 511 letters and
then end of input. The first call of `lexer_getToken` then never returns: the
loop that gathers the STRING token takes the NUL of the end of input for a
character of the string, and goes on reading. -/
theorem input_loadBuffer_cuts_long_string :
    (input_loadBuffer (List.replicate 511 97) (shell_start 1 [])).input_buffer =
      some (List.replicate 511 97 ++ [0]) ∧
    input_delivers (input_loadBuffer (List.replicate 511 97) (shell_start 1 []))
      (List.replicate 511 97) ∧
    ¬ input_delivers (input_loadBuffer (List.replicate 511 97) (shell_start 1 []))
      (List.replicate 511 97 ++ [10]) ∧
    (∀ fuel, lexer_getToken fuel none
      (input_loadBuffer (List.replicate 511 97) (shell_start 1 [])) = .timeout) := by
  have hnz : ∀ c ∈ List.replicate 511 (97 : Int), c ≠ 0 := by
    intro c hc
    rw [List.eq_of_mem_replicate hc]
    decide
  have htake : (List.replicate 511 (97 : Int) ++ [10]).take 511 = List.replicate 511 97 :=
    List.take_left' (List.length_replicate _ _)
  have hdel : input_delivers (input_loadBuffer (List.replicate 511 97) (shell_start 1 []))
      (List.replicate 511 97) := by
    have h := input_delivers_loadBuffer (List.replicate 511 97) (shell_start 1 []) hnz
    rw [htake] at h
    exact h
  refine ⟨?_, hdel, ?_, ?_⟩
  · simp only [input_loadBuffer, snprintf, c_str_of_ne_zero _ hnz]
    rw [show 512 - 1 = 511 from rfl, htake]
  · intro h
    have h1 := h 0
    have h2 := hdel 1
    simp only [List.length_append, List.length_replicate, List.length_singleton,
      Nat.add_zero, List.replicate_zero, List.append_nil, List.replicate_one] at h1 h2
    rw [h1] at h2
    have := List.append_cancel_left h2
    exact absurd this (by decide)
  · intro fuel
    cases fuel with
    | zero => rfl
    | succ fuel =>
      have hd := input_delivers_cons _ 97 (List.replicate 510 97)
        (by rw [← List.replicate_succ]; exact hdel)
      rw [lexer_getToken_char fuel none _ 97 rfl hd.1 (by decide)]
      dsimp only
      rw [if_pos (by decide),
        lexer_getString_hangs fuel [97] _ (List.replicate 510 97) hd.2
          (fun c hc => by rw [List.eq_of_mem_replicate hc]; decide)]
      rfl

/-- C40 (amended): for every command string of at most 510 bytes, none of them
NUL, loaded with `input_loadBuffer` into a shell whose unget slot is empty, the
characters delivered by `input_getCharacter` are the string, one newline, and
then end of input; and calling `lexer_getToken` until it returns NULL, prev
threaded, does reach the NULL: every call returns within a budget of the length
plus 2, and there are at most twice the length plus 3 calls. -/
theorem input_loadBuffer_lexes (str : List Int) (s0 : Shell) (hstr : ∀ c ∈ str, c ≠ 0)
    (hlen : str.length ≤ 510) (hu : s0.lexer_unget = none) :
    input_delivers (input_loadBuffer str s0) (str ++ [10]) ∧
    ∃ toks s1, lexer_run (str.length + 2) (2 * str.length + 3) none
      (input_loadBuffer str s0) = .ok toks s1 := by
  have hdel : input_delivers (input_loadBuffer str s0) (str ++ [10]) := by
    have h := input_delivers_loadBuffer str s0 hstr
    rw [List.take_of_length_le (by rw [List.length_append, List.length_singleton]; omega)] at h
    exact h
  refine ⟨hdel, ?_⟩
  apply lexer_run_terminates (2 * (str ++ [10]).length) _ _ none _ (str ++ [10])
    (Or.inr ⟨str, rfl, hstr⟩) hdel
  · have : (input_loadBuffer str s0).lexer_unget = none := hu
    rw [if_pos this]
    omega
  · rw [List.length_append, List.length_singleton]
    omega
  · rw [List.length_append, List.length_singleton]

/-- Witness for C40 (amended): the command string `echo hi`. -/
theorem input_loadBuffer_lexes_witness :
    input_delivers (input_loadBuffer (cstr "echo hi") (shell_start 1 []))
      (cstr "echo hi" ++ [10]) ∧
    ∃ toks s1, lexer_run ((cstr "echo hi").length + 2) (2 * (cstr "echo hi").length + 3) none
      (input_loadBuffer (cstr "echo hi") (shell_start 1 [])) = .ok toks s1 :=
  input_loadBuffer_lexes (cstr "echo hi") (shell_start 1 []) (by decide) (by decide) rfl

end Essence
